import Mathlib

/-!
# ledger format adapters: OFX import, XML import and XML export

A shallow embedding of `src/ofx.cc` and `src/xml.cc`.

* C strings and `std::string` values are `String`s; character-level work goes
  through `String.data`.
* The file-static variables of each translation unit are the fields of an
  explicit state record that every handler takes and returns.
* A handler that trips an `assert`, dereferences a null pointer or throws
  returns `Except.error` with the kind of fault.
* A loop that need not end carries a bound on its rounds and yields `none` when
  the bound is used up.
-/

namespace ledger

/-! ## Part 1. Definitions -/

/-! ### `std::istream` as far as the sniffers use it, and the sniffers -/

/-- An input stream: the whole character sequence behind it, the read position
(offset from the beginning) and the two state bits the sniffers can raise. -/
structure istream where
  chars   : List Char
  pos     : Nat
  eofbit  : Bool
  failbit : Bool
deriving DecidableEq, Repr

/-- The outcome of the extraction loop of `getline`: the characters stored, the
number of characters extracted (a consumed delimiter counts), and the state
bits raised. -/
structure getline_result where
  stored   : List Char
  gcount   : Nat
  eof      : Bool
  fail     : Bool
deriving DecidableEq, Repr

/-- The extraction loop of `istream::getline(buf, n)` over the unread
characters, with `room = n - 1 - (characters stored so far)`. The three stop
conditions are tested in the order the standard gives: end of input (eofbit),
next character is the newline (extracted, not stored), no room left
(failbit). -/
def getline_loop : List Char → Nat → getline_result
  | [], _ => ⟨[], 0, true, false⟩
  | c :: cs, room =>
    if c = '\n' then ⟨[], 1, false, false⟩
    else match room with
      | 0 => ⟨[], 0, false, true⟩
      | room + 1 =>
        let r := getline_loop cs room
        ⟨c :: r.stored, r.gcount + 1, r.eof, r.fail⟩

/-- The call `in.getline(buf, n)`: returns the characters stored in `buf` before
the terminating NUL and the stream afterwards. On a stream that is not good the
sentry fails: nothing is extracted, `buf` holds the empty string and failbit is
raised. Extracting nothing at all also raises failbit. -/
def istream.getline (inp : istream) (n : Nat) : List Char × istream :=
  if inp.eofbit || inp.failbit then
    ([], { inp with failbit := true })
  else
    let r := getline_loop (inp.chars.drop inp.pos) (n - 1)
    (r.stored,
     { inp with pos := inp.pos + r.gcount,
                eofbit := r.eof,
                failbit := r.fail || r.gcount == 0 })

/-- The call `in.clear()`: all state bits are reset. -/
def istream.clear (inp : istream) : istream :=
  { inp with eofbit := false, failbit := false }

/-- The call `in.seekg(0, std::ios::beg)` on a good, seekable stream: the read
position becomes offset 0 from the beginning. On a stream with failbit raised
the call does nothing. -/
def istream.seekg_beg (inp : istream) : istream :=
  if inp.failbit then inp else { inp with pos := 0, eofbit := false }

/-- The C string held in a character buffer: the characters before the first
NUL. -/
def c_str (buf : List Char) : List Char :=
  buf.takeWhile (fun c => c != Char.ofNat 0)

/-- The test `strncmp(a, b, n) == 0`: the first `n` characters of the two C
strings agree (comparison stops at a NUL). -/
def strncmp_eq (a b : List Char) (n : Nat) : Bool :=
  (c_str a).take n == (c_str b).take n

/-- Whether `needle` occurs at the front of `hay`. -/
def starts_with : List Char → List Char → Bool
  | _, [] => true
  | [], _ :: _ => false
  | h :: hs, c :: cs => h == c && starts_with hs cs

/-- The test `strstr(hay, needle) != NULL`: the C string `needle` occurs
somewhere in the C string `hay`. -/
def strstr_found (hay needle : List Char) : Bool :=
  (c_str hay).tails.any (fun t => starts_with t (c_str needle))

/-- The function `ofx_parser_t::test` (ofx.cc 168-195): the verdict and the
stream on return. -/
def ofx_parser_t.test (inp : istream) : Bool × istream :=
  let (buf, in1) := inp.getline 79
  if strncmp_eq buf "OFXHEADER".data 9 then
    (true, in1.clear.seekg_beg)
  else if !(strncmp_eq buf "<?xml".data 5) then
    (false, in1.clear.seekg_beg)
  else
    let (buf2, in2) := in1.getline 79
    if !(strncmp_eq buf2 "<?OFX".data 5) && !(strncmp_eq buf2 "<?ofx".data 5) then
      (false, in2.clear.seekg_beg)
    else
      (true, in2.clear.seekg_beg)

/-- The function `xml_parser_t::test` (xml.cc 172-193): the verdict and the
stream on return. -/
def xml_parser_t.test (inp : istream) : Bool × istream :=
  let (buf, in1) := inp.getline 79
  if !(strncmp_eq buf "<?xml".data 5) then
    (false, in1.clear.seekg_beg)
  else
    let (buf2, in2) := in1.getline 79
    if !(strstr_found buf2 "<ledger".data) then
      (false, in2.clear.seekg_beg)
    else
      (true, in2.clear.seekg_beg)

/-! ### The canonical model as far as the adapters touch it

`journal.h`, `amount.h` and `datetime.h` are not part of the two translation
units; the records below carry the members that `ofx.cc` and `xml.cc` read and
write. -/

/-- Why a handler did not run to its end: an `assert` failed, a null pointer (or
`back()` of an empty list) was dereferenced, or a C++ exception was thrown. -/
inductive fault where
  | assertion
  | null_deref
  | exception
deriving DecidableEq, Repr

/-- Modelled from the spec: the commodity style flags of amount.h, which is not
in src (suffixed, grouping separator, thousands grouping, European decimal
comma), as a set of four independent bits. -/
structure style_flags where
  suffixed  : Bool
  separated : Bool
  thousands : Bool
  european  : Bool
deriving DecidableEq, Repr

/-- Modelled from the spec: the constant `COMMODITY_STYLE_DEFAULTS` of amount.h,
no flag set. -/
def COMMODITY_STYLE_DEFAULTS  : style_flags := ⟨false, false, false, false⟩

/-- Modelled from the spec: the constant `COMMODITY_STYLE_SUFFIXED` of amount.h,
one bit. -/
def COMMODITY_STYLE_SUFFIXED  : style_flags := ⟨true, false, false, false⟩

/-- Modelled from the spec: the constant `COMMODITY_STYLE_SEPARATED` of
amount.h, one bit. -/
def COMMODITY_STYLE_SEPARATED : style_flags := ⟨false, true, false, false⟩

/-- Modelled from the spec: the constant `COMMODITY_STYLE_THOUSANDS` of
amount.h, one bit. -/
def COMMODITY_STYLE_THOUSANDS : style_flags := ⟨false, false, true, false⟩

/-- Modelled from the spec: the constant `COMMODITY_STYLE_EUROPEAN` of amount.h,
one bit. -/
def COMMODITY_STYLE_EUROPEAN  : style_flags := ⟨false, false, false, true⟩

/-- Bitwise or of two flag sets. -/
def style_flags.lor (a b : style_flags) : style_flags :=
  ⟨a.suffixed || b.suffixed, a.separated || b.separated,
   a.thousands || b.thousands, a.european || b.european⟩

/-- The bits of `a` that are not in `b` (`a & ~b`). -/
def style_flags.clear (a b : style_flags) : style_flags :=
  ⟨a.suffixed && !b.suffixed, a.separated && !b.separated,
   a.thousands && !b.thousands, a.european && !b.european⟩

/-- Every bit set in `a` is set in `b`. -/
def style_flags.subset (a b : style_flags) : Prop :=
  (a.suffixed = true → b.suffixed = true) ∧ (a.separated = true → b.separated = true) ∧
  (a.thousands = true → b.thousands = true) ∧ (a.european = true → b.european = true)

instance (a b : style_flags) : Decidable (a.subset b) := by
  unfold style_flags.subset; infer_instance

/-- Modelled from the spec: `datetime_t` of datetime.h, which is not in src: a
point in time, with 0 the unset value that tests false. -/
abbrev datetime_t := Nat

/-- A `double` of the OFX records, by its value. -/
abbrev double := ℚ

/-- Modelled from the spec: `commodity_t` of amount.h, which is not in src: a
commodity of the process-wide registry, with its symbol, display name and
note, style flags, precision (number of fractional digits) and dated unit
prices. -/
structure commodity_t where
  symbol    : String
  name      : String
  note      : String
  flags     : style_flags
  precision : Nat
  prices    : List (datetime_t × double)
deriving DecidableEq

/-- Modelled from the spec: `add_flags` accumulates flags by bitwise or. -/
def commodity_t.add_flags (c : commodity_t) (f : style_flags) : commodity_t :=
  { c with flags := c.flags.lor f }

/-- Modelled from the spec: `drop_flags` removes the given flags. -/
def commodity_t.drop_flags (c : commodity_t) (f : style_flags) : commodity_t :=
  { c with flags := c.flags.clear f }

/-- Modelled from the spec: `set_precision` stores the precision. -/
def commodity_t.set_precision (c : commodity_t) (p : Nat) : commodity_t :=
  { c with precision := p }

/-- The commodity registry: symbol to commodity. A `commodity_t *` of the source
is the symbol under which the commodity is registered. -/
abbrev commodities_t := String → Option commodity_t

/-- Modelled from the spec: a commodity as `find_or_create` makes it when the
symbol is new: default style, precision 0, no name, note or price. -/
def commodity_t.fresh (symbol : String) : commodity_t :=
  ⟨symbol, "", "", COMMODITY_STYLE_DEFAULTS, 0, []⟩

/-- Modelled from the spec: `commodity_t::find_or_create(symbol)` of amount.cc,
which is not in src: an idempotent lookup by symbol that registers a fresh
commodity when there is none. Returns the registry afterwards (the pointer
returned is `symbol`). -/
def find_or_create (reg : commodities_t) (symbol : String) : commodities_t :=
  fun s => if s = symbol then some ((reg symbol).getD (commodity_t.fresh symbol)) else reg s

/-- Apply `f` to the commodity registered under `symbol`. -/
def commodities_modify (reg : commodities_t) (symbol : String)
    (f : commodity_t → commodity_t) : commodities_t :=
  fun s => if s = symbol then (reg symbol).map f else reg s

/-- Modelled from the spec: `amount_t` of amount.h, which is not in src: a
quantity, kept as its decimal text (`none` for the null amount), tagged with a
commodity. -/
structure amount_t where
  quantity  : Option String
  commodity : Option String
deriving DecidableEq, Repr

/-- The amount a new transaction has: no quantity, no commodity. -/
def amount_t.null : amount_t := ⟨none, none⟩

/-- Modelled from the spec: `set_commodity` binds the commodity to the amount. -/
def amount_t.set_commodity (a : amount_t) (symbol : String) : amount_t :=
  { a with commodity := some symbol }

/-- Modelled from the spec: the clearing state `transaction_t::state_t` of
journal.h, which is not in src. -/
inductive state_t where
  | UNCLEARED
  | CLEARED
  | PENDING
deriving DecidableEq, Repr

/-- Modelled from the spec: `value_t` of value.h, which is not in src, by the
types the exporter switches on; a balance is the list of its amounts in
iteration order. -/
inductive value_t where
  | BOOLEAN (b : Bool)
  | INTEGER (n : Int)
  | AMOUNT (a : amount_t)
  | BALANCE (amounts : List amount_t)
  | BALANCE_PAIR (amounts : List amount_t)
deriving DecidableEq, Repr

/-- Modelled from the spec: the reporting data attached to a transaction
(`transaction_xdata_t` of walk.h, which is not in src): the display bits the
exporter tests and sets, and the two values it renders. -/
structure transaction_xdata_t where
  to_display : Bool
  compound   : Bool
  displayed  : Bool
  value      : value_t
  total      : value_t
deriving DecidableEq, Repr

/-- Modelled from the spec: `transaction_t` of journal.h, which is not in src;
an account pointer is the account's full name, and of the flags the two bits
the adapters use are kept. -/
structure transaction_t where
  account       : Option String
  amount        : amount_t
  cost          : Option amount_t
  state         : state_t
  flag_virtual  : Bool
  flag_auto     : Bool
  note          : String
  _date         : datetime_t
  _date_eff     : datetime_t
  xdata         : Option transaction_xdata_t
deriving DecidableEq, Repr

/-- Modelled from the spec: the constructor `transaction_t(account)`, which
leaves the amount null, the state uncleared and no flag set; `transaction_t()`
passes no account. -/
def transaction_t.new (account : Option String) : transaction_t :=
  ⟨account, amount_t.null, none, state_t.UNCLEARED, false, false, "", 0, 0, none⟩

/-- Modelled from the spec: `entry_t` of journal.h, which is not in src. -/
structure entry_t where
  _date        : datetime_t
  _date_eff    : datetime_t
  code         : String
  payee        : String
  transactions : List transaction_t
deriving DecidableEq, Repr

/-- Modelled from the spec: the constructor `entry_t()`: no date, code, payee
or transaction. -/
def entry_t.new : entry_t := ⟨0, 0, "", "", []⟩

/-- Modelled from the spec: `add_transaction` appends to the ordered sequence of
transactions. -/
def entry_t.add_transaction (e : entry_t) (x : transaction_t) : entry_t :=
  { e with transactions := e.transactions ++ [x] }

/-- Apply `f` to `e.transactions.back()`; `none` when there is no transaction. -/
def entry_t.modify_back (e : entry_t) (f : transaction_t → transaction_t) : Option entry_t :=
  match e.transactions.getLast? with
  | none => none
  | some x => some { e with transactions := e.transactions.dropLast ++ [f x] }

/-- Modelled from the spec: `journal_t` of journal.h, which is not in src: the
committed entries, the full names of the accounts it knows, and the full name
of its master account. -/
structure journal_t where
  entries  : List entry_t
  accounts : List String
  master   : String
deriving DecidableEq, Repr

/-- The collaborators whose code is outside the two translation units, as
parameters of the embedding. -/
structure collab where
  /-- The balance check `journal_t::add_entry` applies to an entry. -/
  balanced       : entry_t → Bool
  /-- The amount parser: `amount_t::parse` on a text. -/
  parse_amount   : String → amount_t
  /-- The assignment of a text to a `datetime_t`. -/
  parse_datetime : String → datetime_t
  /-- The call `to_string("%Y/%m/%d")` on a `datetime_t`. -/
  date_to_string : datetime_t → String
  /-- The text `operator<<` writes for a `double`. -/
  show_double    : double → String

/-- Modelled from the spec: `journal_t::add_entry` (journal.cc), which validates
double-entry balance and either commits the entry, returning true, or rejects
it, returning false and leaving the journal as it was. -/
def journal_t.add_entry (cb : collab) (j : journal_t) (e : entry_t) : Bool × journal_t :=
  if cb.balanced e then (true, { j with entries := j.entries ++ [e] }) else (false, j)

/-- Modelled from the spec: `journal_t::find_account(name)` (journal.cc), which
resolves a full path to its account, creating the account when it is missing.
The pointer returned is `name`. -/
def journal_t.find_account (j : journal_t) (name : String) : journal_t :=
  if name ∈ j.accounts then j else { j with accounts := j.accounts ++ [name] }

/-- Modelled from the spec: `journal_t::add_account` (journal.cc), which
registers an account in the journal. -/
def journal_t.add_account (j : journal_t) (name : String) : journal_t :=
  { j with accounts := j.accounts ++ [name] }

/-- Modelled from the spec: `amount.quantity_string()`, the canonical decimal
text of the quantity. -/
def amount_t.quantity_string (a : amount_t) : String := a.quantity.getD ""

/-! ### The XML import adapter (xml.cc 22-247) -/

/-- The file-static variables of xml.cc, together with the journal that
`curr_journal` points to and the process-wide commodity registry. -/
structure xml_state where
  count        : Nat
  curr_journal : journal_t
  commodities  : commodities_t
  curr_entry   : Option entry_t
  curr_comm    : Option String
  comm_flags   : String
  curr_state   : state_t
  data         : String
  ignore       : Bool
  have_error   : String

/-- What the decoder reports: an element start with its attributes, an element
end, or a range of character data. -/
inductive xml_event where
  | start (name : String) (attrs : List (String × String))
  | close (name : String)
  | text (s : String)
deriving DecidableEq, Repr

/-- The increment `count++` of an `unsigned int`. -/
def uint_succ (n : Nat) : Nat := (n + 1) % 4294967296

/-- The handler `startElement` (xml.cc 36-59). With no attribute `attrs[0]` is
the null pointer, from which no `std::string` can be built. -/
def startElement (st : xml_state) (name : String) (attrs : List (String × String)) :
    Except fault xml_state :=
  if st.ignore then .ok st
  else if name = "entry" then
    match st.curr_entry with
    | some _ => .error fault.assertion
    | none => .ok { st with curr_entry := some entry_t.new, curr_state := state_t.UNCLEARED }
  else if name = "transaction" then
    match st.curr_entry with
    | none => .error fault.assertion
    | some e =>
      let x := transaction_t.new none
      let x := if st.curr_state ≠ state_t.UNCLEARED then { x with state := st.curr_state } else x
      .ok { st with curr_entry := some (e.add_transaction x) }
  else if name = "commodity" then
    match attrs with
    | [] => .error fault.null_deref
    | (k, v) :: _ => if k = "flags" then .ok { st with comm_flags := v } else .ok st
  else if name = "total" then
    .ok { st with ignore := true }
  else .ok st

/-- One round of the switch over a flag letter (xml.cc 125-130). -/
def apply_flag_letter (c : commodity_t) (ch : Char) : commodity_t :=
  if ch = 'P' then c.drop_flags COMMODITY_STYLE_SUFFIXED
  else if ch = 'S' then c.add_flags COMMODITY_STYLE_SEPARATED
  else if ch = 'T' then c.add_flags COMMODITY_STYLE_THOUSANDS
  else if ch = 'E' then c.add_flags COMMODITY_STYLE_EUROPEAN
  else c

/-- What the `symbol` close does to the commodity found or created (xml.cc
122-132): mark it suffixed, then run over the stashed flag letters. -/
def apply_comm_flags (c : commodity_t) (comm_flags : String) : commodity_t :=
  let c := c.add_flags COMMODITY_STYLE_SUFFIXED
  if comm_flags = "" then c else comm_flags.data.foldl apply_flag_letter c

/-- An entry-level field close: `curr_entry->... = ...`. -/
def with_entry (st : xml_state) (f : entry_t → entry_t) : Except fault xml_state :=
  match st.curr_entry with
  | none => .error fault.null_deref
  | some e => .ok { st with curr_entry := some (f e) }

/-- A transaction-level field close: `curr_entry->transactions.back()->... = ...`. -/
def with_back (st : xml_state) (f : transaction_t → transaction_t) : Except fault xml_state :=
  match st.curr_entry with
  | none => .error fault.null_deref
  | some e =>
    match e.modify_back f with
    | none => .error fault.null_deref
    | some e1 => .ok { st with curr_entry := some e1 }

/-- The `entry` branch of `endElement` (xml.cc 69-84). -/
def close_entry (cb : collab) (st : xml_state) : Except fault xml_state :=
  match st.curr_entry with
  | none => .error fault.assertion
  | some e =>
    let r := st.curr_journal.add_entry cb e
    if r.1 then
      .ok { st with curr_journal := r.2, count := uint_succ st.count, curr_entry := none }
    else
      let j1 := r.2.find_account "<Unknown>"
      let e1 := e.add_transaction (transaction_t.new (some "<Unknown>"))
      let r1 := j1.add_entry cb e1
      if r1.1 then
        .ok { st with curr_journal := r1.2, count := uint_succ st.count, curr_entry := none }
      else
        .ok { st with curr_journal := r1.2, have_error := "Entry cannot be balanced",
                      curr_entry := none }

/-- The `symbol` branch of `endElement` (xml.cc 118-133). -/
def close_symbol (st : xml_state) : Except fault xml_state :=
  match st.curr_comm with
  | some _ => .error fault.assertion
  | none =>
    let reg := find_or_create st.commodities st.data
    .ok { st with commodities :=
                    commodities_modify reg st.data (fun c => apply_comm_flags c st.comm_flags),
                  curr_comm := some st.data }

/-- The number of characters after the first `.` of a text: `data.length() - i -
1` for `i = data.find('.')`; `none` when `find` returns `npos`. -/
def fraction_digits (data : String) : Option Nat :=
  let i := data.data.indexOf '.'
  if i < data.data.length then some (data.data.length - i - 1) else none

/-- The `quantity` branch of `endElement` (xml.cc 148-160). -/
def close_quantity (cb : collab) (st : xml_state) : Except fault xml_state :=
  match st.curr_comm with
  | none => with_back st (fun x => { x with amount := cb.parse_amount st.data })
  | some sym =>
    match st.commodities sym with
    | none => .error fault.null_deref
    | some c =>
      let reg :=
        match fraction_digits st.data with
        | none => st.commodities
        | some precision =>
          if precision > c.precision then
            commodities_modify st.commodities sym (fun c => c.set_precision precision)
          else st.commodities
      match with_back st
          (fun x => { x with amount := (cb.parse_amount st.data).set_commodity sym }) with
      | .error f => .error f
      | .ok st1 => .ok { st1 with commodities := reg, curr_comm := none }

/-- The handler `endElement` (xml.cc 61-164). -/
def endElement (cb : collab) (st : xml_state) (name : String) : Except fault xml_state :=
  if st.ignore then
    if name = "total" then .ok { st with ignore := false } else .ok st
  else if name = "entry" then close_entry cb st
  else if name = "en:date" then
    with_entry st (fun e => { e with _date := cb.parse_datetime st.data })
  else if name = "en:date_eff" then
    with_entry st (fun e => { e with _date_eff := cb.parse_datetime st.data })
  else if name = "en:code" then with_entry st (fun e => { e with code := st.data })
  else if name = "en:cleared" then .ok { st with curr_state := state_t.CLEARED }
  else if name = "en:pending" then .ok { st with curr_state := state_t.PENDING }
  else if name = "en:payee" then with_entry st (fun e => { e with payee := st.data })
  else if name = "tr:account" then
    match with_back st (fun x => { x with account := some st.data }) with
    | .error f => .error f
    | .ok st1 => .ok { st1 with curr_journal := st1.curr_journal.find_account st.data }
  else if name = "tr:cleared" then with_back st (fun x => { x with state := state_t.CLEARED })
  else if name = "tr:pending" then with_back st (fun x => { x with state := state_t.PENDING })
  else if name = "tr:virtual" then with_back st (fun x => { x with flag_virtual := true })
  else if name = "tr:generated" then with_back st (fun x => { x with flag_auto := true })
  else if name = "symbol" then close_symbol st
  else if name = "quantity" then close_quantity cb st
  else if name = "tr:amount" then .ok { st with curr_comm := none }
  else .ok st

/-- The handler `dataHandler` (xml.cc 166-170). -/
def dataHandler (st : xml_state) (s : String) : xml_state :=
  if !st.ignore then { st with data := s } else st

/-- The dispatch of one decoder event to its handler. -/
def xml_step (cb : collab) (st : xml_state) : xml_event → Except fault xml_state
  | xml_event.start name attrs => startElement st name attrs
  | xml_event.close name => endElement cb st name
  | xml_event.text s => .ok (dataHandler st s)

/-- The handlers run over a sequence of events, stopping at the first fault. -/
def xml_run (cb : collab) (st : xml_state) : List xml_event → Except fault xml_state
  | [] => .ok st
  | ev :: evs =>
    match xml_step cb st ev with
    | .error f => .error f
    | .ok st1 => xml_run cb st1 evs

/-- The state within `xml_parser_t::parse`: the statics and what has been
written to `std::cerr`. -/
structure xml_parse_state where
  st   : xml_state
  cerr : List String

/-- What one round of the read loop of `xml_parser_t::parse` does once the
decoder has the line (xml.cc 222-234): the handlers run on the `events` the
decoder reports, then a pending `have_error` is printed and reset. A fault in a
handler ends the call. -/
def xml_parse_line (cb : collab) (ps : xml_parse_state) (events : List xml_event) :
    Except fault xml_parse_state :=
  match xml_run cb ps.st events with
  | .error f => .error f
  | .ok st1 =>
    if st1.have_error ≠ "" then
      .ok ⟨{ st1 with have_error := "" }, ps.cerr ++ ["Error: " ++ st1.have_error]⟩
    else .ok ⟨st1, ps.cerr⟩

/-- The statics as `xml_parser_t::parse` sets them before reading (xml.cc
203-207). -/
def xml_parse_init (st : xml_state) (journal : journal_t) : xml_state :=
  { st with count := 0, curr_journal := journal, curr_entry := none, curr_comm := none,
            ignore := false }

/-- The constant `BUFSIZ` of `<cstdio>`, which is outside src: the value glibc
gives it. -/
def BUFSIZ : Nat := 8192

/-- The decoder (expat), which is outside src, as a parameter of the embedding:
the call `XML_Parse(parser, buf, len, isFinal)` on a parser that was given the
chunks `fed` before, as the events it reports to the handlers during the call,
in order, and whether it reports success. -/
abbrev decoder := List (List Char) → List Char → Bool → List xml_event × Bool

/-- The read loop of `xml_parser_t::parse` (xml.cc 216-242), at most `fuel`
rounds of it: while `in.eof()` is false, a line is read with `in.getline(buf,
BUFSIZ - 1)`, a newline is appended to the C string in `buf`, the decoder is
called on it with `in.eof()` as the final flag and the handlers run on what it
reports, a pending `have_error` is printed, and a failure of the decoder is
thrown as a `parse_error`. The state of the stream is never cleared. Returns
`none` when the loop has not ended after `fuel` rounds. -/
def xml_parse_loop (cb : collab) (XML_Parse : decoder) :
    Nat → istream → List (List Char) → xml_parse_state → Option (Except fault xml_parse_state)
  | 0, inp, _, ps => if inp.eofbit then some (.ok ps) else none
  | fuel + 1, inp, fed, ps =>
    if inp.eofbit then some (.ok ps)
    else
      let r := inp.getline (BUFSIZ - 1)
      let chunk := c_str r.1 ++ ['\n']
      let d := XML_Parse fed chunk r.2.eofbit
      match xml_parse_line cb ps d.1 with
      | .error f => some (.error f)
      | .ok ps1 =>
        if !d.2 then some (.error fault.exception)
        else xml_parse_loop cb XML_Parse fuel r.2 (fed ++ [chunk]) ps1

/-- The function `xml_parser_t::parse` (xml.cc 195-247) on the stream `inp`,
with at most `fuel` rounds of its read loop; `st` holds the statics as an
earlier call left them. Returns the value returned and the state on return, the
fault the call ends in, or `none` when the read loop has not ended after `fuel`
rounds. -/
def xml_parser_t.parse (cb : collab) (XML_Parse : decoder) (fuel : Nat) (st : xml_state)
    (inp : istream) (journal : journal_t) : Option (Except fault (Nat × xml_parse_state)) :=
  match xml_parse_loop cb XML_Parse fuel inp [] ⟨xml_parse_init st journal, []⟩ with
  | none => none
  | some (.error f) => some (.error f)
  | some (.ok ps) => some (.ok (ps.st.count, ps))

/-! ### The OFX import adapter (ofx.cc 19-224) -/

/-- The fields of `struct OfxAccountData` that `ofx_proc_account_cb` reads. -/
structure OfxAccountData where
  account_id_valid : Bool
  account_id       : String
  account_name     : String
  currency_valid   : Bool
  currency         : String
deriving DecidableEq

/-- The fields of `struct OfxSecurityData` that `ofx_proc_security_cb` reads. -/
structure OfxSecurityData where
  unique_id_valid      : Bool
  unique_id            : String
  ticker_valid         : Bool
  ticker               : String
  currency_valid       : Bool
  currency             : String
  secname_valid        : Bool
  secname              : String
  memo_valid           : Bool
  memo                 : String
  date_unitprice_valid : Bool
  date_unitprice       : datetime_t
  unitprice_valid      : Bool
  unitprice            : double
deriving DecidableEq

/-- The fields of `struct OfxTransactionData` that `ofx_proc_transaction_cb`
reads. -/
structure OfxTransactionData where
  account_id_valid       : Bool
  account_id             : String
  units_valid            : Bool
  units                  : double
  unique_id_valid        : Bool
  unique_id              : String
  unitprice_valid        : Bool
  unitprice              : double
  date_initiated_valid   : Bool
  date_initiated         : datetime_t
  date_posted_valid      : Bool
  date_posted            : datetime_t
  check_number_valid     : Bool
  check_number           : String
  reference_number_valid : Bool
  reference_number       : String
  name_valid             : Bool
  name                   : String
  memo_valid             : Bool
  memo                   : String
deriving DecidableEq

/-- A `std::map` from strings to pointers. -/
abbrev string_map := String → Option String

/-- The call `m.insert(pair(k, v))`: an existing binding of `k` is kept. -/
def string_map.insert (m : string_map) (k v : String) : string_map :=
  fun s => if s = k then some ((m k).getD v) else m s

/-- The globals of ofx.cc, together with the journal that `curr_journal` points
to, the process-wide commodity registry and the entries printed to
`std::cerr`. -/
structure ofx_state where
  curr_journal           : journal_t
  ofx_accounts           : string_map
  ofx_account_currencies : string_map
  ofx_securities         : string_map
  master_account         : String
  commodities            : commodities_t
  cerr                   : List entry_t

/-- Modelled from the spec: the full name of the account `new account_t(parent,
name)` makes (journal.h is not in src): a child of `parent` named `name`. -/
def account_fullname (parent name : String) : String :=
  if parent = "" then name else parent ++ ":" ++ name

/-- The callback `ofx_proc_account_cb` (ofx.cc 29-50): the status returned and
the globals afterwards. -/
def ofx_proc_account_cb (st : ofx_state) (data : OfxAccountData) : Int × ofx_state :=
  if !data.account_id_valid then (-1, st)
  else
    let account := account_fullname st.master_account data.account_name
    let st1 := { st with curr_journal := st.curr_journal.add_account account,
                         ofx_accounts := st.ofx_accounts.insert data.account_id account }
    if data.currency_valid then
      let reg := find_or_create st1.commodities data.currency
      let reg := commodities_modify reg data.currency
        (fun c => c.add_flags (COMMODITY_STYLE_SUFFIXED.lor COMMODITY_STYLE_SEPARATED))
      match st1.ofx_account_currencies data.account_id with
      | none =>
        (0, { st1 with commodities := reg,
                       ofx_account_currencies :=
                         st1.ofx_account_currencies.insert data.account_id data.currency })
      | some _ => (0, { st1 with commodities := reg })
    else (0, st1)

/-- The amount text of `ofx_proc_transaction_cb` parsed (ofx.cc 72-83): the
negated units, a blank and the base symbol of the security's commodity when the
record has a unique id, of the account's default commodity otherwise. An
unregistered unique id fails the `assert`. -/
def ofx_transaction_amount (cb : collab) (st : ofx_state) (data : OfxTransactionData)
    (default_commodity : String) : Except fault amount_t :=
  let stream := cb.show_double (- data.units)
  if data.unique_id_valid then
    match st.ofx_securities data.unique_id with
    | none => .error fault.assertion
    | some s => .ok (cb.parse_amount (stream ++ " " ++ s))
  else .ok (cb.parse_amount (stream ++ " " ++ default_commodity))

/-- The entry `ofx_proc_transaction_cb` builds (ofx.cc 62-115). The one
`ostringstream stream` holds the negated units and, when a cost is attached,
receives the negated unit price after them (`cstream` is declared and not
used). -/
def ofx_transaction_entry (cb : collab) (data : OfxTransactionData)
    (account default_commodity : String) (amount : amount_t) : entry_t :=
  let stream := cb.show_double (- data.units)
  let xact := { transaction_t.new (some account) with amount := amount }
  let xact :=
    if data.unitprice_valid && data.unitprice != 1 then
      let stream := stream ++ cb.show_double (- data.unitprice)
      { xact with cost := some (cb.parse_amount (stream ++ " " ++ default_commodity)) }
    else xact
  let entry := entry_t.new
  let entry :=
    if data.date_initiated_valid then { entry with _date := data.date_initiated }
    else if data.date_posted_valid then { entry with _date := data.date_posted }
    else entry
  let entry :=
    if data.check_number_valid then { entry with code := data.check_number }
    else if data.reference_number_valid then { entry with code := data.reference_number }
    else entry
  let entry := if data.name_valid then { entry with payee := data.name } else entry
  let xact := if data.memo_valid then { xact with note := data.memo } else xact
  (entry.add_transaction xact).add_transaction (transaction_t.new (some "<Unknown>"))

/-- The end of `ofx_proc_transaction_cb` (ofx.cc 114-124): the `<Unknown>`
account is looked up, the entry is submitted, and a rejected entry is printed
and deleted. Returns the status and the globals afterwards. -/
def ofx_submit_entry (cb : collab) (st : ofx_state) (entry : entry_t) : Int × ofx_state :=
  let j1 := st.curr_journal.find_account "<Unknown>"
  let r := j1.add_entry cb entry
  if !r.1 then (-1, { st with curr_journal := r.2, cerr := st.cerr ++ [entry] })
  else (0, { st with curr_journal := r.2 })

/-- The callback `ofx_proc_transaction_cb` (ofx.cc 52-125): the status returned
and the globals afterwards, or the fault of a failing `assert`. -/
def ofx_proc_transaction_cb (cb : collab) (st : ofx_state) (data : OfxTransactionData) :
    Except fault (Int × ofx_state) :=
  if !data.account_id_valid || !data.units_valid then .ok (-1, st)
  else
    match st.ofx_accounts data.account_id with
    | none => .error fault.assertion
    | some account =>
      match st.ofx_account_currencies data.account_id with
      | none => .error fault.assertion
      | some default_commodity =>
        match ofx_transaction_amount cb st data default_commodity with
        | .error f => .error f
        | .ok amount =>
          .ok (ofx_submit_entry cb st
            (ofx_transaction_entry cb data account default_commodity amount))

/-- The callback `ofx_proc_security_cb` (ofx.cc 127-162). -/
def ofx_proc_security_cb (st : ofx_state) (data : OfxSecurityData) : Int × ofx_state :=
  if !data.unique_id_valid then (-1, st)
  else
    let symbol : Option String :=
      if data.ticker_valid then some data.ticker
      else if data.currency_valid then some data.currency
      else none
    match symbol with
    | none => (-1, st)
    | some symbol =>
      let reg := find_or_create st.commodities symbol
      let reg := commodities_modify reg symbol
        (fun c => c.add_flags (COMMODITY_STYLE_SUFFIXED.lor COMMODITY_STYLE_SEPARATED))
      let reg :=
        if data.secname_valid then
          commodities_modify reg symbol (fun c => { c with name := data.secname })
        else reg
      let reg :=
        if data.memo_valid then
          commodities_modify reg symbol (fun c => { c with note := data.memo })
        else reg
      let securities :=
        match st.ofx_securities data.unique_id with
        | none => st.ofx_securities.insert data.unique_id symbol
        | some _ => st.ofx_securities
      let reg :=
        if data.date_unitprice_valid && data.unitprice_valid then
          commodities_modify reg symbol
            (fun c => { c with prices := c.prices ++ [(data.date_unitprice, data.unitprice)] })
        else reg
      (0, { st with commodities := reg, ofx_securities := securities })

/-- A record the OFX decoder reports, by kind. -/
inductive ofx_record where
  | statement
  | account (data : OfxAccountData)
  | transaction (data : OfxTransactionData)
  | security (data : OfxSecurityData)
  | status
deriving DecidableEq

/-- The decoder hands a record to the callback registered for its kind (ofx.cc
211-215); the statement and status callbacks have empty bodies. The status a
callback returns does not stop the decoder. -/
def ofx_dispatch (cb : collab) (st : ofx_state) : ofx_record → Except fault ofx_state
  | ofx_record.statement => .ok st
  | ofx_record.account data => .ok (ofx_proc_account_cb st data).2
  | ofx_record.transaction data =>
    match ofx_proc_transaction_cb cb st data with
    | .error f => .error f
    | .ok r => .ok r.2
  | ofx_record.security data => .ok (ofx_proc_security_cb st data).2
  | ofx_record.status => .ok st

/-- The call `libofx_proc_file` on a file in which the decoder finds `records`,
in file order. -/
def ofx_run (cb : collab) (st : ofx_state) : List ofx_record → Except fault ofx_state
  | [] => .ok st
  | r :: rs =>
    match ofx_dispatch cb st r with
    | .error f => .error f
    | .ok st1 => ofx_run cb st1 rs

/-- The function `ofx_parser_t::parse` (ofx.cc 197-224) with the globals `st`
as they stand at the call; `records` is what the decoder finds in the file
named by `original_file`. Returns the value returned and the globals on
return. -/
def ofx_parser_t.parse (cb : collab) (st : ofx_state) (journal : journal_t)
    (master : Option String) (original_file : Option String) (records : List ofx_record) :
    Except fault (Nat × ofx_state) :=
  match original_file with
  | none => .ok (0, st)
  | some _ =>
    let st1 := { st with curr_journal := journal,
                         master_account := master.getD journal.master }
    match ofx_run cb st1 records with
    | .error f => .error f
    | .ok st2 => .ok (1, st2)

/-! ### The XML export adapter (xml.cc 251-474) -/

/-- The text the loop `for (int i = 0; i < n; i++) out << ' ';` writes. -/
def spaces (n : Nat) : String := String.mk (List.replicate n ' ')

/-- What `output_xml_string` writes for one character (xml.cc 353-366). -/
def xml_escape_char (c : Char) : String :=
  if c = '<' then "&lt;"
  else if c = '>' then "&rt;"
  else if c = '&' then "&amp;"
  else String.singleton c

/-- The function `output_xml_string` (xml.cc 350-368): the loop runs over
`str.c_str()` up to the first NUL. -/
def output_xml_string (str : String) : String :=
  (c_str str.data).foldl (fun out c => out ++ xml_escape_char c) ""

/-- The style flags `amount.commodity().flags()`: an amount without a
commodity, or with one the registry does not hold, has the default style. -/
def amount_flags (reg : commodities_t) (a : amount_t) : style_flags :=
  match a.commodity with
  | none => COMMODITY_STYLE_DEFAULTS
  | some sym =>
    match reg sym with
    | none => COMMODITY_STYLE_DEFAULTS
    | some c => c.flags

/-- The flag letters `xml_write_amount` writes (xml.cc 260-263). -/
def flag_letters (f : style_flags) : String :=
  (if !f.suffixed then "P" else "") ++ (if f.separated then "S" else "") ++
  (if f.thousands then "T" else "") ++ (if f.european then "E" else "")

/-- The function `xml_write_amount` (xml.cc 251-288). The lines between `#if
0` and `#endif`, which wrote the `symbol` element, are not compiled. -/
def xml_write_amount (reg : commodities_t) (amount : amount_t) (depth : Nat) : String :=
  spaces depth ++ "<amount>\n" ++
  spaces (depth + 2) ++ "<commodity flags=\"" ++ flag_letters (amount_flags reg amount) ++
    "\">\n" ++
  spaces (depth + 4) ++
  spaces (depth + 2) ++ "</commodity>\n" ++
  spaces (depth + 2) ++ "<quantity>" ++ amount.quantity_string ++ "</quantity>\n" ++
  spaces depth ++ "</amount>\n"

/-- The amounts of a balance written one after the other (xml.cc 332-335). -/
def xml_write_amounts (reg : commodities_t) (depth : Nat) : List amount_t → String
  | [] => ""
  | a :: as => xml_write_amount reg a depth ++ xml_write_amounts reg depth as

/-- The function `xml_write_value` (xml.cc 290-348). -/
def xml_write_value (reg : commodities_t) (value : value_t) (depth : Nat) : String :=
  spaces depth ++ "<value type=\"" ++
  (match value with
   | value_t.BOOLEAN _ => "boolean"
   | value_t.INTEGER _ => "integer"
   | value_t.AMOUNT _ => "amount"
   | value_t.BALANCE _ => "balance"
   | value_t.BALANCE_PAIR _ => "balance") ++
  "\">\n" ++
  (match value with
   | value_t.BOOLEAN b =>
     spaces (depth + 2) ++ "<boolean>" ++ (if b then "1" else "0") ++ "</boolean>\n"
   | value_t.INTEGER n =>
     spaces (depth + 2) ++ "<integer>" ++ toString n ++ "</integer>\n"
   | value_t.AMOUNT a => xml_write_amount reg a (depth + 2)
   | value_t.BALANCE amounts =>
     spaces (depth + 2) ++ "<balance>\n" ++ xml_write_amounts reg (depth + 4) amounts ++
     spaces (depth + 2) ++ "</balance>\n"
   | value_t.BALANCE_PAIR amounts =>
     spaces (depth + 2) ++ "<balance>\n" ++ xml_write_amounts reg (depth + 4) amounts ++
     spaces (depth + 2) ++ "</balance>\n") ++
  spaces depth ++ "</value>\n"

/-- The name written in the `tr:account` element (xml.cc 427-431). -/
def account_display_name (fullname : String) : String :=
  if fullname = "<Total>" then "[TOTAL]"
  else if fullname = "<Unknown>" then "[UNKNOWN]"
  else fullname

/-- Whether the loop of `format_last_entry` renders a transaction (xml.cc
397-398). -/
def transaction_t.to_display (x : transaction_t) : Bool :=
  match x.xdata with
  | none => false
  | some d => d.to_display

/-- The body of the loop of `format_last_entry` for a transaction that is to be
displayed, with reporting data `d` (xml.cc 404-464). -/
def format_transaction (cb : collab) (reg : commodities_t) (show_totals : Bool)
    (x : transaction_t) (d : transaction_xdata_t) : String :=
  "      <transaction>\n" ++
  (if x._date ≠ 0 then
     "        <tr:date>" ++ cb.date_to_string x._date ++ "</tr:date>\n" else "") ++
  (if x._date_eff ≠ 0 then
     "        <tr:date_eff>" ++ cb.date_to_string x._date_eff ++ "</tr:date_eff>\n" else "") ++
  (if x.state = state_t.CLEARED then "        <tr:cleared/>\n"
   else if x.state = state_t.PENDING then "        <tr:pending/>\n" else "") ++
  (if x.flag_virtual then "        <tr:virtual/>\n" else "") ++
  (if x.flag_auto then "        <tr:generated/>\n" else "") ++
  (match x.account with
   | none => ""
   | some fullname =>
     "        <tr:account>" ++ output_xml_string (account_display_name fullname) ++
     "</tr:account>\n") ++
  "        <tr:amount>\n" ++
  (if d.compound then xml_write_value reg d.value 10
   else xml_write_value reg (value_t.AMOUNT x.amount) 10) ++
  "        </tr:amount>\n" ++
  (match x.cost with
   | none => ""
   | some cost =>
     "        <tr:cost>\n" ++ xml_write_value reg (value_t.AMOUNT cost) 10 ++
     "        </tr:cost>\n") ++
  (if x.note ≠ "" then
     "        <tr:note>" ++ output_xml_string x.note ++ "</tr:note>\n" else "") ++
  (if show_totals then
     "        <total>\n" ++ xml_write_value reg d.total 10 ++ "        </total>\n" else "") ++
  "      </transaction>\n"

/-- The loop of `format_last_entry` over the transactions (xml.cc 393-468):
`first` as on entry to the round; returns the text written, `first`
afterwards and the transactions with the displayed ones marked. -/
def format_transactions (cb : collab) (reg : commodities_t) (show_totals : Bool) :
    Bool → List transaction_t → String × Bool × List transaction_t
  | first, [] => ("", first, [])
  | first, x :: xs =>
    match x.xdata with
    | none =>
      let r := format_transactions cb reg show_totals first xs
      (r.1, r.2.1, x :: r.2.2)
    | some d =>
      if d.to_display then
        let r := format_transactions cb reg show_totals false xs
        ((if first then "    <en:transactions>\n" else "") ++
           format_transaction cb reg show_totals x d ++ r.1,
         r.2.1, { x with xdata := some { d with displayed := true } } :: r.2.2)
      else
        let r := format_transactions cb reg show_totals first xs
        (r.1, r.2.1, x :: r.2.2)

/-- The function `format_xml_entries::format_last_entry` (xml.cc 370-474): the
text written to the output stream and the entry afterwards. -/
def format_last_entry (cb : collab) (reg : commodities_t) (show_totals : Bool)
    (last_entry : entry_t) : String × entry_t :=
  let r := format_transactions cb reg show_totals true last_entry.transactions
  ("  <entry>\n" ++
   "    <en:date>" ++ cb.date_to_string last_entry._date ++ "</en:date>\n" ++
   (if last_entry._date_eff ≠ 0 then
      "    <en:date_eff>" ++ cb.date_to_string last_entry._date_eff ++ "</en:date_eff>\n"
    else "") ++
   (if last_entry.code ≠ "" then
      "    <en:code>" ++ output_xml_string last_entry.code ++ "</en:code>\n" else "") ++
   (if last_entry.payee ≠ "" then
      "    <en:payee>" ++ output_xml_string last_entry.payee ++ "</en:payee>\n" else "") ++
   r.1 ++
   (if !r.2.1 then "    </en:transactions>\n" else "") ++
   "  </entry>\n",
   { last_entry with transactions := r.2.2 })

/-! ### Predicates the theorems are stated with -/

/-- What decides whether a handler of the XML import adapter runs to its end:
whether ignore mode is on, whether an entry is open, whether the open entry has
a transaction, and whether a commodity is pending. -/
structure xml_shape where
  ignore       : Bool
  entry_open   : Bool
  has_xact     : Bool
  comm_pending : Bool
deriving DecidableEq, Repr

/-- The shape `xml_parser_t::parse` starts from. -/
def xml_shape.initial : xml_shape := ⟨false, false, false, false⟩

/-- The shape after an event; `none` when the event meets a failing `assert`, a
null `curr_entry`, an entry without transactions, or a `commodity` start
without attributes. -/
def shape_step (sh : xml_shape) : xml_event → Option xml_shape
  | xml_event.text _ => some sh
  | xml_event.start name attrs =>
    if sh.ignore then some sh
    else if name = "entry" then
      if sh.entry_open then none else some { sh with entry_open := true, has_xact := false }
    else if name = "transaction" then
      if sh.entry_open then some { sh with has_xact := true } else none
    else if name = "commodity" then
      if attrs.isEmpty then none else some sh
    else if name = "total" then some { sh with ignore := true }
    else some sh
  | xml_event.close name =>
    if sh.ignore then
      if name = "total" then some { sh with ignore := false } else some sh
    else if name = "entry" then
      if sh.entry_open then some { sh with entry_open := false, has_xact := false } else none
    else if name = "en:date" then (if sh.entry_open then some sh else none)
    else if name = "en:date_eff" then (if sh.entry_open then some sh else none)
    else if name = "en:code" then (if sh.entry_open then some sh else none)
    else if name = "en:cleared" then some sh
    else if name = "en:pending" then some sh
    else if name = "en:payee" then (if sh.entry_open then some sh else none)
    else if name = "tr:account" then (if sh.has_xact then some sh else none)
    else if name = "tr:cleared" then (if sh.has_xact then some sh else none)
    else if name = "tr:pending" then (if sh.has_xact then some sh else none)
    else if name = "tr:virtual" then (if sh.has_xact then some sh else none)
    else if name = "tr:generated" then (if sh.has_xact then some sh else none)
    else if name = "symbol" then
      if sh.comm_pending then none else some { sh with comm_pending := true }
    else if name = "quantity" then
      if sh.has_xact then some { sh with comm_pending := false } else none
    else if name = "tr:amount" then some { sh with comm_pending := false }
    else some sh

def shape_run (sh : xml_shape) : List xml_event → Option xml_shape
  | [] => some sh
  | ev :: evs =>
    match shape_step sh ev with
    | none => none
    | some sh1 => shape_run sh1 evs

def shape_lines (sh : xml_shape) : List (List xml_event) → Option xml_shape
  | [] => some sh
  | l :: ls =>
    match shape_run sh l with
    | none => none
    | some sh1 => shape_lines sh1 ls

/-- No handler precondition fails along the lines of an input. -/
def handlers_safe (lines : List (List xml_event)) : Bool :=
  (shape_lines xml_shape.initial lines).isSome

/-- The number of events in the lines of an input. -/
def event_count (lines : List (List xml_event)) : Nat :=
  (lines.map List.length).sum

/-- The state `st` of the adapter has the shape `sh`. -/
def has_shape (st : xml_state) (sh : xml_shape) : Prop :=
  st.ignore = sh.ignore ∧
  st.curr_entry.isSome = sh.entry_open ∧
  (sh.has_xact = true → ∃ e, st.curr_entry = some e ∧ e.transactions ≠ []) ∧
  st.curr_comm.isSome = sh.comm_pending ∧
  (∀ sym, st.curr_comm = some sym → (st.commodities sym).isSome = true) ∧
  (sh.has_xact = false → ∀ e, st.curr_entry = some e → e.transactions = [])

/-- The element names `endElement` has a branch for. -/
def close_names : List String :=
  ["entry", "en:date", "en:date_eff", "en:code", "en:cleared", "en:pending", "en:payee",
   "tr:account", "tr:cleared", "tr:pending", "tr:virtual", "tr:generated", "symbol",
   "quantity", "tr:amount"]

/-- What a step may touch of the registry, the journal's entries and the count. -/
def step_quiet (st st1 : xml_state) : Prop :=
  st1.commodities = st.commodities ∧
  st1.curr_journal.entries = st.curr_journal.entries ∧ st1.count = st.count

/-- Since the journal `j0`, the entries `added` were committed, the count is
their number as an `unsigned int`, and they are at most `n`. -/
def committed_since (j0 : journal_t) (st : xml_state) (n : Nat) : Prop :=
  ∃ added, st.curr_journal.entries = j0.entries ++ added ∧
    st.count = added.length % 4294967296 ∧ added.length ≤ n

/-- The registry after a `quantity` close with the commodity `c` pending under
`sym`. -/
def widened (reg : commodities_t) (sym : String) (c : commodity_t) (data : String) :
    commodities_t :=
  match fraction_digits data with
  | none => reg
  | some precision =>
    if precision > c.precision then
      commodities_modify reg sym (fun c => c.set_precision precision)
    else reg

/-- Every commodity of `r1` is in `r2` with a precision at least as large. -/
def precision_le (r1 r2 : commodities_t) : Prop :=
  ∀ sym c, r1 sym = some c → ∃ c2, r2 sym = some c2 ∧ c.precision ≤ c2.precision

/-- Every commodity of `r1` is in `r2` with every style flag it had. -/
def flags_kept (r1 r2 : commodities_t) : Prop :=
  ∀ sym c, r1 sym = some c → ∃ c2, r2 sym = some c2 ∧ c.flags.subset c2.flags

/-! ### Concrete collaborators, states and inputs for evaluating the adapters -/

/-- A stand-in for the collaborators: an entry balances when it has no
transaction or exactly one transaction with a null amount (which takes up the
remainder); an amount text is kept as the quantity; dates are not looked at. -/
def collab.sample : collab where
  balanced e :=
    e.transactions.isEmpty ||
      (e.transactions.filter (fun x => x.amount.quantity.isNone)).length == 1
  parse_amount s := ⟨some s, none⟩
  parse_datetime s := s.length
  date_to_string _ := "2006/03/02"
  show_double _ := "0"

def journal_t.empty : journal_t := ⟨[], [], ""⟩

/-- The statics as the program starts: zero-initialised. -/
def xml_state.initial : xml_state :=
  ⟨0, journal_t.empty, fun _ => none, none, none, "", state_t.UNCLEARED, "", false, ""⟩

/-- A transaction with the given amount text and nothing else set. -/
def transaction_t.of_amount (q : String) : transaction_t :=
  { transaction_t.new none with amount := ⟨some q, none⟩ }

/-- An entry with a single transaction of amount 5 and no balancing leg. -/
def entry_t.one_leg : entry_t :=
  { entry_t.new with payee := "Grocer", transactions := [transaction_t.of_amount "5"] }

/-- The initial statics with the entry `e` open. -/
def xml_state.with_open (e : entry_t) : xml_state :=
  { xml_state.initial with curr_entry := some e }

/-- A stream over the given text, positioned at `pos`, in good state. -/
def istream.of (s : String) (pos : Nat) : istream :=
  ⟨s.data, pos, false, false⟩

/-- The events of the lines of `sample_text`, line by line: a first entry with
one transaction of quantity 5, a second entry with two transactions without an
amount. -/
def sample_lines : List (List xml_event) :=
  [[xml_event.start "ledger" [], xml_event.text "\n"],
   [xml_event.start "entry" [], xml_event.start "transaction" [],
    xml_event.start "quantity" [], xml_event.text "5", xml_event.close "quantity",
    xml_event.close "transaction", xml_event.close "entry", xml_event.text "\n"],
   [xml_event.start "entry" [], xml_event.start "transaction" [],
    xml_event.close "transaction", xml_event.start "transaction" [],
    xml_event.close "transaction", xml_event.close "entry", xml_event.text "\n"],
   [xml_event.close "ledger"]]

/-- The globals of ofx.cc as the program starts. -/
def ofx_state.initial : ofx_state :=
  ⟨journal_t.empty, fun _ => none, fun _ => none, fun _ => none, "", fun _ => none, []⟩

/-- An account record: account id `ACC1`, name `Checking`, currency `USD`. -/
def OfxAccountData.sample : OfxAccountData := ⟨true, "ACC1", "Checking", true, "USD"⟩

/-- A transaction record on account `ACC1` with the given unit count and no
other field valid. -/
def OfxTransactionData.sample (units : double) : OfxTransactionData :=
  { account_id_valid := true, account_id := "ACC1", units_valid := true, units := units,
    unique_id_valid := false, unique_id := "", unitprice_valid := false, unitprice := 0,
    date_initiated_valid := false, date_initiated := 0,
    date_posted_valid := false, date_posted := 0,
    check_number_valid := false, check_number := "",
    reference_number_valid := false, reference_number := "",
    name_valid := false, name := "", memo_valid := false, memo := "" }

/-- A statement file with one account and two transactions on it. -/
def ofx_sample_records : List ofx_record :=
  [ofx_record.account OfxAccountData.sample,
   ofx_record.transaction (OfxTransactionData.sample (-42)),
   ofx_record.transaction (OfxTransactionData.sample 7)]

/-- The value returned by a call and the number of entries in the journal on
return; `none` when the call does not return. -/
def ofx_outcome (r : Except fault (Nat × ofx_state)) : Option (Nat × Nat) :=
  match r with
  | .error _ => none
  | .ok (n, st) => some (n, st.curr_journal.entries.length)

/-- The payee of the open entry after a run; `none` when the run faults or no
entry is open. -/
def payee_after (r : Except fault xml_state) : Option String :=
  match r with
  | .error _ => none
  | .ok st => st.curr_entry.map (fun e => e.payee)

/-- The precision of the commodity registered under `sym` after a run. -/
def precision_after (r : Except fault xml_state) (sym : String) : Option Nat :=
  match r with
  | .error _ => none
  | .ok st => (st.commodities sym).map (fun c => c.precision)

/-- An entry is open with one transaction, and the commodity `USD`, of
precision 2, is pending. -/
def xml_state.usd_pending : xml_state :=
  { xml_state.initial with
      curr_entry := some { entry_t.new with transactions := [transaction_t.new none] },
      curr_comm := some "USD",
      commodities := fun s =>
        if s = "USD" then some { commodity_t.fresh "USD" with precision := 2 } else none }

/-- The latched text and the ignore flag after a run. -/
def data_and_ignore_after (r : Except fault xml_state) : Option (String × Bool) :=
  match r with
  | .error _ => none
  | .ok st => some (st.data, st.ignore)

/-- The style flags of the commodity registered under `sym` after a run. -/
def flags_after (r : Except fault xml_state) (sym : String) : Option style_flags :=
  match r with
  | .error _ => none
  | .ok st => (st.commodities sym).map (fun c => c.flags)

/-- The stashed flag letters after a run. -/
def comm_flags_after (r : Except fault xml_state) : Option String :=
  match r with
  | .error _ => none
  | .ok st => some st.comm_flags

/-- The commodity `USD` is registered with the suffixed and separated flags, as
the OFX account callback leaves it; the letter `P` is stashed and the latched
text is `USD`. -/
def xml_state.usd_suffixed : xml_state :=
  { xml_state.initial with
      comm_flags := "P", data := "USD",
      commodities := fun s =>
        if s = "USD" then
          some { commodity_t.fresh "USD" with flags := ⟨true, true, false, false⟩ }
        else none }

/-- A registry holding `USD` and `EUR`, both suffixed and separated. -/
def commodities_t.usd_eur : commodities_t := fun s =>
  if s = "USD" then some { commodity_t.fresh "USD" with flags := ⟨true, true, false, false⟩ }
  else if s = "EUR" then
    some { commodity_t.fresh "EUR" with flags := ⟨true, true, false, false⟩ }
  else none

/-- A transaction selected for display, not rendered through the compound
branch. -/
def transaction_t.displayed (account quantity sym : String) : transaction_t :=
  { transaction_t.new (some account) with
      amount := ⟨some quantity, some sym⟩,
      xdata := some ⟨true, false, false, value_t.INTEGER 0, value_t.INTEGER 0⟩ }

/-- An entry with one displayed transaction, 10 of the commodity `sym`, on an
account with an ordinary name. -/
def entry_t.in_commodity (sym : String) : entry_t :=
  { entry_t.new with
      _date := 1141257600, payee := "Grocer",
      transactions := [transaction_t.displayed "Expenses:Food" "10" sym] }

/-- The collaborators of `collab.sample` with a journal that accepts every
entry. -/
def collab.accepting : collab := { collab.sample with balanced := fun _ => true }

/-- A line of exported text as the decoder reports it: the indentation, the
events of the line, the newline. -/
def indented (n : Nat) (evs : List xml_event) : List xml_event :=
  xml_event.text (spaces n) :: evs ++ [xml_event.text "\n"]

/-- The events the decoder reports, line by line, for the text that
`format_last_entry` writes for `entry_t.in_commodity`. -/
def exported_lines : List (List xml_event) :=
  [indented 2 [xml_event.start "entry" []],
   indented 4 [xml_event.start "en:date" [], xml_event.text "2006/03/02",
     xml_event.close "en:date"],
   indented 4 [xml_event.start "en:payee" [], xml_event.text "Grocer",
     xml_event.close "en:payee"],
   indented 4 [xml_event.start "en:transactions" []],
   indented 6 [xml_event.start "transaction" []],
   indented 8 [xml_event.start "tr:account" [], xml_event.text "Expenses:Food",
     xml_event.close "tr:account"],
   indented 8 [xml_event.start "tr:amount" []],
   indented 10 [xml_event.start "value" [("type", "amount")]],
   indented 12 [xml_event.start "amount" []],
   indented 14 [xml_event.start "commodity" [("flags", "S")]],
   indented 30 [xml_event.close "commodity"],
   indented 14 [xml_event.start "quantity" [], xml_event.text "10",
     xml_event.close "quantity"],
   indented 12 [xml_event.close "amount"],
   indented 10 [xml_event.close "value"],
   indented 8 [xml_event.close "tr:amount"],
   indented 6 [xml_event.close "transaction"],
   indented 4 [xml_event.close "en:transactions"],
   indented 2 [xml_event.close "entry"]]

/-- The amounts of the transactions of the entries in the journal after a call
of `xml_parser_t::parse` that returns. -/
def amounts_imported (r : Option (Except fault (Nat × xml_parse_state))) :
    Option (List (List amount_t)) :=
  match r with
  | some (.ok (_, ps)) =>
    some (ps.st.curr_journal.entries.map (fun e => e.transactions.map (fun x => x.amount)))
  | _ => none

/-- The globals as `ofx_parser_t::parse` has them when the decoder starts on the
records: after the two assignments of ofx.cc 206-207, which are all the
function does to the globals before `libofx_proc_file`. -/
def ofx_parse_bind (st : ofx_state) (journal : journal_t) (master : Option String) :
    ofx_state :=
  { st with curr_journal := journal, master_account := master.getD journal.master }

/-- The fault a call ends in; `none` when it returns. -/
def fault_of {α : Type} (r : Except fault α) : Option fault :=
  match r with
  | .error f => some f
  | .ok _ => none

/-- The status a callback returns; `none` when it does not return. -/
def status_of (r : Except fault (Int × ofx_state)) : Option Int :=
  match r with
  | .error _ => none
  | .ok x => some x.1

/-- The cost of the first transaction of an entry. -/
def first_cost (e : entry_t) : Option amount_t :=
  match e.transactions with
  | [] => none
  | x :: _ => x.cost

/-- The number of decimal places after which a fraction with denominator `den`
ends, looking up to six places. -/
def decimal_places (den : Nat) : Option Nat :=
  (List.range 7).find? (fun k => (10 ^ k) % den == 0)

/-- The text `s` padded with zeros on the left to `k` characters. -/
def pad_left (k : Nat) (s : String) : String :=
  String.mk (List.replicate (k - s.length) '0') ++ s

/-- A stand-in for `operator<<` on a `double` with a short decimal expansion:
sign, integer part and, when there is one, the fraction without trailing
zeros. -/
def show_decimal (q : double) : String :=
  let sign := if q < 0 then "-" else ""
  let n := q.num.natAbs
  match decimal_places q.den with
  | none => sign ++ toString n ++ "/" ++ toString q.den
  | some 0 => sign ++ toString n
  | some k =>
    let scaled := n * 10 ^ k / q.den
    sign ++ toString (scaled / 10 ^ k) ++ "." ++ pad_left k (toString (scaled % 10 ^ k))

/-- A stand-in for the amount parser on a text `quantity symbol`: the part
before the first blank is the quantity, the part after it the commodity. -/
def split_amount (s : String) : amount_t :=
  let q := s.data.takeWhile (fun c => c != ' ')
  let rest := (s.data.dropWhile (fun c => c != ' ')).drop 1
  ⟨some (String.mk q), if rest.isEmpty then none else some (String.mk rest)⟩

/-- The collaborators of `collab.sample` with decimal texts for doubles and an
amount parser that tells quantity from commodity. -/
def collab.decimal : collab :=
  { collab.sample with show_double := show_decimal, parse_amount := split_amount }

/-- The globals after an account record has bound `ACC1` to the account
`Checking` with default commodity `USD`. -/
def ofx_state.with_account : ofx_state :=
  (ofx_proc_account_cb ofx_state.initial OfxAccountData.sample).2

/-- A transaction record on account `ACC1` with the given unit count and unit
price. -/
def OfxTransactionData.priced (units unitprice : double) : OfxTransactionData :=
  { OfxTransactionData.sample units with unitprice_valid := true, unitprice := unitprice }

/-- A transaction record on account `ACC1` that names the security `SEC9`. -/
def OfxTransactionData.of_security (units : double) : OfxTransactionData :=
  { OfxTransactionData.sample units with unique_id_valid := true, unique_id := "SEC9" }

/-- Every binding of the three cross-reference maps of `a` is a binding of
`b`. -/
def tables_kept (a b : ofx_state) : Prop :=
  (∀ k v, a.ofx_accounts k = some v → b.ofx_accounts k = some v) ∧
  (∀ k v, a.ofx_account_currencies k = some v → b.ofx_account_currencies k = some v) ∧
  (∀ k v, a.ofx_securities k = some v → b.ofx_securities k = some v)

/-- The globals after a call of `ofx_parser_t::parse`; `none` when the call does
not return. -/
def globals_after (r : Except fault (Nat × ofx_state)) : Option ofx_state :=
  match r with
  | .error _ => none
  | .ok x => some x.2

/-- A first statement file: one account record and nothing else. -/
def ofx_first_file : List ofx_record := [ofx_record.account OfxAccountData.sample]

/-- A second statement file: one transaction record on the account id `ACC1` and
no account record. -/
def ofx_second_file : List ofx_record :=
  [ofx_record.transaction (OfxTransactionData.sample (-42))]

/-- The globals that the call of `ofx_parser_t::parse` on `ofx_first_file`,
made as the program starts, leaves behind. -/
def ofx_state.after_first_file : ofx_state :=
  (globals_after (ofx_parser_t.parse collab.sample ofx_state.initial journal_t.empty none
    (some "first.ofx") ofx_first_file)).getD ofx_state.initial

/-- The escapes of the characters of a list, one after the other. -/
def escape_chars : List Char → String
  | [] => ""
  | c :: cs => xml_escape_char c ++ escape_chars cs

/-- Following the claim: the per-character concatenation over the whole of a
string, each character replaced by its escape. -/
def per_character_escape (str : String) : String := escape_chars str.data

/-- The transaction `x` with reporting data `d` attached and selected for
display. -/
def transaction_t.shown (x : transaction_t) (d : transaction_xdata_t) : transaction_t :=
  { x with xdata := some { d with to_display := true } }

/-- The call `in.good()`: neither eofbit nor failbit is raised. -/
def istream.good (inp : istream) : Bool := !(inp.eofbit || inp.failbit)

/-- The characters from the read position on. -/
def istream.unread (inp : istream) : List Char := inp.chars.drop inp.pos

/-- The line a character sequence begins with: the characters before the first
newline. -/
def line_of (l : List Char) : List Char := l.takeWhile (fun c => c != '\n')

/-- What follows the first line and its newline. -/
def after_line (l : List Char) : List Char := (l.dropWhile (fun c => c != '\n')).drop 1

/-- The first line of a stream, from its read position. -/
def first_line (inp : istream) : List Char := line_of inp.unread

/-- The second line of a stream, from its read position; empty when there is
none. -/
def second_line (inp : istream) : List Char := line_of (after_line inp.unread)

/-- Whether `needle` occurs somewhere in `hay`. -/
def occurs_in (hay needle : List Char) : Bool :=
  hay.tails.any (fun t => starts_with t needle)

/-- Following the claim: the first line begins with `OFXHEADER`, or the first
line begins with `<?xml` and the second with `<?OFX` or `<?ofx`. -/
def ofx_test_claimed (inp : istream) : Bool :=
  starts_with (first_line inp) "OFXHEADER".data ||
    (starts_with (first_line inp) "<?xml".data &&
      (starts_with (second_line inp) "<?OFX".data ||
        starts_with (second_line inp) "<?ofx".data))

/-- Following the claim: the first line begins with `<?xml` and `<ledger`
occurs somewhere in the second line. -/
def xml_test_claimed (inp : istream) : Bool :=
  starts_with (first_line inp) "<?xml".data && occurs_in (second_line inp) "<ledger".data

/-- An XML prolog line of 94 characters followed by the OFX processing
instruction. -/
def long_prolog_ofx : String :=
  "<?xml version=\"1.0\" encoding=\"UTF-8\" standalone=\"no\"?>" ++ spaces 40 ++
    "\n<?OFX OFXHEADER=\"200\"?>\n"

/-- An XML prolog line followed by a line on which `<ledger>` stands after 80
blanks. -/
def indented_ledger : String := "<?xml version=\"1.0\"?>\n" ++ spaces 80 ++ "<ledger>\n"

/-- A decoder that reports, for the chunk of round `i`, the events `lines[i]`
(none beyond the last), and never a failure. -/
def decoder.scripted (lines : List (List xml_event)) : decoder :=
  fun fed _ _ => (lines.getD fed.length [], true)

/-- A decoder that reports no event and never a failure. -/
def decoder.silent : decoder := fun _ _ _ => ([], true)

/-- Every line of the text `l`, of which `cur` characters of the current line
were seen already, has at most `room` characters. -/
def lines_fit (room : Nat) : List Char → Nat → Bool
  | [], cur => decide (cur ≤ room)
  | c :: cs, cur =>
    if c = '\n' then decide (cur ≤ room) && lines_fit room cs 0 else lines_fit room cs (cur + 1)

/-- What the stream and the decoder alone determine of the read loop of
`xml_parser_t::parse`: the events reported in each round, in order, and whether
the decoder reported success throughout (the loop stops at its first failure);
`none` when the loop has not ended after `fuel` rounds. -/
def xml_rounds (XML_Parse : decoder) :
    Nat → istream → List (List Char) → Option (List (List xml_event) × Bool)
  | 0, inp, _ => if inp.eofbit then some ([], true) else none
  | fuel + 1, inp, fed =>
    if inp.eofbit then some ([], true)
    else
      let r := inp.getline (BUFSIZ - 1)
      let chunk := c_str r.1 ++ ['\n']
      let d := XML_Parse fed chunk r.2.eofbit
      if !d.2 then some ([d.1], false)
      else
        match xml_rounds XML_Parse fuel r.2 (fed ++ [chunk]) with
        | none => none
        | some x => some (d.1 :: x.1, x.2)

/-- The rounds of the read loop on the stream `inp`, looked for within one more
round than the stream has unread characters. -/
def xml_transcript (XML_Parse : decoder) (inp : istream) :
    Option (List (List xml_event) × Bool) :=
  xml_rounds XML_Parse (inp.unread.length + 1) inp []

/-- The value a call of `xml_parser_t::parse` returns; `none` when it ends in a
fault or has not returned. -/
def returned (r : Option (Except fault (Nat × xml_parse_state))) : Option Nat :=
  match r with
  | some (.ok x) => some x.1
  | _ => none

/-- A ledger file of four lines with two entries. -/
def sample_text : String :=
  "<ledger>\n" ++
  "<entry><transaction><quantity>5</quantity></transaction></entry>\n" ++
  "<entry><transaction></transaction><transaction></transaction></entry>\n" ++
  "</ledger>\n"

/-- A file with a transaction element outside any entry. -/
def stray_transaction_text : String := "<transaction></transaction>\n"

/-- The events of the one line of `stray_transaction_text`. -/
def stray_transaction_lines : List (List xml_event) :=
  [[xml_event.start "transaction" [], xml_event.close "transaction"]]

/-- A text whose single line has 8200 blanks. -/
def long_line_text : String := spaces 8200 ++ "\n"

/-- The fault a call of `xml_parser_t::parse` ends in; `none` when it returns or
has not ended. -/
def fault_ended (r : Option (Except fault (Nat × xml_parse_state))) : Option fault :=
  match r with
  | some (.error f) => some f
  | _ => none

/-- The decimal exponent of the positive rational `n / d`: the `k` with `10 ^ k
≤ n / d < 10 ^ (k + 1)`, looked for up to 400 in either direction. -/
def decimal_exponent (n d : Nat) : Int :=
  if d ≤ n then
    Int.ofNat (((List.range 400).find? (fun k => decide (n < d * 10 ^ (k + 1)))).getD 400)
  else
    Int.negSucc (((List.range 400).find? (fun k => decide (d ≤ n * 10 ^ (k + 1)))).getD 399)

/-- The quotient `N / D` rounded to the nearest integer, ties to even. -/
def round_half_even (N D : Nat) : Nat :=
  if 2 * (N % D) < D then N / D
  else if D < 2 * (N % D) then N / D + 1
  else if (N / D) % 2 = 0 then N / D
  else N / D + 1

/-- The six significant digits of the positive rational `n / d`, as a number
from 100000 to 999999, and the decimal exponent of the rounded value. -/
def significant_digits (n d : Nat) : Nat × Int :=
  let e := decimal_exponent n d
  let m :=
    if e ≤ 5 then round_half_even (n * 10 ^ (5 - e).toNat) d
    else round_half_even n (d * 10 ^ (e - 5).toNat)
  if m = 1000000 then (100000, e + 1) else (m, e)

/-- A digit sequence without its trailing zeros. -/
def strip_zeros (s : List Char) : List Char :=
  (s.reverse.dropWhile (fun c => c == '0')).reverse

/-- A fraction part as written: nothing when it is empty, otherwise the point
and the digits. -/
def fraction_text (digits : List Char) : String :=
  if digits.isEmpty then "" else "." ++ String.mk digits

/-- The text `operator<<` writes for a `double` on a stream in its default
state, as the C++ standard defines it (the conversion `%g` with precision 6):
six significant digits, rounded to nearest with ties to even; fixed notation
when the decimal exponent `X` of the rounded value has `-4 ≤ X < 6`, scientific
notation with an exponent of at least two digits otherwise; trailing zeros of
the fraction, and a point with no fraction, are not written. A `double` is a
rational here, so there is no negative zero, infinity or NaN. -/
def show_general (q : double) : String :=
  if q = 0 then "0"
  else
    let sign := if q < 0 then "-" else ""
    let r := significant_digits q.num.natAbs q.den
    if -4 ≤ r.2 ∧ r.2 < 6 then
      let k := (5 - r.2).toNat
      sign ++ toString (r.1 / 10 ^ k) ++
        fraction_text (strip_zeros (pad_left k (toString (r.1 % 10 ^ k))).data)
    else
      sign ++ String.mk ((toString r.1).data.take 1) ++
        fraction_text (strip_zeros ((toString r.1).data.drop 1)) ++
        "e" ++ (if r.2 < 0 then "-" else "+") ++ pad_left 2 (toString r.2.natAbs)

/-- The collaborators of `collab.sample` with the text of a `double` as
`operator<<` writes it and an amount parser that tells quantity from
commodity. -/
def collab.iostream : collab :=
  { collab.sample with show_double := show_general, parse_amount := split_amount }

/-- The amount of the first transaction of the entry a callback committed last;
`none` when the callback does not return or the journal has no entry. -/
def first_amount_committed (r : Except fault (Int × ofx_state)) : Option amount_t :=
  match r with
  | .error _ => none
  | .ok x =>
    match x.2.curr_journal.entries.getLast? with
    | none => none
    | some e => e.transactions.head?.map (fun t => t.amount)

/-! ## Part 2. Theorems -/

/-! ### The sniffers and the read position -/

theorem clear_seekg_pos (inp : istream) : inp.clear.seekg_beg.pos = 0 := by
  simp [istream.clear, istream.seekg_beg]

/-- C1 (as the code has it): on return from either sniffer the read position is
offset 0, the beginning of the stream, whatever the stream holds, wherever it
stood on entry and whichever verdict is returned. -/
theorem sniffers_rewind_to_start (inp : istream) :
    (ofx_parser_t.test inp).2.pos = 0 ∧ (xml_parser_t.test inp).2.pos = 0 := by
  constructor
  · unfold ofx_parser_t.test
    simp only []
    split_ifs <;> exact clear_seekg_pos _
  · unfold xml_parser_t.test
    simp only []
    split_ifs <;> exact clear_seekg_pos _

/-- C1 fails as stated: entered at offset 3 of an OFX file, and at offset 3 of
an XML ledger file, the sniffers return with the read position at 0, not 3 (the
first rejects, the second is shown on a stream it accepts from offset 0). -/
theorem sniffers_position_counterexample :
    (istream.of "OFXHEADER:100\n" 3).pos = 3 ∧
    (ofx_parser_t.test (istream.of "OFXHEADER:100\n" 3)).2.pos = 0 ∧
    (ofx_parser_t.test (istream.of "OFXHEADER:100\n" 3)).1 = false ∧
    (xml_parser_t.test (istream.of "???<?xml?>\n<ledger>\n" 3)).2.pos = 0 ∧
    (xml_parser_t.test (istream.of "???<?xml?>\n<ledger>\n" 3)).1 = true := by
  decide

/-! ### The `entry` close -/

theorem close_entry_accepted (cb : collab) (st : xml_state) (e : entry_t)
    (he : st.curr_entry = some e) (hb : cb.balanced e = true) :
    close_entry cb st = .ok { st with
      curr_journal := { st.curr_journal with entries := st.curr_journal.entries ++ [e] },
      count := uint_succ st.count, curr_entry := none } := by
  simp [close_entry, he, journal_t.add_entry, hb]

theorem close_entry_retried (cb : collab) (st : xml_state) (e : entry_t)
    (he : st.curr_entry = some e) (hb : cb.balanced e = false)
    (hb1 : cb.balanced (e.add_transaction (transaction_t.new (some "<Unknown>"))) = true) :
    close_entry cb st = .ok { st with
      curr_journal := { st.curr_journal.find_account "<Unknown>" with
        entries := (st.curr_journal.find_account "<Unknown>").entries ++
          [e.add_transaction (transaction_t.new (some "<Unknown>"))] },
      count := uint_succ st.count, curr_entry := none } := by
  simp [close_entry, he, journal_t.add_entry, hb, hb1]

theorem close_entry_discarded (cb : collab) (st : xml_state) (e : entry_t)
    (he : st.curr_entry = some e) (hb : cb.balanced e = false)
    (hb1 : cb.balanced (e.add_transaction (transaction_t.new (some "<Unknown>"))) = false) :
    close_entry cb st = .ok { st with
      curr_journal := st.curr_journal.find_account "<Unknown>",
      have_error := "Entry cannot be balanced", curr_entry := none } := by
  simp [close_entry, he, journal_t.add_entry, hb, hb1]

theorem find_account_entries (j : journal_t) (name : String) :
    (j.find_account name).entries = j.entries := by
  unfold journal_t.find_account
  split_ifs <;> rfl

theorem endElement_entry (cb : collab) (st : xml_state) (hi : st.ignore = false) :
    endElement cb st "entry" = close_entry cb st := by
  simp [endElement, hi]

/-- C2: at an `entry` close outside ignore mode with the entry `e` open, the
handler runs to its end and no entry is open afterwards. If the journal accepts
`e`, the journal gains exactly `e` (no transaction added), the count goes up by
one and no diagnostic is set. If the journal rejects `e`, the entry submitted
next is `e` with exactly one more transaction, posted to `<Unknown>`; if that
is accepted the journal gains exactly it and the count goes up by one;
otherwise the journal's entries and the count are as before and the diagnostic
`have_error` is set. -/
theorem entry_close_retry_policy (cb : collab) (st : xml_state) (e : entry_t)
    (hi : st.ignore = false) (he : st.curr_entry = some e) :
    ∃ st1, endElement cb st "entry" = .ok st1 ∧ st1.curr_entry = none ∧
      (cb.balanced e = true →
        st1.curr_journal.entries = st.curr_journal.entries ++ [e] ∧
        st1.count = uint_succ st.count ∧ st1.have_error = st.have_error) ∧
      (cb.balanced e = false →
        ∃ e1, e1.transactions = e.transactions ++ [transaction_t.new (some "<Unknown>")] ∧
          (transaction_t.new (some "<Unknown>")).account = some "<Unknown>" ∧
          e1._date = e._date ∧ e1._date_eff = e._date_eff ∧ e1.code = e.code ∧
          e1.payee = e.payee ∧
          (cb.balanced e1 = true →
            st1.curr_journal.entries = st.curr_journal.entries ++ [e1] ∧
            st1.count = uint_succ st.count ∧ st1.have_error = st.have_error) ∧
          (cb.balanced e1 = false →
            st1.curr_journal.entries = st.curr_journal.entries ∧
            st1.count = st.count ∧ st1.have_error = "Entry cannot be balanced")) := by
  rw [endElement_entry cb st hi]
  cases hb : cb.balanced e
  · cases hb1 : cb.balanced (e.add_transaction (transaction_t.new (some "<Unknown>")))
    · refine ⟨_, close_entry_discarded cb st e he hb hb1, rfl,
        (fun h => by cases h), fun _ => ?_⟩
      refine ⟨e.add_transaction (transaction_t.new (some "<Unknown>")),
          rfl, rfl, rfl, rfl, rfl, rfl, (fun h => by rw [hb1] at h; cases h), fun _ => ?_⟩
      exact ⟨find_account_entries _ _, rfl, rfl⟩
    · refine ⟨_, close_entry_retried cb st e he hb hb1, rfl,
        (fun h => by cases h), fun _ => ?_⟩
      refine ⟨e.add_transaction (transaction_t.new (some "<Unknown>")),
          rfl, rfl, rfl, rfl, rfl, rfl, fun _ => ?_, (fun h => by rw [hb1] at h; cases h)⟩
      refine ⟨?_, rfl, rfl⟩
      show (st.curr_journal.find_account "<Unknown>").entries ++ _ = _
      rw [find_account_entries]
  · exact ⟨_, close_entry_accepted cb st e he hb, rfl, fun _ => ⟨rfl, rfl, rfl⟩,
      (fun h => by cases h)⟩

theorem entry_close_retry_policy_witness :
    (xml_state.with_open entry_t.one_leg).ignore = false ∧
    (xml_state.with_open entry_t.one_leg).curr_entry = some entry_t.one_leg ∧
    ∃ st1, endElement collab.sample (xml_state.with_open entry_t.one_leg) "entry" = .ok st1 ∧
      st1.curr_entry = none :=
  ⟨rfl, rfl,
   (entry_close_retry_policy collab.sample (xml_state.with_open entry_t.one_leg)
      entry_t.one_leg rfl rfl).imp (fun _ h => ⟨h.1, h.2.1⟩)⟩

/-! ### Frames of the XML handlers -/

theorem modify_back_some (e : entry_t) (f : transaction_t → transaction_t)
    (h : e.transactions ≠ []) :
    ∃ e1, e.modify_back f = some e1 ∧ e1.transactions ≠ [] := by
  unfold entry_t.modify_back
  cases hl : e.transactions.getLast? with
  | none => exact absurd (List.getLast?_eq_none_iff.mp hl) h
  | some x => exact ⟨_, rfl, by simp⟩

theorem modify_back_nonempty (e e1 : entry_t) (f : transaction_t → transaction_t)
    (h : e.modify_back f = some e1) : e1.transactions ≠ [] := by
  unfold entry_t.modify_back at h
  cases hl : e.transactions.getLast? with
  | none => rw [hl] at h; cases h
  | some x =>
    rw [hl] at h
    injection h with h
    subst h
    simp

theorem with_entry_frame (st st1 : xml_state) (f : entry_t → entry_t)
    (h : with_entry st f = .ok st1) :
    ∃ e, st.curr_entry = some e ∧ st1 = { st with curr_entry := some (f e) } := by
  unfold with_entry at h
  cases he : st.curr_entry with
  | none => rw [he] at h; cases h
  | some e =>
    rw [he] at h
    injection h with h
    exact ⟨e, rfl, h.symm⟩

theorem with_back_frame (st st1 : xml_state) (f : transaction_t → transaction_t)
    (h : with_back st f = .ok st1) :
    ∃ e e1, st.curr_entry = some e ∧ e.modify_back f = some e1 ∧
      st1 = { st with curr_entry := some e1 } := by
  unfold with_back at h
  split at h
  · cases h
  · rename_i e he
    split at h
    · cases h
    · rename_i e1 hm
      injection h with h
      exact ⟨e, e1, he, hm, h.symm⟩

theorem with_back_ok (st : xml_state) (f : transaction_t → transaction_t) (e : entry_t)
    (he : st.curr_entry = some e) (h : e.transactions ≠ []) :
    ∃ e1, with_back st f = .ok { st with curr_entry := some e1 } ∧ e1.transactions ≠ [] := by
  obtain ⟨e1, h1, h2⟩ := modify_back_some e f h
  exact ⟨e1, by simp [with_back, he, h1], h2⟩

theorem endElement_other (cb : collab) (st : xml_state) (name : String)
    (hi : st.ignore = false) (hn : name ∉ close_names) : endElement cb st name = .ok st := by
  simp only [close_names, List.mem_cons, List.mem_singleton, not_or, List.mem_nil_iff,
    not_false_eq_true, and_true] at hn
  obtain ⟨h1, h2, h3, h4, h5, h6, h7, h8, h9, h10, h11, h12, h13, h14, h15⟩ := hn
  simp [endElement, hi, h1, h2, h3, h4, h5, h6, h7, h8, h9, h10, h11, h12, h13, h14, h15]

theorem shape_close_other (sh : xml_shape) (name : String)
    (hi : sh.ignore = false) (hn : name ∉ close_names) :
    shape_step sh (xml_event.close name) = some sh := by
  simp only [close_names, List.mem_cons, List.mem_singleton, not_or, List.mem_nil_iff,
    not_false_eq_true, and_true] at hn
  obtain ⟨h1, h2, h3, h4, h5, h6, h7, h8, h9, h10, h11, h12, h13, h14, h15⟩ := hn
  simp [shape_step, hi, h1, h2, h3, h4, h5, h6, h7, h8, h9, h10, h11, h12, h13, h14, h15]

theorem endElement_cases (cb : collab) (st st1 : xml_state) (name : String)
    (h : endElement cb st name = .ok st1) :
    step_quiet st st1 ∨ (st.ignore = false ∧
      ((name = "entry" ∧ close_entry cb st = .ok st1) ∨
        (name = "symbol" ∧ close_symbol st = .ok st1) ∨
        (name = "quantity" ∧ close_quantity cb st = .ok st1))) := by
  cases hi : st.ignore
  · by_cases hm : name ∈ close_names
    · simp only [close_names, List.mem_cons, List.mem_singleton, List.mem_nil_iff,
        or_false] at hm
      rcases hm with rfl | rfl | rfl | rfl | rfl | rfl | rfl | rfl | rfl | rfl | rfl | rfl |
        rfl | rfl | rfl
      all_goals simp [endElement, hi] at h
      · exact Or.inr ⟨rfl, Or.inl ⟨rfl, h⟩⟩
      · obtain ⟨e, _, rfl⟩ := with_entry_frame _ _ _ h; exact Or.inl ⟨rfl, rfl, rfl⟩
      · obtain ⟨e, _, rfl⟩ := with_entry_frame _ _ _ h; exact Or.inl ⟨rfl, rfl, rfl⟩
      · obtain ⟨e, _, rfl⟩ := with_entry_frame _ _ _ h; exact Or.inl ⟨rfl, rfl, rfl⟩
      · subst h; exact Or.inl ⟨rfl, rfl, rfl⟩
      · subst h; exact Or.inl ⟨rfl, rfl, rfl⟩
      · obtain ⟨e, _, rfl⟩ := with_entry_frame _ _ _ h; exact Or.inl ⟨rfl, rfl, rfl⟩
      · cases hw : with_back st (fun x => { x with account := some st.data }) with
        | error f => rw [hw] at h; cases h
        | ok st2 =>
          rw [hw] at h
          obtain ⟨e, e1, _, _, rfl⟩ := with_back_frame _ _ _ hw
          simp at h
          subst h
          exact Or.inl ⟨rfl, find_account_entries _ _, rfl⟩
      · obtain ⟨e, e1, _, _, rfl⟩ := with_back_frame _ _ _ h; exact Or.inl ⟨rfl, rfl, rfl⟩
      · obtain ⟨e, e1, _, _, rfl⟩ := with_back_frame _ _ _ h; exact Or.inl ⟨rfl, rfl, rfl⟩
      · obtain ⟨e, e1, _, _, rfl⟩ := with_back_frame _ _ _ h; exact Or.inl ⟨rfl, rfl, rfl⟩
      · obtain ⟨e, e1, _, _, rfl⟩ := with_back_frame _ _ _ h; exact Or.inl ⟨rfl, rfl, rfl⟩
      · exact Or.inr ⟨rfl, Or.inr (Or.inl ⟨rfl, h⟩)⟩
      · exact Or.inr ⟨rfl, Or.inr (Or.inr ⟨rfl, h⟩)⟩
      · subst h; exact Or.inl ⟨rfl, rfl, rfl⟩
    · rw [endElement_other cb st name hi hm] at h
      injection h with h
      subst h
      exact Or.inl ⟨rfl, rfl, rfl⟩
  · left
    unfold endElement at h
    rw [hi] at h
    simp only [if_true] at h
    split_ifs at h <;> (injection h with h; subst h; exact ⟨rfl, rfl, rfl⟩)

theorem startElement_quiet (st st1 : xml_state) (name : String)
    (attrs : List (String × String)) (h : startElement st name attrs = .ok st1) :
    step_quiet st st1 := by
  unfold startElement at h
  split_ifs at h
  all_goals (try split at h)
  all_goals (try split_ifs at h)
  all_goals (try dsimp only at h)
  all_goals first
    | (cases h; done)
    | (injection h with h; subst h; exact ⟨rfl, rfl, rfl⟩)
/-! ### Event sequences that trip no precondition run to their end -/

theorem close_entry_ok (cb : collab) (st : xml_state) (e : entry_t)
    (he : st.curr_entry = some e) :
    ∃ st1, close_entry cb st = .ok st1 ∧ st1.curr_entry = none ∧ st1.ignore = st.ignore ∧
      st1.curr_comm = st.curr_comm ∧ st1.commodities = st.commodities := by
  cases hb : cb.balanced e
  · cases hb1 : cb.balanced (e.add_transaction (transaction_t.new (some "<Unknown>")))
    · exact ⟨_, close_entry_discarded cb st e he hb hb1, rfl, rfl, rfl, rfl⟩
    · exact ⟨_, close_entry_retried cb st e he hb hb1, rfl, rfl, rfl, rfl⟩
  · exact ⟨_, close_entry_accepted cb st e he hb, rfl, rfl, rfl, rfl⟩

theorem isSome_true_elim {α : Type} (o : Option α) (h : o.isSome = true) : ∃ a, o = some a := by
  cases o with
  | none => cases h
  | some a => exact ⟨a, rfl⟩

theorem with_entry_sim (st : xml_state) (sh : xml_shape) (f : entry_t → entry_t)
    (hs : has_shape st sh) (ho : sh.entry_open = true)
    (hf : ∀ e, (f e).transactions = e.transactions) :
    ∃ st1, with_entry st f = .ok st1 ∧ has_shape st1 sh := by
  obtain ⟨hi, he, hx, hc, hr, hy⟩ := hs
  obtain ⟨e, hee⟩ := isSome_true_elim _ (he.trans ho)
  refine ⟨{ st with curr_entry := some (f e) }, by simp [with_entry, hee], hi, ?_, ?_, hc, hr,
    ?_⟩
  · simp [ho]
  · intro h
    obtain ⟨e2, h2, h3⟩ := hx h
    rw [hee] at h2
    injection h2 with h2
    subst h2
    exact ⟨f e, rfl, by rw [hf]; exact h3⟩
  · intro h e2 h2
    injection h2 with h2
    subst h2
    rw [hf]
    exact hy h e hee

theorem with_back_sim (st : xml_state) (sh : xml_shape) (f : transaction_t → transaction_t)
    (hs : has_shape st sh) (ho : sh.has_xact = true) :
    ∃ st1, with_back st f = .ok st1 ∧ has_shape st1 sh ∧
      st1.curr_journal = st.curr_journal ∧ st1.commodities = st.commodities ∧
      st1.curr_comm = st.curr_comm ∧ st1.ignore = st.ignore ∧
      st1.curr_entry.isSome = st.curr_entry.isSome := by
  obtain ⟨hi, he, hx, hc, hr, hy⟩ := hs
  obtain ⟨e, hee, hne⟩ := hx ho
  obtain ⟨e1, h1, h2⟩ := with_back_ok st f e hee hne
  refine ⟨_, h1, ⟨hi, ?_, ?_, hc, hr, ?_⟩, rfl, rfl, rfl, rfl, ?_⟩
  · rw [← he, hee]; rfl
  · intro _; exact ⟨e1, rfl, h2⟩
  · intro h
    rw [ho] at h
    cases h
  · rw [hee]; rfl

theorem endElement_simulates (cb : collab) (st : xml_state) (sh sh1 : xml_shape)
    (name : String) (hs : has_shape st sh)
    (h : shape_step sh (xml_event.close name) = some sh1) :
    ∃ st1, endElement cb st name = .ok st1 ∧ has_shape st1 sh1 := by
  have hs0 := hs
  obtain ⟨hi, he, hx, hc, hr, hy⟩ := hs
  cases hig : sh.ignore
  · rw [hig] at hi
    by_cases hm : name ∈ close_names
    · simp only [close_names, List.mem_cons, List.mem_singleton, List.mem_nil_iff,
        or_false] at hm
      rcases hm with rfl | rfl | rfl | rfl | rfl | rfl | rfl | rfl | rfl | rfl | rfl | rfl |
        rfl | rfl | rfl
      all_goals simp [shape_step, hig] at h
      all_goals simp only [endElement, hi]
      all_goals simp
      · obtain ⟨ho, rfl⟩ := h
        obtain ⟨e, hee⟩ := isSome_true_elim _ (he.trans ho)
        obtain ⟨st1, h1, h2, h3, h4, h5⟩ := close_entry_ok cb st e hee
        refine ⟨st1, h1, h3.trans hi, by simp [h2], by simp, by rw [h4, hc], ?_, ?_⟩
        · intro sym hsym
          rw [h5]
          exact hr sym (h4 ▸ hsym)
        · intro _ e2 he2
          rw [h2] at he2
          cases he2
      · obtain ⟨ho, rfl⟩ := h
        exact with_entry_sim st sh _ hs0 ho (fun _ => rfl)
      · obtain ⟨ho, rfl⟩ := h
        exact with_entry_sim st sh _ hs0 ho (fun _ => rfl)
      · obtain ⟨ho, rfl⟩ := h
        exact with_entry_sim st sh _ hs0 ho (fun _ => rfl)
      · subst h
        exact ⟨hig.symm, he, hx, hc, hr, hy⟩
      · subst h
        exact ⟨hig.symm, he, hx, hc, hr, hy⟩
      · obtain ⟨ho, rfl⟩ := h
        exact with_entry_sim st sh _ hs0 ho (fun _ => rfl)
      · obtain ⟨ho, rfl⟩ := h
        obtain ⟨st1, h1, ⟨a1, a2, a3, a4, a5, a6⟩, _, h4, _⟩ :=
          with_back_sim st sh (fun x => { x with account := some st.data }) hs0 ho
        rw [h1]
        exact ⟨_, rfl, a1, a2, a3, a4, a5, a6⟩
      · obtain ⟨ho, rfl⟩ := h
        obtain ⟨st1, h1, h2, _⟩ := with_back_sim st sh _ hs0 ho
        exact ⟨st1, h1, h2⟩
      · obtain ⟨ho, rfl⟩ := h
        obtain ⟨st1, h1, h2, _⟩ := with_back_sim st sh _ hs0 ho
        exact ⟨st1, h1, h2⟩
      · obtain ⟨ho, rfl⟩ := h
        obtain ⟨st1, h1, h2, _⟩ := with_back_sim st sh _ hs0 ho
        exact ⟨st1, h1, h2⟩
      · obtain ⟨ho, rfl⟩ := h
        obtain ⟨st1, h1, h2, _⟩ := with_back_sim st sh _ hs0 ho
        exact ⟨st1, h1, h2⟩
      · obtain ⟨ho, rfl⟩ := h
        have hcn : st.curr_comm = none := by
          cases hcc : st.curr_comm with
          | none => rfl
          | some s => rw [hcc] at hc; rw [ho] at hc; cases hc
        have h1 : close_symbol st = .ok { st with
            commodities := commodities_modify (find_or_create st.commodities st.data) st.data
              (fun c => apply_comm_flags c st.comm_flags),
            curr_comm := some st.data } := by
          simp [close_symbol, hcn]
        refine ⟨_, h1, hi, he, hx, rfl, ?_, hy⟩
        intro sym hsym
        injection hsym with hsym
        subst hsym
        simp [commodities_modify, find_or_create]
      · obtain ⟨ho, rfl⟩ := h
        unfold close_quantity
        cases hcc : st.curr_comm with
        | none =>
          obtain ⟨st1, h1, ⟨a1, a2, a3, a4, a5, a6⟩, _⟩ := with_back_sim st sh
            (fun x => { x with amount := cb.parse_amount st.data }) hs0 ho
          refine ⟨st1, h1, a1.trans hig, a2, a3, ?_, a5, a6⟩
          rw [a4, ← hc, hcc]; rfl
        | some sym =>
          obtain ⟨c, hcs⟩ := isSome_true_elim _ (hr sym hcc)
          obtain ⟨st1, h1, ⟨a1, a2, a3, a4, a5, a6⟩, _⟩ := with_back_sim st sh
            (fun x => { x with amount := (cb.parse_amount st.data).set_commodity sym }) hs0 ho
          simp only [hcs, h1]
          refine ⟨_, rfl, a1.trans hig, a2, a3, rfl, ?_, a6⟩
          intro s hs
          cases hs
      · subst h
        refine ⟨rfl, he, hx, rfl, ?_, hy⟩
        intro s hs
        cases hs
    · rw [shape_close_other sh name hig hm] at h
      injection h with h
      subst h
      exact ⟨st, endElement_other cb st name hi hm, hs0⟩
  · rw [hig] at hi
    unfold shape_step at h
    unfold endElement
    simp only [hig, hi, if_true] at h ⊢
    split_ifs at h ⊢
    · injection h with h
      subst h
      exact ⟨_, rfl, rfl, he, hx, hc, hr, hy⟩
    · injection h with h
      subst h
      exact ⟨_, rfl, hs0⟩
theorem startElement_simulates (st : xml_state) (sh sh1 : xml_shape)
    (name : String) (attrs : List (String × String)) (hs : has_shape st sh)
    (h : shape_step sh (xml_event.start name attrs) = some sh1) :
    ∃ st1, startElement st name attrs = .ok st1 ∧ has_shape st1 sh1 := by
  have hs0 := hs
  obtain ⟨hi, he, hx, hc, hr, hy⟩ := hs
  cases hig : sh.ignore
  · rw [hig] at hi
    by_cases h1 : name = "entry"
    · subst h1
      simp [shape_step, hig] at h
      obtain ⟨ho, rfl⟩ := h
      have hn : st.curr_entry = none := by
        cases hce : st.curr_entry with
        | none => rfl
        | some e => rw [hce, ho] at he; cases he
      refine ⟨{ st with curr_entry := some entry_t.new, curr_state := state_t.UNCLEARED },
        by simp [startElement, hi, hn], hi, rfl, ?_, hc, hr, ?_⟩
      · intro hf
        cases hf
      · intro _ e2 he2
        injection he2 with he2
        subst he2
        rfl
    · by_cases h2 : name = "transaction"
      · subst h2
        simp [shape_step, hig] at h
        obtain ⟨ho, rfl⟩ := h
        obtain ⟨e, hee⟩ := isSome_true_elim _ (he.trans ho)
        have hst : startElement st "transaction" attrs = .ok { st with
            curr_entry := some (e.add_transaction
              (if st.curr_state ≠ state_t.UNCLEARED then
                { transaction_t.new none with state := st.curr_state }
               else transaction_t.new none)) } := by
          simp [startElement, hi, hee]
        refine ⟨_, hst, hi, ?_, ?_, hc, hr, ?_⟩
        · simp [ho]
        · intro _
          exact ⟨_, rfl, by simp [entry_t.add_transaction]⟩
        · intro hf
          cases hf
      · by_cases h3 : name = "commodity"
        · subst h3
          simp [shape_step, hig] at h
          obtain ⟨ho, rfl⟩ := h
          cases attrs with
          | nil => exact absurd rfl ho
          | cons a as =>
            obtain ⟨k, v⟩ := a
            by_cases hk : k = "flags"
            · exact ⟨{ st with comm_flags := v }, by simp [startElement, hi, hk],
                hi.trans hig.symm, he, hx, hc, hr, hy⟩
            · exact ⟨st, by simp [startElement, hi, hk], hs0⟩
        · by_cases h4 : name = "total"
          · subst h4
            simp [shape_step, hig] at h
            subst h
            exact ⟨{ st with ignore := true }, by simp [startElement, hi], rfl, he, hx, hc, hr, hy⟩
          · simp [shape_step, hig, h1, h2, h3, h4] at h
            subst h
            exact ⟨st, by simp [startElement, hi, h1, h2, h3, h4], hs0⟩
  · rw [hig] at hi
    simp [shape_step, hig] at h
    subst h
    exact ⟨st, by simp [startElement, hi], hs0⟩

theorem xml_step_simulates (cb : collab) (st : xml_state) (sh sh1 : xml_shape)
    (ev : xml_event) (hs : has_shape st sh) (h : shape_step sh ev = some sh1) :
    ∃ st1, xml_step cb st ev = .ok st1 ∧ has_shape st1 sh1 := by
  cases ev with
  | start name attrs => exact startElement_simulates st sh sh1 name attrs hs h
  | close name => exact endElement_simulates cb st sh sh1 name hs h
  | text s =>
    injection h with h
    subst h
    refine ⟨dataHandler st s, rfl, ?_⟩
    unfold dataHandler
    split_ifs
    · exact hs
    · exact hs

theorem xml_run_simulates (cb : collab) (evs : List xml_event) :
    ∀ (st : xml_state) (sh sh1 : xml_shape), has_shape st sh → shape_run sh evs = some sh1 →
      ∃ st1, xml_run cb st evs = .ok st1 ∧ has_shape st1 sh1 := by
  induction evs with
  | nil =>
    intro st sh sh1 hs h
    injection h with h
    subst h
    exact ⟨st, rfl, hs⟩
  | cons ev evs ih =>
    intro st sh sh1 hs h
    unfold shape_run at h
    cases hst : shape_step sh ev with
    | none => rw [hst] at h; cases h
    | some sh2 =>
      rw [hst] at h
      obtain ⟨st2, h2, hs2⟩ := xml_step_simulates cb st sh sh2 ev hs hst
      obtain ⟨st1, h1, hs1⟩ := ih st2 sh2 sh1 hs2 h
      refine ⟨st1, ?_, hs1⟩
      unfold xml_run
      rw [h2]
      exact h1

/-! ### The count and the entries committed -/

theorem uint_succ_mod (n : Nat) : uint_succ (n % 4294967296) = (n + 1) % 4294967296 := by
  unfold uint_succ
  omega

theorem close_entry_counts (cb : collab) (st st1 : xml_state) (j0 : journal_t) (n : Nat)
    (hc : committed_since j0 st n) (h : close_entry cb st = .ok st1) :
    committed_since j0 st1 (n + 1) ∧ st1.commodities = st.commodities := by
  obtain ⟨added, h1, h2, h3⟩ := hc
  cases he : st.curr_entry with
  | none => simp [close_entry, he] at h
  | some e =>
    cases hb : cb.balanced e
    · cases hb1 : cb.balanced (e.add_transaction (transaction_t.new (some "<Unknown>")))
      · rw [close_entry_discarded cb st e he hb hb1] at h
        injection h with h
        subst h
        refine ⟨⟨added, ?_, h2, by omega⟩, rfl⟩
        show (st.curr_journal.find_account "<Unknown>").entries = _
        rw [find_account_entries, h1]
      · rw [close_entry_retried cb st e he hb hb1] at h
        injection h with h
        subst h
        refine ⟨⟨added ++ [e.add_transaction (transaction_t.new (some "<Unknown>"))],
          ?_, ?_, ?_⟩, rfl⟩
        · show (st.curr_journal.find_account "<Unknown>").entries ++ _ = _
          rw [find_account_entries, h1, List.append_assoc]
        · show uint_succ st.count = _
          rw [h2, uint_succ_mod]
          simp
        · simp
          omega
    · rw [close_entry_accepted cb st e he hb] at h
      injection h with h
      subst h
      refine ⟨⟨added ++ [e], ?_, ?_, ?_⟩, rfl⟩
      · show st.curr_journal.entries ++ _ = _
        rw [h1, List.append_assoc]
      · show uint_succ st.count = _
        rw [h2, uint_succ_mod]
        simp
      · simp
        omega

theorem close_symbol_frame (st st1 : xml_state) (h : close_symbol st = .ok st1) :
    st.curr_comm = none ∧ st1 = { st with
      commodities := commodities_modify (find_or_create st.commodities st.data) st.data
        (fun c => apply_comm_flags c st.comm_flags),
      curr_comm := some st.data } := by
  unfold close_symbol at h
  split at h
  · cases h
  · rename_i hn
    injection h with h
    exact ⟨hn, h.symm⟩

theorem close_quantity_plain (cb : collab) (st st1 : xml_state)
    (hcc : st.curr_comm = none) (h : close_quantity cb st = .ok st1) :
    ∃ e1, st1 = { st with curr_entry := some e1 } := by
  simp only [close_quantity, hcc] at h
  obtain ⟨e, e1, _, _, rfl⟩ := with_back_frame _ _ _ h
  exact ⟨e1, rfl⟩

theorem close_quantity_pending (cb : collab) (st st1 : xml_state) (sym : String)
    (hcc : st.curr_comm = some sym) (h : close_quantity cb st = .ok st1) :
    ∃ c e1, st.commodities sym = some c ∧
      st1 = { st with curr_entry := some e1, curr_comm := none,
                      commodities := widened st.commodities sym c st.data } := by
  simp only [close_quantity, hcc] at h
  cases hcs : st.commodities sym with
  | none => simp only [hcs] at h; cases h
  | some c =>
    simp only [hcs] at h
    cases hw : with_back st
        (fun x => { x with amount := (cb.parse_amount st.data).set_commodity sym }) with
    | error f => simp only [hw] at h; cases h
    | ok st2 =>
      simp only [hw] at h
      obtain ⟨e, e1, _, _, rfl⟩ := with_back_frame _ _ _ hw
      injection h with h
      exact ⟨c, e1, rfl, h.symm⟩

theorem close_quantity_journal (cb : collab) (st st1 : xml_state)
    (h : close_quantity cb st = .ok st1) :
    st1.curr_journal = st.curr_journal ∧ st1.count = st.count ∧
      st1.comm_flags = st.comm_flags ∧ st1.data = st.data := by
  cases hcc : st.curr_comm with
  | none =>
    obtain ⟨e1, rfl⟩ := close_quantity_plain cb st st1 hcc h
    exact ⟨rfl, rfl, rfl, rfl⟩
  | some sym =>
    obtain ⟨c, e1, _, rfl⟩ := close_quantity_pending cb st st1 sym hcc h
    exact ⟨rfl, rfl, rfl, rfl⟩

theorem xml_step_cases (cb : collab) (st st1 : xml_state) (ev : xml_event)
    (h : xml_step cb st ev = .ok st1) :
    step_quiet st st1 ∨ (st.ignore = false ∧
      ((ev = xml_event.close "entry" ∧ close_entry cb st = .ok st1) ∨
        (ev = xml_event.close "symbol" ∧ close_symbol st = .ok st1) ∨
        (ev = xml_event.close "quantity" ∧ close_quantity cb st = .ok st1))) := by
  cases ev with
  | start name attrs => exact Or.inl (startElement_quiet st st1 name attrs h)
  | close name =>
    rcases endElement_cases cb st st1 name h with hq | ⟨hi, ⟨hn, h1⟩ | ⟨hn, h1⟩ | ⟨hn, h1⟩⟩
    · exact Or.inl hq
    · exact Or.inr ⟨hi, Or.inl ⟨by rw [hn], h1⟩⟩
    · exact Or.inr ⟨hi, Or.inr (Or.inl ⟨by rw [hn], h1⟩)⟩
    · exact Or.inr ⟨hi, Or.inr (Or.inr ⟨by rw [hn], h1⟩)⟩
  | text s =>
    injection h with h
    subst h
    left
    unfold dataHandler
    split_ifs <;> exact ⟨rfl, rfl, rfl⟩

theorem xml_step_counts (cb : collab) (st st1 : xml_state) (ev : xml_event) (j0 : journal_t)
    (n : Nat) (hc : committed_since j0 st n) (h : xml_step cb st ev = .ok st1) :
    committed_since j0 st1 (n + 1) := by
  rcases xml_step_cases cb st st1 ev h with hq | ⟨_, ⟨_, h1⟩ | ⟨_, h1⟩ | ⟨_, h1⟩⟩
  · obtain ⟨added, a1, a2, a3⟩ := hc
    obtain ⟨_, q2, q3⟩ := hq
    exact ⟨added, by rw [q2, a1], by rw [q3, a2], by omega⟩
  · exact (close_entry_counts cb st st1 j0 n hc h1).1
  · obtain ⟨added, a1, a2, a3⟩ := hc
    obtain ⟨_, rfl⟩ := close_symbol_frame st st1 h1
    exact ⟨added, a1, a2, by omega⟩
  · obtain ⟨added, a1, a2, a3⟩ := hc
    obtain ⟨q1, q2, _⟩ := close_quantity_journal cb st st1 h1
    exact ⟨added, by rw [q1, a1], by rw [q2, a2], by omega⟩

theorem xml_run_counts (cb : collab) (j0 : journal_t) (evs : List xml_event) :
    ∀ (st st1 : xml_state) (n : Nat), committed_since j0 st n → xml_run cb st evs = .ok st1 →
      committed_since j0 st1 (n + evs.length) := by
  induction evs with
  | nil =>
    intro st st1 n hc h
    injection h with h
    subst h
    exact hc
  | cons ev evs ih =>
    intro st st1 n hc h
    unfold xml_run at h
    cases hst : xml_step cb st ev with
    | error f => rw [hst] at h; cases h
    | ok st2 =>
      rw [hst] at h
      have := ih st2 st1 (n + 1) (xml_step_counts cb st st2 ev j0 n hc hst) h
      simpa [Nat.add_assoc, Nat.add_comm 1] using this
theorem xml_parse_line_ok (cb : collab) (ps : xml_parse_state) (l : List xml_event)
    (sh sh1 : xml_shape) (j0 : journal_t) (n : Nat)
    (hs : has_shape ps.st sh) (h : shape_run sh l = some sh1)
    (hc : committed_since j0 ps.st n) :
    ∃ ps1, xml_parse_line cb ps l = .ok ps1 ∧ has_shape ps1.st sh1 ∧
      committed_since j0 ps1.st (n + l.length) := by
  obtain ⟨st1, h1, hs1⟩ := xml_run_simulates cb l ps.st sh sh1 hs h
  have hc1 := xml_run_counts cb j0 l ps.st st1 n hc h1
  unfold xml_parse_line
  rw [h1]
  by_cases he : st1.have_error ≠ ""
  · exact ⟨_, if_pos he, hs1, hc1⟩
  · exact ⟨_, if_neg he, hs1, hc1⟩

theorem xml_parse_init_shape (st : xml_state) (journal : journal_t) :
    has_shape (xml_parse_init st journal) xml_shape.initial :=
  ⟨rfl, rfl, (fun h => by cases h), rfl, (fun _ h => by cases h), (fun _ _ h => by cases h)⟩

/-! ### The value `ofx_parser_t::parse` returns -/

/-- C4: with a source name, `ofx_parser_t::parse` returns 1 whenever it returns:
on a file with no record, where no entry is committed, and on a file with one
account and two transactions, where two entries are committed, alike; without
a source name it returns 0 and commits nothing. -/
theorem ofx_parse_returns_one_not_count :
    (∀ (cb : collab) (st : ofx_state) (journal : journal_t) (master : Option String)
        (file : String) (records : List ofx_record) (r : Nat × ofx_state),
      ofx_parser_t.parse cb st journal master (some file) records = .ok r → r.1 = 1) ∧
    ofx_outcome (ofx_parser_t.parse collab.sample ofx_state.initial journal_t.empty none
      (some "statement.ofx") []) = some (1, 0) ∧
    ofx_outcome (ofx_parser_t.parse collab.sample ofx_state.initial journal_t.empty none
      (some "statement.ofx") ofx_sample_records) = some (1, 2) ∧
    ofx_outcome (ofx_parser_t.parse collab.sample ofx_state.initial journal_t.empty none
      none ofx_sample_records) = some (0, 0) := by
  refine ⟨?_, by decide, by decide, by decide⟩
  intro cb st journal master file records r h
  unfold ofx_parser_t.parse at h
  dsimp only at h
  split at h
  · cases h
  · injection h with h
    subst h
    rfl

theorem ofx_parse_no_source (cb : collab) (st : ofx_state) (journal : journal_t)
    (master : Option String) (records : List ofx_record) :
    ofx_parser_t.parse cb st journal master none records = .ok (0, st) := rfl

/-! ### Character data -/

theorem xml_run_cons (cb : collab) (st : xml_state) (ev : xml_event) (evs : List xml_event) :
    xml_run cb st (ev :: evs) =
      match xml_step cb st ev with
      | .error f => .error f
      | .ok st1 => xml_run cb st1 evs := by
  rw [xml_run]

theorem xml_run_append (cb : collab) (a b : List xml_event) :
    ∀ st, xml_run cb st (a ++ b) =
      match xml_run cb st a with
      | .error f => .error f
      | .ok st1 => xml_run cb st1 b := by
  induction a with
  | nil => intro st; rfl
  | cons ev evs ih =>
    intro st
    show xml_run cb st (ev :: (evs ++ b)) = _
    rw [xml_run_cons, xml_run_cons]
    cases xml_step cb st ev with
    | error f => rfl
    | ok st1 => exact ih st1

theorem xml_run_texts (cb : collab) (chunks : List String) :
    ∀ st, st.ignore = false →
      xml_run cb st (chunks.map xml_event.text) =
        .ok { st with data := chunks.getLast?.getD st.data } := by
  induction chunks with
  | nil => intro st _; rfl
  | cons s ss ih =>
    intro st hi
    show xml_run cb st (xml_event.text s :: ss.map xml_event.text) = _
    rw [xml_run_cons]
    have h1 : xml_step cb st (xml_event.text s) = .ok { st with data := s } := by
      simp [xml_step, dataHandler, hi]
    rw [h1]
    show xml_run cb { st with data := s } (ss.map xml_event.text) = _
    rw [ih { st with data := s } hi]
    cases ss with
    | nil => rfl
    | cons t ts =>
      have hl : ∀ d : String, (t :: ts).getLast?.getD d = (t :: ts).getLast (by simp) := by
        intro d
        rw [List.getLast?_eq_getLast _ (by simp)]
        rfl
      simp only [List.getLast?_cons_cons, hl]

theorem xml_run_single (cb : collab) (st : xml_state) (ev : xml_event) :
    xml_run cb st [ev] = xml_step cb st ev := by
  rw [xml_run_cons]
  cases xml_step cb st ev with
  | error f => rfl
  | ok st1 => rfl

/-- C5 (as the code has it): when a text node arrives as the ranges `chunks`
followed by `last`, with no element start or end between them, the value
latched at the closing tag is `last` alone: the payee at `en:payee`, the code
at `en:code`, and the account of the last transaction at `tr:account`. -/
theorem latched_text_is_last_range (cb : collab) (st : xml_state) (e : entry_t)
    (chunks : List String) (last : String)
    (hi : st.ignore = false) (he : st.curr_entry = some e) :
    xml_run cb st ((chunks ++ [last]).map xml_event.text ++ [xml_event.close "en:payee"]) =
      .ok { st with data := last, curr_entry := some { e with payee := last } } ∧
    xml_run cb st ((chunks ++ [last]).map xml_event.text ++ [xml_event.close "en:code"]) =
      .ok { st with data := last, curr_entry := some { e with code := last } } ∧
    ∀ xs x, e.transactions = xs ++ [x] →
      xml_run cb st ((chunks ++ [last]).map xml_event.text ++ [xml_event.close "tr:account"]) =
        .ok { st with data := last,
                      curr_journal := st.curr_journal.find_account last,
                      curr_entry := some { e with
                        transactions := xs ++ [{ x with account := some last }] } } := by
  have hd : (chunks ++ [last]).getLast?.getD st.data = last := by simp
  refine ⟨?_, ?_, ?_⟩
  · rw [xml_run_append, xml_run_texts cb _ st hi, hd]
    simp only []
    rw [xml_run_single]
    simp [xml_step, endElement, hi, with_entry, he]
  · rw [xml_run_append, xml_run_texts cb _ st hi, hd]
    simp only []
    rw [xml_run_single]
    simp [xml_step, endElement, hi, with_entry, he]
  · intro xs x hx
    rw [xml_run_append, xml_run_texts cb _ st hi, hd]
    simp only []
    rw [xml_run_single]
    simp [xml_step, endElement, hi, with_back, he, entry_t.modify_back, hx]

theorem latched_text_is_last_range_witness :
    (xml_state.with_open entry_t.one_leg).ignore = false ∧
    (xml_state.with_open entry_t.one_leg).curr_entry = some entry_t.one_leg ∧
    xml_run collab.sample (xml_state.with_open entry_t.one_leg)
      ((["Gro"] ++ ["cery"]).map xml_event.text ++ [xml_event.close "en:payee"]) =
      .ok { xml_state.with_open entry_t.one_leg with
              data := "cery", curr_entry := some { entry_t.one_leg with payee := "cery" } } :=
  ⟨rfl, rfl,
   (latched_text_is_last_range collab.sample (xml_state.with_open entry_t.one_leg)
      entry_t.one_leg ["Gro"] "cery" rfl rfl).1⟩

/-- C5 fails as stated: the payee text `Grocery` delivered as the two ranges
`Gro` and `cery` is latched as `cery`, not as the concatenation. -/
theorem chunked_payee_counterexample :
    payee_after (xml_run collab.sample xml_state.initial
      [xml_event.start "entry" [], xml_event.start "en:payee" [], xml_event.text "Gro",
       xml_event.text "cery", xml_event.close "en:payee"]) = some "cery" ∧
    "Gro" ++ "cery" ≠ "cery" := by
  decide

/-! ### Precision at the `quantity` close -/

theorem fraction_digits_split (pre post : String) (h : '.' ∉ pre.data) :
    fraction_digits (pre ++ "." ++ post) = some post.length := by
  unfold fraction_digits
  have hd : (pre ++ "." ++ post).data = pre.data ++ ('.' :: post.data) := by
    simp [String.data_append]
  have hl : post.length = post.data.length := rfl
  rw [hd, List.indexOf_append_of_not_mem h, List.indexOf_cons_self, hl]
  simp only [List.length_append, List.length_cons]
  rw [if_pos (by omega)]
  congr 1
  omega

theorem fraction_digits_none (data : String) (h : '.' ∉ data.data) :
    fraction_digits data = none := by
  unfold fraction_digits
  have := List.indexOf_eq_length.mpr h
  simp [this]

theorem apply_flag_letter_precision (c : commodity_t) (ch : Char) :
    (apply_flag_letter c ch).precision = c.precision := by
  unfold apply_flag_letter
  split_ifs <;> rfl

theorem foldl_flag_letters_precision (l : List Char) :
    ∀ c : commodity_t, (l.foldl apply_flag_letter c).precision = c.precision := by
  induction l with
  | nil => intro c; rfl
  | cons ch l ih =>
    intro c
    rw [List.foldl_cons, ih, apply_flag_letter_precision]

theorem apply_comm_flags_precision (c : commodity_t) (fl : String) :
    (apply_comm_flags c fl).precision = c.precision := by
  unfold apply_comm_flags
  split_ifs
  · rfl
  · rw [foldl_flag_letters_precision]
    rfl

theorem precision_le_refl (r : commodities_t) : precision_le r r :=
  fun _ c h => ⟨c, h, Nat.le_refl _⟩

theorem precision_le_trans (r1 r2 r3 : commodities_t) (h12 : precision_le r1 r2)
    (h23 : precision_le r2 r3) : precision_le r1 r3 := by
  intro sym c h
  obtain ⟨c2, h2, l2⟩ := h12 sym c h
  obtain ⟨c3, h3, l3⟩ := h23 sym c2 h2
  exact ⟨c3, h3, Nat.le_trans l2 l3⟩

theorem close_entry_commodities (cb : collab) (st st1 : xml_state)
    (h : close_entry cb st = .ok st1) : st1.commodities = st.commodities := by
  cases he : st.curr_entry with
  | none => simp [close_entry, he] at h
  | some e =>
    obtain ⟨st2, h2, _, _, _, h5⟩ := close_entry_ok cb st e he
    rw [h2] at h
    injection h with h
    rw [← h]
    exact h5

theorem widened_precision (reg : commodities_t) (sym : String) (c : commodity_t)
    (data : String) (h : reg sym = some c) :
    ∃ c1, widened reg sym c data sym = some c1 ∧
      c1.precision = match fraction_digits data with
        | none => c.precision
        | some k => max c.precision k := by
  unfold widened
  cases fraction_digits data with
  | none => exact ⟨c, h, rfl⟩
  | some k =>
    by_cases hk : k > c.precision
    · refine ⟨c.set_precision k, by simp [hk, commodities_modify, h], ?_⟩
      show k = max c.precision k
      omega
    · refine ⟨c, by simp [hk, h], ?_⟩
      show c.precision = max c.precision k
      omega

theorem widened_le (reg : commodities_t) (sym : String) (c : commodity_t)
    (data : String) (h : reg sym = some c) : precision_le reg (widened reg sym c data) := by
  intro s c0 h0
  by_cases hs : s = sym
  · subst hs
    obtain ⟨c1, h1, h2⟩ := widened_precision reg s c data h
    rw [h] at h0
    injection h0 with h0
    subst h0
    refine ⟨c1, h1, ?_⟩
    rw [h2]
    cases fraction_digits data with
    | none => exact Nat.le_refl _
    | some k => exact Nat.le_max_left _ _
  · refine ⟨c0, ?_, Nat.le_refl _⟩
    unfold widened
    cases fraction_digits data with
    | none => exact h0
    | some k =>
      show (if k > c.precision then _ else reg) s = some c0
      split_ifs
      · simp [commodities_modify, hs, h0]
      · exact h0

theorem symbol_registry_le (reg : commodities_t) (data fl : String) :
    precision_le reg
      (commodities_modify (find_or_create reg data) data (fun c => apply_comm_flags c fl)) := by
  intro s c0 h0
  by_cases hs : s = data
  · subst hs
    refine ⟨apply_comm_flags c0 fl, by simp [commodities_modify, find_or_create, h0], ?_⟩
    rw [apply_comm_flags_precision]
  · exact ⟨c0, by simp [commodities_modify, find_or_create, hs, h0], Nat.le_refl _⟩

theorem xml_step_precision (cb : collab) (st st1 : xml_state) (ev : xml_event)
    (h : xml_step cb st ev = .ok st1) : precision_le st.commodities st1.commodities := by
  rcases xml_step_cases cb st st1 ev h with hq | ⟨_, ⟨_, h1⟩ | ⟨_, h1⟩ | ⟨_, h1⟩⟩
  · rw [hq.1]; exact precision_le_refl _
  · rw [close_entry_commodities cb st st1 h1]; exact precision_le_refl _
  · obtain ⟨_, rfl⟩ := close_symbol_frame st st1 h1
    exact symbol_registry_le _ _ _
  · cases hcc : st.curr_comm with
    | none =>
      obtain ⟨e1, rfl⟩ := close_quantity_plain cb st st1 hcc h1
      exact precision_le_refl _
    | some sym =>
      obtain ⟨c, e1, hc, rfl⟩ := close_quantity_pending cb st st1 sym hcc h1
      exact widened_le _ _ _ _ hc

theorem xml_run_precision (cb : collab) (evs : List xml_event) :
    ∀ st st1, xml_run cb st evs = .ok st1 → precision_le st.commodities st1.commodities := by
  induction evs with
  | nil =>
    intro st st1 h
    injection h with h
    subst h
    exact precision_le_refl _
  | cons ev evs ih =>
    intro st st1 h
    rw [xml_run_cons] at h
    cases hst : xml_step cb st ev with
    | error f => rw [hst] at h; cases h
    | ok st2 =>
      rw [hst] at h
      exact precision_le_trans _ _ _ (xml_step_precision cb st st2 ev hst) (ih st2 st1 h)

theorem find_or_create_precision (reg : commodities_t) (symbol : String) :
    precision_le reg (find_or_create reg symbol) := by
  intro s c0 h0
  by_cases hs : s = symbol
  · subst hs
    exact ⟨c0, by simp [find_or_create, h0], Nat.le_refl _⟩
  · exact ⟨c0, by simp [find_or_create, hs, h0], Nat.le_refl _⟩

theorem modify_precision (reg : commodities_t) (symbol : String)
    (f : commodity_t → commodity_t) (hf : ∀ c : commodity_t, c.precision ≤ (f c).precision) :
    precision_le reg (commodities_modify reg symbol f) := by
  intro s c0 h0
  by_cases hs : s = symbol
  · subst hs
    exact ⟨f c0, by simp [commodities_modify, h0], hf c0⟩
  · exact ⟨c0, by simp [commodities_modify, hs, h0], Nat.le_refl _⟩

theorem account_cb_precision (st : ofx_state) (data : OfxAccountData) :
    precision_le st.commodities (ofx_proc_account_cb st data).2.commodities := by
  unfold ofx_proc_account_cb
  split_ifs
  all_goals dsimp only
  all_goals (try split)
  all_goals
    repeat' first
      | exact precision_le_refl _
      | exact find_or_create_precision _ _
      | exact Nat.le_refl _
      | refine precision_le_trans _ _ _ ?_ (modify_precision _ _ _ (fun c => ?_))

theorem security_cb_precision (st : ofx_state) (data : OfxSecurityData) :
    precision_le st.commodities (ofx_proc_security_cb st data).2.commodities := by
  unfold ofx_proc_security_cb
  split_ifs
  all_goals dsimp only
  all_goals
    repeat' first
      | exact precision_le_refl _
      | exact find_or_create_precision _ _
      | exact Nat.le_refl _
      | refine precision_le_trans _ _ _ ?_ (modify_precision _ _ _ (fun c => ?_))

theorem ofx_submit_commodities (cb : collab) (st : ofx_state) (entry : entry_t) :
    (ofx_submit_entry cb st entry).2.commodities = st.commodities := by
  unfold ofx_submit_entry
  dsimp only
  split_ifs <;> rfl

theorem transaction_cb_commodities (cb : collab) (st : ofx_state) (data : OfxTransactionData)
    (r : Int × ofx_state) (h : ofx_proc_transaction_cb cb st data = .ok r) :
    r.2.commodities = st.commodities := by
  unfold ofx_proc_transaction_cb at h
  split_ifs at h
  · injection h with h; subst h; rfl
  · split at h
    · cases h
    · split at h
      · cases h
      · split at h
        · cases h
        · injection h with h
          subst h
          exact ofx_submit_commodities _ _ _

theorem ofx_dispatch_precision (cb : collab) (st st1 : ofx_state) (r : ofx_record)
    (h : ofx_dispatch cb st r = .ok st1) : precision_le st.commodities st1.commodities := by
  cases r with
  | statement => injection h with h; subst h; exact precision_le_refl _
  | account data => injection h with h; subst h; exact account_cb_precision st data
  | transaction data =>
    cases hr : ofx_proc_transaction_cb cb st data with
    | error f => simp [ofx_dispatch, hr] at h
    | ok r =>
      simp only [ofx_dispatch, hr] at h
      injection h with h
      subst h
      rw [transaction_cb_commodities cb st data r hr]
      exact precision_le_refl _
  | security data => injection h with h; subst h; exact security_cb_precision st data
  | status => injection h with h; subst h; exact precision_le_refl _

theorem close_quantity_ok (cb : collab) (st : xml_state) (sym : String) (c : commodity_t)
    (e : entry_t) (hc : st.curr_comm = some sym) (hr : st.commodities sym = some c)
    (he : st.curr_entry = some e) (hne : e.transactions ≠ []) :
    ∃ e1, close_quantity cb st = .ok { st with
      curr_entry := some e1, curr_comm := none,
      commodities := widened st.commodities sym c st.data } := by
  obtain ⟨e1, h1, _⟩ := with_back_ok st
    (fun x => { x with amount := (cb.parse_amount st.data).set_commodity sym }) e he hne
  refine ⟨e1, ?_⟩
  simp only [close_quantity, hc, hr, h1]
  rfl

theorem endElement_quantity (cb : collab) (st : xml_state) (hi : st.ignore = false) :
    endElement cb st "quantity" = close_quantity cb st := by
  simp [endElement, hi]

/-- C6: at a `quantity` close outside ignore mode, with an entry open that has
a transaction and a commodity of precision `p` pending under `sym`: when the
latched text is `pre.post` with no `.` in `pre`, the commodity's precision
becomes `max p (length of post)`; when the text has no `.`, it stays `p`. Along
any run of the XML handlers, and through every OFX callback, every commodity of
the registry stays registered with a precision at least what it was. From
precision 2 the quantity `100.125` gives 3, and a later `5.00` leaves 3. -/
theorem quantity_close_widens_precision :
    (∀ (cb : collab) (st : xml_state) (sym : String) (c : commodity_t) (e : entry_t)
        (pre post : String),
      st.ignore = false → st.curr_comm = some sym → st.commodities sym = some c →
      st.curr_entry = some e → e.transactions ≠ [] →
      st.data = pre ++ "." ++ post → '.' ∉ pre.data →
      ∃ st1 c1, endElement cb st "quantity" = .ok st1 ∧ st1.commodities sym = some c1 ∧
        c1.precision = max c.precision post.length) ∧
    (∀ (cb : collab) (st : xml_state) (sym : String) (c : commodity_t) (e : entry_t),
      st.ignore = false → st.curr_comm = some sym → st.commodities sym = some c →
      st.curr_entry = some e → e.transactions ≠ [] → '.' ∉ st.data.data →
      ∃ st1 c1, endElement cb st "quantity" = .ok st1 ∧ st1.commodities sym = some c1 ∧
        c1.precision = c.precision) ∧
    (∀ (cb : collab) (evs : List xml_event) (st st1 : xml_state),
      xml_run cb st evs = .ok st1 → precision_le st.commodities st1.commodities) ∧
    (∀ (cb : collab) (st st1 : ofx_state) (r : ofx_record),
      ofx_dispatch cb st r = .ok st1 → precision_le st.commodities st1.commodities) ∧
    precision_after (xml_run collab.sample xml_state.usd_pending
      [xml_event.text "100.125", xml_event.close "quantity"]) "USD" = some 3 ∧
    precision_after (xml_run collab.sample xml_state.usd_pending
      [xml_event.text "100.125", xml_event.close "quantity", xml_event.text "USD",
       xml_event.close "symbol", xml_event.text "5.00", xml_event.close "quantity"]) "USD"
      = some 3 := by
  refine ⟨?_, ?_, fun cb evs st st1 h => xml_run_precision cb evs st st1 h,
    fun cb st st1 r h => ofx_dispatch_precision cb st st1 r h, by decide, by decide⟩
  · intro cb st sym c e pre post hi hc hr he hne hd hp
    obtain ⟨e1, h1⟩ := close_quantity_ok cb st sym c e hc hr he hne
    obtain ⟨c1, h2, h3⟩ := widened_precision st.commodities sym c st.data hr
    rw [hd, fraction_digits_split pre post hp] at h3
    exact ⟨_, c1, (endElement_quantity cb st hi).trans h1, h2, h3⟩
  · intro cb st sym c e hi hc hr he hne hd
    obtain ⟨e1, h1⟩ := close_quantity_ok cb st sym c e hc hr he hne
    obtain ⟨c1, h2, h3⟩ := widened_precision st.commodities sym c st.data hr
    rw [fraction_digits_none st.data hd] at h3
    exact ⟨_, c1, (endElement_quantity cb st hi).trans h1, h2, h3⟩

theorem quantity_close_widens_precision_witness :
    ∃ st1 c1, endElement collab.sample { xml_state.usd_pending with data := "100.125" }
        "quantity" = .ok st1 ∧
      st1.commodities "USD" = some c1 ∧ c1.precision = max 2 3 :=
  quantity_close_widens_precision.1 collab.sample
    { xml_state.usd_pending with data := "100.125" } "USD"
    { commodity_t.fresh "USD" with precision := 2 }
    { entry_t.new with transactions := [transaction_t.new none] } "100" "125"
    rfl rfl (by decide) rfl (by decide) (by decide) (by decide)

/-! ### The `total` subtree -/

theorem ignored_step (cb : collab) (st : xml_state) (ev : xml_event)
    (hi : st.ignore = true) (hev : ev ≠ xml_event.close "total") :
    xml_step cb st ev = .ok st := by
  cases ev with
  | start name attrs => simp [xml_step, startElement, hi]
  | close name =>
    have hn : name ≠ "total" := fun h => hev (by rw [h])
    simp [xml_step, endElement, hi, hn]
  | text s => simp [xml_step, dataHandler, hi]

theorem ignored_run (cb : collab) (evs : List xml_event) :
    ∀ st, st.ignore = true → xml_event.close "total" ∉ evs → xml_run cb st evs = .ok st := by
  induction evs with
  | nil => intro st _ _; rfl
  | cons ev evs ih =>
    intro st hi hn
    rw [xml_run_cons, ignored_step cb st ev hi (fun h => hn (by rw [h]; exact List.mem_cons_self _ _))]
    exact ih st hi (fun h => hn (List.mem_cons_of_mem _ h))

theorem total_start (cb : collab) (st : xml_state) (attrs : List (String × String))
    (hi : st.ignore = false) :
    xml_step cb st (xml_event.start "total" attrs) = .ok { st with ignore := true } := by
  simp [xml_step, startElement, hi]

/-- C7 (as the code has it): outside ignore mode, a `total` start, any content
without a `total` close, and the `total` close leave the whole state of the
adapter, journal and registry included, exactly as it was; after the start and
any leading part of the content the state is the state before with ignore mode
on. -/
theorem total_subtree_is_ignored (cb : collab) (st : xml_state)
    (attrs : List (String × String)) (content : List xml_event)
    (hi : st.ignore = false) (hc : xml_event.close "total" ∉ content) :
    xml_run cb st (xml_event.start "total" attrs :: content ++ [xml_event.close "total"])
      = .ok st ∧
    ∀ pre suf, content = pre ++ suf →
      xml_run cb st (xml_event.start "total" attrs :: pre) = .ok { st with ignore := true } := by
  constructor
  · show xml_run cb st (xml_event.start "total" attrs :: (content ++ [xml_event.close "total"])) = _
    rw [xml_run_cons, total_start cb st attrs hi]
    show xml_run cb { st with ignore := true } (content ++ [xml_event.close "total"]) = _
    rw [xml_run_append, ignored_run cb content { st with ignore := true } rfl hc]
    show xml_run cb { st with ignore := true } [xml_event.close "total"] = _
    rw [xml_run_single]
    simp only [xml_step, endElement, if_true]
    rw [← hi]
  · intro pre suf hps
    rw [xml_run_cons, total_start cb st attrs hi]
    show xml_run cb { st with ignore := true } pre = _
    apply ignored_run cb pre { st with ignore := true } rfl
    intro h
    exact hc (by rw [hps]; exact List.mem_append_left _ h)

theorem total_subtree_is_ignored_witness :
    xml_state.initial.ignore = false ∧
    xml_event.close "total" ∉
      [xml_event.start "value" [], xml_event.text "12", xml_event.close "value"] ∧
    xml_run collab.sample xml_state.initial
      (xml_event.start "total" [] ::
        [xml_event.start "value" [], xml_event.text "12", xml_event.close "value"] ++
        [xml_event.close "total"]) = .ok xml_state.initial :=
  ⟨rfl, by decide,
   (total_subtree_is_ignored collab.sample xml_state.initial []
      [xml_event.start "value" [], xml_event.text "12", xml_event.close "value"]
      rfl (by decide)).1⟩

/-- C7 fails as stated: with a `total` element nested in the content of a
`total` element, the inner close ends ignore mode, so ignore mode is off within
the content and the text after the inner element is latched: the pending text
buffer is not as it was. -/
theorem nested_total_counterexample :
    data_and_ignore_after (xml_run collab.sample xml_state.initial
      [xml_event.start "total" [], xml_event.start "total" [], xml_event.close "total"])
      = some ("", false) ∧
    data_and_ignore_after (xml_run collab.sample xml_state.initial
      [xml_event.start "total" [], xml_event.start "total" [], xml_event.close "total",
       xml_event.text "12", xml_event.close "total"]) = some ("12", false) ∧
    xml_state.initial.data = "" := by
  decide

/-! ### Style flags -/

theorem subset_refl (f : style_flags) : f.subset f := ⟨id, id, id, id⟩

theorem subset_lor (f g : style_flags) : f.subset (f.lor g) := by
  refine ⟨?_, ?_, ?_, ?_⟩ <;> (intro h; simp [style_flags.lor, h])

theorem flags_kept_refl (r : commodities_t) : flags_kept r r :=
  fun _ c h => ⟨c, h, subset_refl _⟩

theorem foldl_flag_letters_flags (l : List Char) :
    ∀ c : commodity_t, (l.foldl apply_flag_letter c).flags =
      ⟨c.flags.suffixed && !decide ('P' ∈ l), c.flags.separated || decide ('S' ∈ l),
       c.flags.thousands || decide ('T' ∈ l), c.flags.european || decide ('E' ∈ l)⟩ := by
  induction l with
  | nil => intro c; simp
  | cons ch l ih =>
    intro c
    rw [List.foldl_cons, ih]
    unfold apply_flag_letter
    by_cases hP : ch = 'P'
    · subst hP
      simp [commodity_t.drop_flags, style_flags.clear, COMMODITY_STYLE_SUFFIXED]
    · by_cases hS : ch = 'S'
      · subst hS
        simp [commodity_t.add_flags, style_flags.lor, COMMODITY_STYLE_SEPARATED]
      · by_cases hT : ch = 'T'
        · subst hT
          simp [commodity_t.add_flags, style_flags.lor, COMMODITY_STYLE_THOUSANDS]
        · by_cases hE : ch = 'E'
          · subst hE
            simp [commodity_t.add_flags, style_flags.lor, COMMODITY_STYLE_EUROPEAN]
          · simp [hP, hS, hT, hE, Ne.symm hP, Ne.symm hS, Ne.symm hT, Ne.symm hE]

/-- The flags a `symbol` close leaves on the commodity: suffixed unless a `P`
is stashed, and each other flag if it was set or its letter is stashed. -/
theorem apply_comm_flags_flags (c : commodity_t) (fl : String) :
    (apply_comm_flags c fl).flags =
      ⟨!decide ('P' ∈ fl.data), c.flags.separated || decide ('S' ∈ fl.data),
       c.flags.thousands || decide ('T' ∈ fl.data),
       c.flags.european || decide ('E' ∈ fl.data)⟩ := by
  unfold apply_comm_flags
  by_cases h : fl = ""
  · subst h
    simp [commodity_t.add_flags, style_flags.lor, COMMODITY_STYLE_SUFFIXED]
  · simp only [h, if_false]
    rw [foldl_flag_letters_flags]
    simp [commodity_t.add_flags, style_flags.lor, COMMODITY_STYLE_SUFFIXED]

theorem account_cb_flags (st : ofx_state) (data : OfxAccountData) :
    flags_kept st.commodities (ofx_proc_account_cb st data).2.commodities := by
  unfold ofx_proc_account_cb
  split_ifs
  · exact flags_kept_refl _
  · have hk : flags_kept st.commodities
        (commodities_modify (find_or_create st.commodities data.currency) data.currency
          (fun c => c.add_flags (COMMODITY_STYLE_SUFFIXED.lor COMMODITY_STYLE_SEPARATED))) := by
      intro s c0 h0
      by_cases hs : s = data.currency
      · subst hs
        exact ⟨_, by simp [commodities_modify, find_or_create, h0]; rfl, subset_lor _ _⟩
      · exact ⟨c0, by simp [commodities_modify, find_or_create, hs, h0], subset_refl _⟩
    dsimp only
    split <;> exact hk
  · exact flags_kept_refl _

theorem flags_kept_trans (r1 r2 r3 : commodities_t) (h12 : flags_kept r1 r2)
    (h23 : flags_kept r2 r3) : flags_kept r1 r3 := by
  intro sym c h
  obtain ⟨c2, h2, ⟨a1, a2, a3, a4⟩⟩ := h12 sym c h
  obtain ⟨c3, h3, ⟨b1, b2, b3, b4⟩⟩ := h23 sym c2 h2
  exact ⟨c3, h3, fun x => b1 (a1 x), fun x => b2 (a2 x), fun x => b3 (a3 x),
    fun x => b4 (a4 x)⟩

theorem find_or_create_kept (reg : commodities_t) (symbol : String) :
    flags_kept reg (find_or_create reg symbol) := by
  intro s c0 h0
  by_cases hs : s = symbol
  · subst hs
    exact ⟨c0, by simp [find_or_create, h0], subset_refl _⟩
  · exact ⟨c0, by simp [find_or_create, hs, h0], subset_refl _⟩

theorem modify_kept (reg : commodities_t) (symbol : String) (f : commodity_t → commodity_t)
    (hf : ∀ c : commodity_t, c.flags.subset (f c).flags) : flags_kept reg (commodities_modify reg symbol f) := by
  intro s c0 h0
  by_cases hs : s = symbol
  · subst hs
    exact ⟨f c0, by simp [commodities_modify, h0], hf c0⟩
  · exact ⟨c0, by simp [commodities_modify, hs, h0], subset_refl _⟩

theorem security_cb_flags (st : ofx_state) (data : OfxSecurityData) :
    flags_kept st.commodities (ofx_proc_security_cb st data).2.commodities := by
  unfold ofx_proc_security_cb
  split_ifs
  all_goals dsimp only
  all_goals
    repeat' first
      | exact flags_kept_refl _
      | exact find_or_create_kept _ _
      | exact subset_refl _
      | exact subset_lor _ _
      | refine flags_kept_trans _ _ _ ?_ (modify_kept _ _ _ (fun c => ?_))

theorem endElement_symbol (cb : collab) (st : xml_state) (hi : st.ignore = false) :
    endElement cb st "symbol" = close_symbol st := by
  simp [endElement, hi]

theorem xml_step_flags (cb : collab) (st st1 : xml_state) (ev : xml_event)
    (h : xml_step cb st ev = .ok st1) (sym : String) (c : commodity_t)
    (hc : st.commodities sym = some c) :
    ∃ c2, st1.commodities sym = some c2 ∧
      (c.flags.separated = true → c2.flags.separated = true) ∧
      (c.flags.thousands = true → c2.flags.thousands = true) ∧
      (c.flags.european = true → c2.flags.european = true) ∧
      (c.flags.suffixed = true → c2.flags.suffixed = true ∨
        (ev = xml_event.close "symbol" ∧ st.ignore = false ∧ sym = st.data ∧
          'P' ∈ st.comm_flags.data)) := by
  rcases xml_step_cases cb st st1 ev h with hq | ⟨hi, ⟨_, h1⟩ | ⟨hev, h1⟩ | ⟨_, h1⟩⟩
  · exact ⟨c, by rw [hq.1]; exact hc, id, id, id, fun x => Or.inl x⟩
  · exact ⟨c, by rw [close_entry_commodities cb st st1 h1]; exact hc, id, id, id,
      fun x => Or.inl x⟩
  · obtain ⟨_, rfl⟩ := close_symbol_frame st st1 h1
    by_cases hs : sym = st.data
    · subst hs
      refine ⟨apply_comm_flags c st.comm_flags,
        by simp [commodities_modify, find_or_create, hc], ?_, ?_, ?_, ?_⟩
      · intro x; rw [apply_comm_flags_flags]; simp [x]
      · intro x; rw [apply_comm_flags_flags]; simp [x]
      · intro x; rw [apply_comm_flags_flags]; simp [x]
      · intro _
        by_cases hP : 'P' ∈ st.comm_flags.data
        · exact Or.inr ⟨hev, hi, rfl, hP⟩
        · left; rw [apply_comm_flags_flags]; simp [hP]
    · exact ⟨c, by simp [commodities_modify, find_or_create, hs, hc], id, id, id,
        fun x => Or.inl x⟩
  · cases hcc : st.curr_comm with
    | none =>
      obtain ⟨e1, rfl⟩ := close_quantity_plain cb st st1 hcc h1
      exact ⟨c, hc, id, id, id, fun x => Or.inl x⟩
    | some s =>
      obtain ⟨c0, e1, hc0, rfl⟩ := close_quantity_pending cb st st1 s hcc h1
      show ∃ c2, widened st.commodities s c0 st.data sym = some c2 ∧ _
      unfold widened
      cases fraction_digits st.data with
      | none => exact ⟨c, hc, id, id, id, fun x => Or.inl x⟩
      | some k =>
        dsimp only
        split_ifs
        · by_cases hs : sym = s
          · subst hs
            exact ⟨c.set_precision k, by simp [commodities_modify, hc], id, id, id,
              fun x => Or.inl x⟩
          · exact ⟨c, by simp [commodities_modify, hs, hc], id, id, id, fun x => Or.inl x⟩
        · exact ⟨c, hc, id, id, id, fun x => Or.inl x⟩

/-- C8 (as the code has it): the OFX account and security callbacks leave every
registered commodity with every style flag it had. Every event of the
XML import adapter leaves every registered commodity with its separated,
thousands and european flags if they were set, and with its suffixed flag as
well unless the event is a `symbol` close outside ignore mode whose latched
text names the commodity and whose stashed letters contain `P`; at a `symbol`
close the suffixed flag of the named commodity ends up set exactly when no `P`
is stashed. -/
theorem style_flags_kept_except_suffixed :
    (∀ (st : ofx_state) (data : OfxAccountData),
      flags_kept st.commodities (ofx_proc_account_cb st data).2.commodities) ∧
    (∀ (st : ofx_state) (data : OfxSecurityData),
      flags_kept st.commodities (ofx_proc_security_cb st data).2.commodities) ∧
    (∀ (cb : collab) (st st1 : xml_state) (ev : xml_event) (sym : String) (c : commodity_t),
      xml_step cb st ev = .ok st1 → st.commodities sym = some c →
      ∃ c2, st1.commodities sym = some c2 ∧
        (c.flags.separated = true → c2.flags.separated = true) ∧
        (c.flags.thousands = true → c2.flags.thousands = true) ∧
        (c.flags.european = true → c2.flags.european = true) ∧
        (c.flags.suffixed = true → c2.flags.suffixed = true ∨
          (ev = xml_event.close "symbol" ∧ st.ignore = false ∧ sym = st.data ∧
            'P' ∈ st.comm_flags.data))) ∧
    (∀ (cb : collab) (st st1 : xml_state),
      st.ignore = false → endElement cb st "symbol" = .ok st1 →
      ∃ c2, st1.commodities st.data = some c2 ∧
        (c2.flags.suffixed = true ↔ 'P' ∉ st.comm_flags.data)) := by
  refine ⟨account_cb_flags, security_cb_flags,
    fun cb st st1 ev sym c h hc => xml_step_flags cb st st1 ev h sym c hc, ?_⟩
  intro cb st st1 hi h
  rw [endElement_symbol cb st hi] at h
  obtain ⟨_, rfl⟩ := close_symbol_frame st st1 h
  refine ⟨apply_comm_flags ((st.commodities st.data).getD (commodity_t.fresh st.data))
    st.comm_flags, by simp [commodities_modify, find_or_create], ?_⟩
  rw [apply_comm_flags_flags]
  simp

/-- C8 fails as stated: the commodity `USD` has the suffixed flag, as the OFX
account callback sets it; a `symbol` close with latched text `USD` and stashed
letter `P` leaves it without the suffixed flag. -/
theorem symbol_close_clears_suffixed_counterexample :
    (xml_state.usd_suffixed.commodities "USD").map (fun c => c.flags)
      = some ⟨true, true, false, false⟩ ∧
    flags_after (endElement collab.sample xml_state.usd_suffixed "symbol") "USD"
      = some ⟨false, true, false, false⟩ := by
  decide

/-! ### The stashed flag letters -/

theorem close_entry_comm_flags (cb : collab) (st st1 : xml_state)
    (h : close_entry cb st = .ok st1) : st1.comm_flags = st.comm_flags := by
  cases he : st.curr_entry with
  | none => simp [close_entry, he] at h
  | some e =>
    cases hb : cb.balanced e
    · cases hb1 : cb.balanced (e.add_transaction (transaction_t.new (some "<Unknown>")))
      · rw [close_entry_discarded cb st e he hb hb1] at h
        injection h with h; subst h; rfl
      · rw [close_entry_retried cb st e he hb hb1] at h
        injection h with h; subst h; rfl
    · rw [close_entry_accepted cb st e he hb] at h
      injection h with h; subst h; rfl

theorem with_entry_comm_flags (st st1 : xml_state) (f : entry_t → entry_t)
    (h : with_entry st f = .ok st1) : st1.comm_flags = st.comm_flags := by
  obtain ⟨e, _, rfl⟩ := with_entry_frame _ _ _ h
  rfl

theorem with_back_comm_flags (st st1 : xml_state) (f : transaction_t → transaction_t)
    (h : with_back st f = .ok st1) : st1.comm_flags = st.comm_flags := by
  obtain ⟨e, e1, _, _, rfl⟩ := with_back_frame _ _ _ h
  rfl

theorem close_symbol_comm_flags (st st1 : xml_state)
    (h : close_symbol st = .ok st1) : st1.comm_flags = st.comm_flags := by
  obtain ⟨_, rfl⟩ := close_symbol_frame st st1 h
  rfl

theorem endElement_comm_flags (cb : collab) (st st1 : xml_state) (name : String)
    (h : endElement cb st name = .ok st1) : st1.comm_flags = st.comm_flags := by
  cases hi : st.ignore
  · by_cases hm : name ∈ close_names
    · simp only [close_names, List.mem_cons, List.mem_singleton, List.mem_nil_iff,
        or_false] at hm
      rcases hm with rfl | rfl | rfl | rfl | rfl | rfl | rfl | rfl | rfl | rfl | rfl | rfl |
        rfl | rfl | rfl
      all_goals simp [endElement, hi] at h
      all_goals first
        | (subst h; rfl)
        | exact close_entry_comm_flags cb st st1 h
        | exact with_entry_comm_flags _ _ _ h
        | exact with_back_comm_flags _ _ _ h
        | exact close_symbol_comm_flags _ _ h
        | exact (close_quantity_journal cb st st1 h).2.2.1
        | skip
      cases hw : with_back st (fun x => { x with account := some st.data }) with
      | error f => rw [hw] at h; cases h
      | ok st2 =>
        rw [hw] at h
        obtain ⟨e, e1, _, _, rfl⟩ := with_back_frame _ _ _ hw
        simp at h
        subst h
        rfl
    · rw [endElement_other cb st name hi hm] at h
      injection h with h
      subst h
      rfl
  · unfold endElement at h
    rw [hi] at h
    simp only [if_true] at h
    split_ifs at h <;> (injection h with h; subst h; rfl)

theorem startElement_comm_flags (st st1 : xml_state) (name : String)
    (attrs : List (String × String)) (h : startElement st name attrs = .ok st1) :
    st1.comm_flags = st.comm_flags ∨
      (st.ignore = false ∧ name = "commodity" ∧
        ∃ v rest, attrs = ("flags", v) :: rest ∧ st1.comm_flags = v) := by
  cases hi : st.ignore
  · by_cases h1 : name = "entry"
    · subst h1
      simp only [startElement, hi] at h
      simp at h
      split at h
      · cases h
      · injection h with h; subst h; exact Or.inl rfl
    · by_cases h2 : name = "transaction"
      · subst h2
        simp only [startElement, hi] at h
        simp at h
        split at h
        · cases h
        · injection h with h; subst h; exact Or.inl rfl
      · by_cases h3 : name = "commodity"
        · subst h3
          cases attrs with
          | nil => simp [startElement, hi] at h
          | cons a rest =>
            obtain ⟨k, v⟩ := a
            by_cases hk : k = "flags"
            · subst hk
              simp [startElement, hi] at h
              subst h
              exact Or.inr ⟨rfl, rfl, v, rest, rfl, rfl⟩
            · simp [startElement, hi, hk] at h
              subst h
              exact Or.inl rfl
        · by_cases h4 : name = "total"
          · subst h4
            simp [startElement, hi] at h
            subst h
            exact Or.inl rfl
          · simp [startElement, hi, h1, h2, h3, h4] at h
            subst h
            exact Or.inl rfl
  · simp [startElement, hi] at h
    subst h
    exact Or.inl rfl

/-- C9 (as the code has it): a `symbol` close leaves the stashed flag letters
as they were. No event clears the stash: it changes only at a `commodity`
start outside ignore mode whose first attribute is `flags`, which replaces it
by that attribute's value, so flag letters read from one `commodity` element
stay in force for every later `symbol` close until then. -/
theorem symbol_close_keeps_stash (cb : collab) (st st1 : xml_state) (ev : xml_event)
    (h : xml_step cb st ev = .ok st1) :
    (ev = xml_event.close "symbol" → st1.comm_flags = st.comm_flags) ∧
    (st1.comm_flags = st.comm_flags ∨
      (st.ignore = false ∧
        ∃ v rest, ev = xml_event.start "commodity" (("flags", v) :: rest) ∧
          st1.comm_flags = v)) := by
  cases ev with
  | start name attrs =>
    refine ⟨(fun hev => by cases hev), ?_⟩
    rcases startElement_comm_flags st st1 name attrs h with h1 | ⟨hi, hn, v, rest, ha, hv⟩
    · exact Or.inl h1
    · exact Or.inr ⟨hi, v, rest, by rw [hn, ha], hv⟩
  | close name =>
    have := endElement_comm_flags cb st st1 name h
    exact ⟨fun _ => this, Or.inl this⟩
  | text s =>
    injection h with h
    subst h
    have : (dataHandler st s).comm_flags = st.comm_flags := by
      unfold dataHandler
      split_ifs <;> rfl
    exact ⟨fun _ => this, Or.inl this⟩

theorem symbol_close_keeps_stash_witness :
    comm_flags_after (xml_step collab.sample { xml_state.initial with comm_flags := "S" }
      (xml_event.close "symbol")) = some "S" := by
  have h : xml_step collab.sample { xml_state.initial with comm_flags := "S" }
      (xml_event.close "symbol") = .ok
        { xml_state.initial with
            comm_flags := "S", curr_comm := some "",
            commodities := commodities_modify (find_or_create (fun _ => none) "") ""
              (fun c => apply_comm_flags c "S") } := rfl
  have h2 := (symbol_close_keeps_stash collab.sample _ _ _ h).1 rfl
  rw [h]
  exact congrArg some h2

/-- C9 fails as stated: after a `commodity` start with `flags="S"` and the
`symbol` close for `AAA`, the stash still holds `S`, and the next `symbol`
close, for `BBB`, applies it again: `BBB` gets the separated flag although no
`commodity` start came in between. -/
theorem stale_stash_counterexample :
    comm_flags_after (xml_run collab.sample xml_state.initial
      [xml_event.start "commodity" [("flags", "S")], xml_event.text "AAA",
       xml_event.close "symbol"]) = some "S" ∧
    flags_after (xml_run collab.sample xml_state.initial
      [xml_event.start "commodity" [("flags", "S")], xml_event.text "AAA",
       xml_event.close "symbol", xml_event.close "tr:amount", xml_event.text "BBB",
       xml_event.close "symbol"]) "BBB" = some ⟨true, true, false, false⟩ := by
  decide

/-! ### Export and re-import -/

theorem xml_write_amount_congr (reg : commodities_t) (a b : amount_t) (depth : Nat)
    (hq : a.quantity = b.quantity) (hf : amount_flags reg a = amount_flags reg b) :
    xml_write_amount reg a depth = xml_write_amount reg b depth := by
  unfold xml_write_amount amount_t.quantity_string
  rw [hq, hf]

set_option maxRecDepth 100000 in
/-- C10: the text `xml_write_amount` writes depends on the amount only through
its quantity and its commodity's style flags, never through the commodity's
symbol. The entries `10 USD` and `10 EUR` on `Expenses:Food` differ, yet
`format_last_entry` writes the same text for both (shown in full); reading
that text back, with the decoder reporting the events of each of its lines,
`xml_parser_t::parse` commits an entry whose amount is 10 with no commodity. -/
theorem export_omits_commodity_symbol :
    (∀ (reg : commodities_t) (a b : amount_t) (depth : Nat),
      a.quantity = b.quantity → amount_flags reg a = amount_flags reg b →
      xml_write_amount reg a depth = xml_write_amount reg b depth) ∧
    entry_t.in_commodity "USD" ≠ entry_t.in_commodity "EUR" ∧
    (format_last_entry collab.sample commodities_t.usd_eur false
      (entry_t.in_commodity "USD")).1 =
    (format_last_entry collab.sample commodities_t.usd_eur false
      (entry_t.in_commodity "EUR")).1 ∧
    (format_last_entry collab.sample commodities_t.usd_eur false
      (entry_t.in_commodity "USD")).1 =
      "  <entry>\n    <en:date>2006/03/02</en:date>\n    <en:payee>Grocer</en:payee>\n" ++
      "    <en:transactions>\n      <transaction>\n" ++
      "        <tr:account>Expenses:Food</tr:account>\n        <tr:amount>\n" ++
      "          <value type=\"amount\">\n            <amount>\n" ++
      "              <commodity flags=\"S\">\n" ++
      "                              </commodity>\n" ++
      "              <quantity>10</quantity>\n            </amount>\n" ++
      "          </value>\n        </tr:amount>\n      </transaction>\n" ++
      "    </en:transactions>\n  </entry>\n" ∧
    amounts_imported (xml_parser_t.parse collab.accepting (decoder.scripted exported_lines) 32
      { xml_state.initial with commodities := commodities_t.usd_eur }
      (istream.of (format_last_entry collab.sample commodities_t.usd_eur false
        (entry_t.in_commodity "USD")).1 0) journal_t.empty) = some [[⟨some "10", none⟩]] := by
  refine ⟨xml_write_amount_congr, by decide, by decide, by decide, by decide⟩

/-! ### Inputs on which a handler fails -/

theorem with_entry_faults (st : xml_state) (f : entry_t → entry_t)
    (h : st.curr_entry = none) : with_entry st f = .error fault.null_deref := by
  simp [with_entry, h]

theorem with_back_faults (st : xml_state) (sh : xml_shape) (f : transaction_t → transaction_t)
    (hs : has_shape st sh) (h : sh.has_xact = false) :
    with_back st f = .error fault.null_deref := by
  obtain ⟨_, _, _, _, _, hy⟩ := hs
  unfold with_back
  cases he : st.curr_entry with
  | none => rfl
  | some e =>
    have := hy h e he
    simp [entry_t.modify_back, this]

theorem isSome_false_elim {α : Type} (o : Option α) (h : o.isSome = false) : o = none := by
  cases o with
  | none => rfl
  | some a => cases h

theorem endElement_faults (cb : collab) (st : xml_state) (sh : xml_shape) (name : String)
    (hs : has_shape st sh) (h : shape_step sh (xml_event.close name) = none) :
    ∃ f, endElement cb st name = .error f := by
  have hs0 := hs
  obtain ⟨hi, he, hx, hc, hr, hy⟩ := hs
  cases hig : sh.ignore
  · rw [hig] at hi
    by_cases hm : name ∈ close_names
    · simp only [close_names, List.mem_cons, List.mem_singleton, List.mem_nil_iff,
        or_false] at hm
      rcases hm with rfl | rfl | rfl | rfl | rfl | rfl | rfl | rfl | rfl | rfl | rfl | rfl |
        rfl | rfl | rfl
      all_goals simp [shape_step, hig] at h
      all_goals simp only [endElement, hi]
      all_goals simp
      · have hn := isSome_false_elim _ (he.trans h)
        exact ⟨fault.assertion, by simp [close_entry, hn]⟩
      · exact ⟨_, with_entry_faults st _ (isSome_false_elim _ (he.trans h))⟩
      · exact ⟨_, with_entry_faults st _ (isSome_false_elim _ (he.trans h))⟩
      · exact ⟨_, with_entry_faults st _ (isSome_false_elim _ (he.trans h))⟩
      · exact ⟨_, with_entry_faults st _ (isSome_false_elim _ (he.trans h))⟩
      · rw [with_back_faults st sh _ hs0 h]
        exact ⟨_, rfl⟩
      · exact ⟨_, with_back_faults st sh _ hs0 h⟩
      · exact ⟨_, with_back_faults st sh _ hs0 h⟩
      · exact ⟨_, with_back_faults st sh _ hs0 h⟩
      · exact ⟨_, with_back_faults st sh _ hs0 h⟩
      · obtain ⟨s, hsym⟩ := isSome_true_elim _ (hc.trans h)
        exact ⟨fault.assertion, by simp [close_symbol, hsym]⟩
      · unfold close_quantity
        cases hcc : st.curr_comm with
        | none => exact ⟨_, with_back_faults st sh _ hs0 h⟩
        | some sym =>
          obtain ⟨c, hcs⟩ := isSome_true_elim _ (hr sym hcc)
          simp only [hcs]
          rw [with_back_faults st sh _ hs0 h]
          exact ⟨_, rfl⟩
    · rw [shape_close_other sh name hig hm] at h
      cases h
  · simp [shape_step, hig] at h
    split_ifs at h

theorem startElement_faults (st : xml_state) (sh : xml_shape) (name : String)
    (attrs : List (String × String)) (hs : has_shape st sh)
    (h : shape_step sh (xml_event.start name attrs) = none) :
    ∃ f, startElement st name attrs = .error f := by
  obtain ⟨hi, he, hx, hc, hr, hy⟩ := hs
  cases hig : sh.ignore
  · rw [hig] at hi
    by_cases h1 : name = "entry"
    · subst h1
      simp [shape_step, hig] at h
      obtain ⟨e, hee⟩ := isSome_true_elim _ (he.trans h)
      exact ⟨fault.assertion, by simp [startElement, hi, hee]⟩
    · by_cases h2 : name = "transaction"
      · subst h2
        simp [shape_step, hig] at h
        have hn := isSome_false_elim _ (he.trans h)
        exact ⟨fault.assertion, by simp [startElement, hi, hn]⟩
      · by_cases h3 : name = "commodity"
        · subst h3
          simp [shape_step, hig] at h
          subst h
          exact ⟨fault.null_deref, by simp [startElement, hi]⟩
        · by_cases h4 : name = "total"
          · subst h4
            simp [shape_step, hig] at h
          · simp [shape_step, hig, h1, h2, h3, h4] at h
  · simp [shape_step, hig] at h

theorem xml_step_faults (cb : collab) (st : xml_state) (sh : xml_shape) (ev : xml_event)
    (hs : has_shape st sh) (h : shape_step sh ev = none) :
    ∃ f, xml_step cb st ev = .error f := by
  cases ev with
  | start name attrs => exact startElement_faults st sh name attrs hs h
  | close name => exact endElement_faults cb st sh name hs h
  | text s => cases h

theorem xml_run_faults (cb : collab) (evs : List xml_event) :
    ∀ (st : xml_state) (sh : xml_shape), has_shape st sh → shape_run sh evs = none →
      ∃ f, xml_run cb st evs = .error f := by
  induction evs with
  | nil => intro st sh _ h; cases h
  | cons ev evs ih =>
    intro st sh hs h
    unfold shape_run at h
    rw [xml_run_cons]
    cases hst : shape_step sh ev with
    | none =>
      obtain ⟨f, hf⟩ := xml_step_faults cb st sh ev hs hst
      exact ⟨f, by rw [hf]⟩
    | some sh2 =>
      rw [hst] at h
      obtain ⟨st2, h2, hs2⟩ := xml_step_simulates cb st sh sh2 ev hs hst
      rw [h2]
      exact ih st2 sh2 hs2 h

theorem xml_parse_line_sim (cb : collab) (ps : xml_parse_state) (l : List xml_event)
    (sh sh1 : xml_shape) (hs : has_shape ps.st sh) (h : shape_run sh l = some sh1) :
    ∃ ps1, xml_parse_line cb ps l = .ok ps1 ∧ has_shape ps1.st sh1 := by
  obtain ⟨st1, h1, hs1⟩ := xml_run_simulates cb l ps.st sh sh1 hs h
  unfold xml_parse_line
  rw [h1]
  by_cases he : st1.have_error ≠ ""
  · exact ⟨_, if_pos he, hs1⟩
  · exact ⟨_, if_neg he, hs1⟩

/-! ### Unresolved references in a transaction record -/

theorem transaction_cb_unknown_account (cb : collab) (st : ofx_state)
    (data : OfxTransactionData) (hv : data.account_id_valid = true)
    (hu : data.units_valid = true) (h : st.ofx_accounts data.account_id = none) :
    ofx_proc_transaction_cb cb st data = .error fault.assertion := by
  simp [ofx_proc_transaction_cb, hv, hu, h]

theorem transaction_cb_unknown_security (cb : collab) (st : ofx_state)
    (data : OfxTransactionData) (hv : data.account_id_valid = true)
    (hu : data.units_valid = true) (hs : data.unique_id_valid = true)
    (h : st.ofx_securities data.unique_id = none) :
    ofx_proc_transaction_cb cb st data = .error fault.assertion := by
  unfold ofx_proc_transaction_cb
  simp only [hv, hu, Bool.not_true, Bool.or_self, Bool.false_eq_true, if_false]
  cases st.ofx_accounts data.account_id with
  | none => rfl
  | some account =>
    cases st.ofx_account_currencies data.account_id with
    | none => rfl
    | some dc => simp [ofx_transaction_amount, hs, h]

/-- C11 (as the code has it): a transaction record with a valid account id and
a valid unit count whose account id is not in the account table, or whose
unique id is present and not in the security table, fails an `assert` of the
transaction callback: the callback returns no status, and the decoder's run
over the records ends in that failure whatever records follow. -/
theorem unresolved_reference_fails_assert (cb : collab) (st : ofx_state)
    (data : OfxTransactionData) (hv : data.account_id_valid = true)
    (hu : data.units_valid = true)
    (h : st.ofx_accounts data.account_id = none ∨
      (data.unique_id_valid = true ∧ st.ofx_securities data.unique_id = none)) :
    ofx_proc_transaction_cb cb st data = .error fault.assertion ∧
    ∀ rest, ofx_run cb st (ofx_record.transaction data :: rest) = .error fault.assertion := by
  have h1 : ofx_proc_transaction_cb cb st data = .error fault.assertion := by
    rcases h with h | ⟨hs, h⟩
    · exact transaction_cb_unknown_account cb st data hv hu h
    · exact transaction_cb_unknown_security cb st data hv hu hs h
  refine ⟨h1, fun rest => ?_⟩
  simp [ofx_run, ofx_dispatch, h1]

theorem unresolved_reference_fails_assert_witness :
    (OfxTransactionData.sample (-42)).account_id_valid = true ∧
    (OfxTransactionData.sample (-42)).units_valid = true ∧
    ofx_state.initial.ofx_accounts (OfxTransactionData.sample (-42)).account_id = none ∧
    ofx_proc_transaction_cb collab.sample ofx_state.initial (OfxTransactionData.sample (-42))
      = .error fault.assertion :=
  ⟨rfl, rfl, rfl,
   (unresolved_reference_fails_assert collab.sample ofx_state.initial
      (OfxTransactionData.sample (-42)) rfl rfl (Or.inl rfl)).1⟩

/-- C11 fails as stated: on a transaction record for the account id `ACC1`
that no account record registered, and on one for the registered `ACC1` that
names the unregistered security `SEC9`, the callback returns no status at all:
it ends in a failed `assert`. -/
theorem unresolved_reference_counterexample :
    status_of (ofx_proc_transaction_cb collab.sample ofx_state.initial
      (OfxTransactionData.sample (-42))) = none ∧
    fault_of (ofx_proc_transaction_cb collab.sample ofx_state.initial
      (OfxTransactionData.sample (-42))) = some fault.assertion ∧
    status_of (ofx_proc_transaction_cb collab.sample ofx_state.with_account
      (OfxTransactionData.of_security (-42))) = none ∧
    fault_of (ofx_proc_transaction_cb collab.sample ofx_state.with_account
      (OfxTransactionData.of_security (-42))) = some fault.assertion := by
  decide

/-! ### The entry the transaction callback builds -/

theorem add_two_transactions (e : entry_t) (x u : transaction_t) (h : e.transactions = []) :
    ((e.add_transaction x).add_transaction u).transactions = [x, u] := by
  simp [entry_t.add_transaction, h]

theorem ofx_entry_transactions (cb : collab) (data : OfxTransactionData)
    (account dc : String) (amount : amount_t) :
    ∃ x, (ofx_transaction_entry cb data account dc amount).transactions =
        [x, transaction_t.new (some "<Unknown>")] ∧
      x.account = some account ∧ x.amount = amount ∧
      x.cost =
        (if data.unitprice_valid && data.unitprice != 1 then
          some (cb.parse_amount
            (cb.show_double (- data.units) ++ cb.show_double (- data.unitprice) ++ " " ++ dc))
         else none) := by
  unfold ofx_transaction_entry
  dsimp only
  refine ⟨_, add_two_transactions _ _ _ ?_, ?_, ?_, ?_⟩
  · split_ifs <;> rfl
  · split_ifs <;> rfl
  · split_ifs <;> rfl
  · split_ifs <;> rfl

set_option maxRecDepth 100000 in
/-- C12: when a unit price is present and not 1, the cost attached to the first
transaction is parsed from the text of the negated units followed directly by
the text of the negated unit price, a blank and the default commodity, not
from the negated unit price alone; when the unit price is absent or 1 no cost
is attached. For units -42.5 at unit price 2.5 on a `USD` account the cost
text is `42.5-2.5 USD`, where the negated price alone is `-2.5 USD`. -/
theorem ofx_cost_text_repeats_units :
    (∀ (cb : collab) (data : OfxTransactionData) (account dc : String) (amount : amount_t),
      data.unitprice_valid = true → data.unitprice ≠ 1 →
      first_cost (ofx_transaction_entry cb data account dc amount) =
        some (cb.parse_amount
          (cb.show_double (- data.units) ++ cb.show_double (- data.unitprice) ++ " " ++ dc))) ∧
    (∀ (cb : collab) (data : OfxTransactionData) (account dc : String) (amount : amount_t),
      (data.unitprice_valid = false ∨ data.unitprice = 1) →
      first_cost (ofx_transaction_entry cb data account dc amount) = none) ∧
    first_cost (ofx_transaction_entry collab.decimal
      (OfxTransactionData.priced (-85 / 2) (5 / 2)) "Checking" "USD"
      (split_amount "42.5 USD")) = some ⟨some "42.5-2.5", some "USD"⟩ ∧
    collab.decimal.parse_amount (collab.decimal.show_double (-(5 / 2)) ++ " " ++ "USD") =
      ⟨some "-2.5", some "USD"⟩ := by
  refine ⟨?_, ?_, by with_unfolding_all decide, by with_unfolding_all decide⟩
  · intro cb data account dc amount hv hp
    obtain ⟨x, hx, _, _, hc⟩ := ofx_entry_transactions cb data account dc amount
    simp only [first_cost, hx, hc, hv, Bool.true_and]
    simp [hp]
  · intro cb data account dc amount h
    obtain ⟨x, hx, _, _, hc⟩ := ofx_entry_transactions cb data account dc amount
    simp only [first_cost, hx, hc]
    rcases h with h | h
    · simp [h]
    · simp [h]

theorem ofx_submit_accepted (cb : collab) (st : ofx_state) (entry : entry_t)
    (hb : cb.balanced entry = true) :
    ofx_submit_entry cb st entry =
      (0, { st with curr_journal :=
        { st.curr_journal.find_account "<Unknown>" with
          entries := (st.curr_journal.find_account "<Unknown>").entries ++ [entry] } }) := by
  simp [ofx_submit_entry, journal_t.add_entry, hb]

/-- C13 (as the code has it): on a transaction record with valid account id
and valid nonzero unit count `u`, no unique id, and a unit price that is 1 (or
absent), for an account id bound to `account` with default commodity `C`, when
the journal accepts the entry built: the callback returns the success status 0
and the journal gains exactly one entry; that entry has exactly two
transactions, the first on `account` with no cost and with the amount parsed
from the text `stream << - data.units` writes, which is `-u` in general
notation rounded to six significant digits, followed by a blank and `C`; the
second on `<Unknown>` with the null amount. The three tables are as they
were. The unit count 0 is left out: the code writes `-0` for it, and a `double`
is a rational here, without a negative zero. -/
theorem ofx_plain_transaction_commits (cb : collab) (st : ofx_state)
    (data : OfxTransactionData) (account C : String)
    (hsd : cb.show_double = show_general)
    (hv : data.account_id_valid = true) (hu : data.units_valid = true)
    (_hu0 : data.units ≠ 0)
    (hs : data.unique_id_valid = false)
    (ha : st.ofx_accounts data.account_id = some account)
    (hc : st.ofx_account_currencies data.account_id = some C)
    (hp : data.unitprice_valid = false ∨ data.unitprice = 1)
    (hb : cb.balanced (ofx_transaction_entry cb data account C
      (cb.parse_amount (show_general (- data.units) ++ " " ++ C))) = true) :
    ∃ st1 e x, ofx_proc_transaction_cb cb st data = .ok (0, st1) ∧
      st1.curr_journal.entries = st.curr_journal.entries ++ [e] ∧
      e.transactions = [x, transaction_t.new (some "<Unknown>")] ∧
      x.account = some account ∧
      x.amount = cb.parse_amount (show_general (- data.units) ++ " " ++ C) ∧
      x.cost = none ∧
      (transaction_t.new (some "<Unknown>")).account = some "<Unknown>" ∧
      (transaction_t.new (some "<Unknown>")).amount = amount_t.null ∧
      st1.ofx_accounts = st.ofx_accounts ∧
      st1.ofx_account_currencies = st.ofx_account_currencies ∧
      st1.ofx_securities = st.ofx_securities := by
  obtain ⟨x, hx, hxa, hxm, hxc⟩ := ofx_entry_transactions cb data account C
    (cb.parse_amount (show_general (- data.units) ++ " " ++ C))
  have hcost : x.cost = none := by
    rw [hxc]
    rcases hp with h | h
    · simp [h]
    · simp [h]
  refine ⟨{ st with curr_journal :=
      { st.curr_journal.find_account "<Unknown>" with
        entries := (st.curr_journal.find_account "<Unknown>").entries ++
          [ofx_transaction_entry cb data account C
            (cb.parse_amount (show_general (- data.units) ++ " " ++ C))] } },
    _, x, ?_, ?_, hx, hxa, hxm, hcost, rfl, rfl, rfl, rfl, rfl⟩
  · simp only [ofx_proc_transaction_cb, hv, hu, ha, hc, ofx_transaction_amount, hs,
      Bool.not_true, Bool.or_self, Bool.false_eq_true, if_false, hsd]
    rw [ofx_submit_accepted cb st _ hb]
  · show (st.curr_journal.find_account "<Unknown>").entries ++ _ = _
    rw [find_account_entries]

set_option maxRecDepth 100000 in
theorem ofx_plain_transaction_commits_witness :
    ∃ st1 e x, ofx_proc_transaction_cb collab.iostream ofx_state.with_account
        (OfxTransactionData.priced (-85 / 2) 1) = .ok (0, st1) ∧
      st1.curr_journal.entries = ofx_state.with_account.curr_journal.entries ++ [e] ∧
      e.transactions = [x, transaction_t.new (some "<Unknown>")] ∧
      x.account = some "Checking" ∧ x.amount = ⟨some "42.5", some "USD"⟩ ∧ x.cost = none := by
  obtain ⟨st1, e, x, h1, h2, h3, h4, h5, h6, _⟩ :=
    ofx_plain_transaction_commits collab.iostream ofx_state.with_account
      (OfxTransactionData.priced (-85 / 2) 1) "Checking" "USD" rfl rfl rfl
      (by with_unfolding_all decide) rfl
      (by decide) (by decide) (Or.inr rfl) (by with_unfolding_all decide)
  refine ⟨st1, e, x, h1, h2, h3, h4, ?_, h6⟩
  rw [h5]
  with_unfolding_all decide

set_option maxRecDepth 100000 in
/-- C13 fails as stated: for the unit count 1234567.5 on the `USD` account the
text written for the negated units is `-1.23457e+06`, and the amount of the
committed entry is parsed from `-1.23457e+06 USD`; the unit count 1234568
gives the same text and the same amount, so the amount is not the negation of
the unit count. -/
theorem ofx_amount_rounds_counterexample :
    show_general (-(2469135 / 2)) = "-1.23457e+06" ∧
    first_amount_committed (ofx_proc_transaction_cb collab.iostream ofx_state.with_account
      (OfxTransactionData.priced (2469135 / 2) 1)) =
      some ⟨some "-1.23457e+06", some "USD"⟩ ∧
    first_amount_committed (ofx_proc_transaction_cb collab.iostream ofx_state.with_account
      (OfxTransactionData.priced 1234568 1)) =
      some ⟨some "-1.23457e+06", some "USD"⟩ ∧
    (2469135 / 2 : double) ≠ 1234568 := by
  refine ⟨?_, ?_, ?_, ?_⟩ <;> with_unfolding_all decide

/-! ### The cross-reference maps across calls of `ofx_parser_t::parse` -/

theorem ofx_parse_with_source (cb : collab) (st : ofx_state) (journal : journal_t)
    (master : Option String) (file : String) (records : List ofx_record) :
    ofx_parser_t.parse cb st journal master (some file) records =
      (match ofx_run cb (ofx_parse_bind st journal master) records with
       | .error f => .error f
       | .ok st2 => .ok (1, st2)) := rfl

theorem insert_keeps (m : string_map) (k v s w : String) (h : m s = some w) :
    m.insert k v s = some w := by
  unfold string_map.insert
  split_ifs with hs
  · subst hs
    simp [h]
  · exact h

theorem tables_kept_refl (a : ofx_state) : tables_kept a a :=
  ⟨fun _ _ h => h, fun _ _ h => h, fun _ _ h => h⟩

theorem tables_kept_trans (a b c : ofx_state) (h1 : tables_kept a b) (h2 : tables_kept b c) :
    tables_kept a c :=
  ⟨fun k v h => h2.1 k v (h1.1 k v h), fun k v h => h2.2.1 k v (h1.2.1 k v h),
   fun k v h => h2.2.2 k v (h1.2.2 k v h)⟩

theorem account_cb_tables (st : ofx_state) (data : OfxAccountData) :
    tables_kept st (ofx_proc_account_cb st data).2 := by
  unfold ofx_proc_account_cb
  by_cases hv : data.account_id_valid = true
  · by_cases hc : data.currency_valid = true
    · simp only [hv, hc, Bool.not_true, Bool.false_eq_true, if_false, if_true]
      cases hm : st.ofx_account_currencies data.account_id with
      | none =>
        exact ⟨fun k v h => insert_keeps _ _ _ _ _ h, fun k v h => insert_keeps _ _ _ _ _ h,
          fun _ _ h => h⟩
      | some w =>
        exact ⟨fun k v h => insert_keeps _ _ _ _ _ h, fun _ _ h => h, fun _ _ h => h⟩
    · simp only [hv, hc, Bool.not_true, Bool.false_eq_true, if_false]
      exact ⟨fun k v h => insert_keeps _ _ _ _ _ h, fun _ _ h => h, fun _ _ h => h⟩
  · simp only [hv, Bool.not_false, Bool.not_eq_true] at *
    simp only [hv, Bool.not_false, if_true]
    exact tables_kept_refl st

theorem securities_bind_tables (st : ofx_state) (reg : commodities_t) (k sym : String) :
    tables_kept st
      { st with commodities := reg,
                ofx_securities :=
                  match st.ofx_securities k with
                  | none => st.ofx_securities.insert k sym
                  | some _ => st.ofx_securities } := by
  refine ⟨fun _ _ h => h, fun _ _ h => h, fun s w h => ?_⟩
  dsimp only
  cases hm : st.ofx_securities k with
  | none => exact insert_keeps _ _ _ _ _ h
  | some w => exact h

theorem security_cb_tables (st : ofx_state) (data : OfxSecurityData) :
    tables_kept st (ofx_proc_security_cb st data).2 := by
  unfold ofx_proc_security_cb
  by_cases hv : data.unique_id_valid = true
  · by_cases ht : data.ticker_valid = true
    · simp only [hv, ht, Bool.not_true, Bool.false_eq_true, if_false, if_true]
      exact securities_bind_tables st _ _ _
    · by_cases hc : data.currency_valid = true
      · simp only [hv, ht, hc, Bool.not_true, Bool.false_eq_true, if_false, if_true]
        exact securities_bind_tables st _ _ _
      · simp only [hv, ht, hc, Bool.not_true, Bool.false_eq_true, if_false]
        exact tables_kept_refl st
  · simp only [Bool.not_eq_true] at hv
    simp only [hv, Bool.not_false, if_true]
    exact tables_kept_refl st

theorem submit_entry_tables (cb : collab) (st : ofx_state) (entry : entry_t) :
    tables_kept st (ofx_submit_entry cb st entry).2 := by
  unfold ofx_submit_entry
  dsimp only
  split_ifs <;> exact tables_kept_refl st

theorem transaction_cb_tables (cb : collab) (st : ofx_state) (data : OfxTransactionData)
    (r : Int × ofx_state) (h : ofx_proc_transaction_cb cb st data = .ok r) :
    tables_kept st r.2 := by
  unfold ofx_proc_transaction_cb at h
  split_ifs at h
  · cases h
    exact tables_kept_refl st
  · split at h
    · cases h
    · split at h
      · cases h
      · split at h
        · cases h
        · cases h
          exact submit_entry_tables cb st _

theorem dispatch_tables (cb : collab) (st st1 : ofx_state) (r : ofx_record)
    (h : ofx_dispatch cb st r = .ok st1) : tables_kept st st1 := by
  cases r with
  | statement => cases h; exact tables_kept_refl st
  | status => cases h; exact tables_kept_refl st
  | account data => cases h; exact account_cb_tables st data
  | security data => cases h; exact security_cb_tables st data
  | transaction data =>
    simp only [ofx_dispatch] at h
    cases hr : ofx_proc_transaction_cb cb st data with
    | error f => rw [hr] at h; cases h
    | ok x =>
      rw [hr] at h
      cases h
      exact transaction_cb_tables cb st data x hr

theorem run_tables (cb : collab) (records : List ofx_record) :
    ∀ st st2 : ofx_state, ofx_run cb st records = .ok st2 → tables_kept st st2 := by
  induction records with
  | nil =>
    intro st st2 h
    cases h
    exact tables_kept_refl st
  | cons r rs ih =>
    intro st st2 h
    simp only [ofx_run] at h
    cases hd : ofx_dispatch cb st r with
    | error f => rw [hd] at h; cases h
    | ok st1 =>
      rw [hd] at h
      exact tables_kept_trans _ _ _ (dispatch_tables cb st st1 r hd) (ih st1 st2 h)

/-- C14 (as the code has it): a call of `ofx_parser_t::parse` with a source name
runs the records on the globals in which the current journal and the master
account are bound to the arguments of the call (the master defaulting to the
master of the journal) and the three cross-reference maps are exactly those the
call found, not empty ones; and every binding the maps hold when the call
starts is still held when it returns. An id registered during an earlier call
stays resolvable in a later one. -/
theorem ofx_parse_keeps_tables (cb : collab) (st : ofx_state) (journal : journal_t)
    (master : Option String) (file : String) (records : List ofx_record) :
    ofx_parser_t.parse cb st journal master (some file) records =
      (match ofx_run cb (ofx_parse_bind st journal master) records with
       | .error f => .error f
       | .ok st2 => .ok (1, st2)) ∧
    (ofx_parse_bind st journal master).ofx_accounts = st.ofx_accounts ∧
    (ofx_parse_bind st journal master).ofx_account_currencies = st.ofx_account_currencies ∧
    (ofx_parse_bind st journal master).ofx_securities = st.ofx_securities ∧
    (ofx_parse_bind st journal master).curr_journal = journal ∧
    (ofx_parse_bind st journal master).master_account = master.getD journal.master ∧
    (ofx_parse_bind st journal none).master_account = journal.master ∧
    (∀ n st2, ofx_parser_t.parse cb st journal master (some file) records = .ok (n, st2) →
      tables_kept st st2) := by
  refine ⟨rfl, rfl, rfl, rfl, rfl, rfl, rfl, ?_⟩
  intro n st2 h
  rw [ofx_parse_with_source] at h
  cases hr : ofx_run cb (ofx_parse_bind st journal master) records with
  | error f => rw [hr] at h; cases h
  | ok st3 =>
    rw [hr] at h
    cases h
    exact tables_kept_trans st (ofx_parse_bind st journal master) _
      ⟨fun _ _ h => h, fun _ _ h => h, fun _ _ h => h⟩ (run_tables cb records _ _ hr)

/-- C14 fails as stated: after a first call on a file with one account record
for the id `ACC1`, a second call starts the records with that id bound in the
account map and in the default-commodity map, and a file that holds only a
transaction record on `ACC1` resolves it: the second call returns and its
journal has gained an entry posted to the account of the first call. -/
theorem ofx_tables_survive_counterexample :
    (ofx_parse_bind ofx_state.after_first_file journal_t.empty none).ofx_accounts "ACC1" =
      some "Checking" ∧
    (ofx_parse_bind ofx_state.after_first_file journal_t.empty none).ofx_account_currencies
      "ACC1" = some "USD" ∧
    ofx_outcome (ofx_parser_t.parse collab.sample ofx_state.after_first_file journal_t.empty
      none (some "second.ofx") ofx_second_file) = some (1, 1) ∧
    ofx_outcome (ofx_parser_t.parse collab.sample ofx_state.initial journal_t.empty
      none (some "second.ofx") ofx_second_file) = none := by
  decide

/-! ### Records that lack a required field -/

/-- C15: a record that lacks a required field is turned down with the status -1
and the globals (the journal, the commodity registry, the three
cross-reference maps, and the entries printed) are exactly as they were: an
account record whose account id is not valid; a security record whose unique
id is not valid, or that has neither a valid ticker nor a valid currency; a
transaction record whose account id is not valid or whose unit count is not
valid. The other fields of the record do not matter. -/
theorem missing_field_skips_record (cb : collab) (st : ofx_state) (a : OfxAccountData)
    (s : OfxSecurityData) (t : OfxTransactionData) :
    ofx_proc_account_cb st { a with account_id_valid := false } = (-1, st) ∧
    ofx_proc_security_cb st { s with unique_id_valid := false } = (-1, st) ∧
    ofx_proc_security_cb st { s with ticker_valid := false, currency_valid := false } =
      (-1, st) ∧
    ofx_proc_transaction_cb cb st { t with account_id_valid := false } = .ok (-1, st) ∧
    ofx_proc_transaction_cb cb st { t with units_valid := false } = .ok (-1, st) ∧
    (∀ rest, ofx_run cb st (ofx_record.account { a with account_id_valid := false } :: rest) =
      ofx_run cb st rest) ∧
    (∀ rest, ofx_run cb st (ofx_record.transaction { t with units_valid := false } :: rest) =
      ofx_run cb st rest) := by
  refine ⟨by simp [ofx_proc_account_cb], by simp [ofx_proc_security_cb], ?_,
    by simp [ofx_proc_transaction_cb], by simp [ofx_proc_transaction_cb], ?_, ?_⟩
  · by_cases hv : s.unique_id_valid = true <;> simp [ofx_proc_security_cb, hv]
  · intro rest
    simp [ofx_run, ofx_dispatch, ofx_proc_account_cb]
  · intro rest
    simp [ofx_run, ofx_dispatch, ofx_proc_transaction_cb]

/-! ### The escaper -/

theorem foldl_escape (l : List Char) :
    ∀ acc : String, l.foldl (fun out c => out ++ xml_escape_char c) acc =
      acc ++ escape_chars l := by
  induction l with
  | nil => intro acc; simp [escape_chars]
  | cons c cs ih =>
    intro acc
    rw [List.foldl_cons, ih, escape_chars, String.append_assoc]

theorem output_xml_string_eq (str : String) :
    output_xml_string str = escape_chars (c_str str.data) := by
  unfold output_xml_string
  rw [foldl_escape]
  simp

theorem escape_chars_append (a b : List Char) :
    escape_chars (a ++ b) = escape_chars a ++ escape_chars b := by
  induction a with
  | nil => simp [escape_chars]
  | cons c cs ih => simp [escape_chars, ih, String.append_assoc]

theorem c_str_of_no_nul (a : List Char) (h : Char.ofNat 0 ∉ a) : c_str a = a := by
  unfold c_str
  rw [List.takeWhile_eq_self_iff]
  intro c hc
  simp only [bne_iff_ne, ne_eq]
  intro he
  exact h (he ▸ hc)

theorem c_str_append (a b : List Char) (h : Char.ofNat 0 ∉ a) :
    c_str (a ++ b) = a ++ c_str b := by
  induction a with
  | nil => rfl
  | cons c cs ih =>
    have hc : c ≠ Char.ofNat 0 := fun he => h (he ▸ List.mem_cons_self _ _)
    have hcs : Char.ofNat 0 ∉ cs := fun hm => h (List.mem_cons_of_mem _ hm)
    have := ih hcs
    unfold c_str at this ⊢
    simp [List.takeWhile_cons, hc, this]

theorem escape_char_no_angle (c : Char) :
    '<' ∉ (xml_escape_char c).data ∧ '>' ∉ (xml_escape_char c).data := by
  unfold xml_escape_char
  split_ifs with h1 h2 h3
  · decide
  · decide
  · decide
  · simp [String.singleton, Ne.symm h1, Ne.symm h2]

theorem escape_chars_no_angle (l : List Char) :
    '<' ∉ (escape_chars l).data ∧ '>' ∉ (escape_chars l).data := by
  induction l with
  | nil => exact ⟨by decide, by decide⟩
  | cons c cs ih =>
    have hc := escape_char_no_angle c
    simp only [escape_chars, String.data_append, List.mem_append, not_or]
    exact ⟨⟨hc.1, ih.1⟩, ⟨hc.2, ih.2⟩⟩

/-- C18 (as the code has it): `output_xml_string` writes the escapes of the
characters that stand before the first NUL of the string, one after the other
in their order; `<` is written as `&lt;`, `&` as `&amp;`, `>` as `&rt;`, every
other character as itself. The output has no raw `<` and no raw `>`. For a
string without a NUL this is the per-character concatenation over the whole
string, and the output for `str ++ t` is the output for `str` followed by the
output for `t`. -/
theorem output_xml_string_escapes (str : String) :
    output_xml_string str = escape_chars (c_str str.data) ∧
    xml_escape_char '<' = "&lt;" ∧ xml_escape_char '&' = "&amp;" ∧
    xml_escape_char '>' = "&rt;" ∧
    (∀ c : Char, c ≠ '<' → c ≠ '>' → c ≠ '&' → xml_escape_char c = String.singleton c) ∧
    '<' ∉ (output_xml_string str).data ∧ '>' ∉ (output_xml_string str).data ∧
    (Char.ofNat 0 ∉ str.data → output_xml_string str = per_character_escape str) ∧
    (Char.ofNat 0 ∉ str.data →
      ∀ t : String, output_xml_string (str ++ t) = output_xml_string str ++ output_xml_string t) ∧
    output_xml_string "a<b>&c" = "a&lt;b&rt;&amp;c" := by
  refine ⟨output_xml_string_eq str, by decide, by decide, by decide, ?_, ?_, ?_, ?_, ?_,
    by decide⟩
  · intro c h1 h2 h3
    simp [xml_escape_char, h1, h2, h3]
  · rw [output_xml_string_eq]
    exact (escape_chars_no_angle _).1
  · rw [output_xml_string_eq]
    exact (escape_chars_no_angle _).2
  · intro h
    rw [output_xml_string_eq, c_str_of_no_nul _ h, per_character_escape]
  · intro h t
    rw [output_xml_string_eq, output_xml_string_eq, output_xml_string_eq, String.data_append,
      c_str_append _ _ h, escape_chars_append, c_str_of_no_nul _ h]

/-- C18 fails as stated: for the three-character string `a`, NUL, `b` the
output is `a`, where the per-character concatenation over the string has all
three characters; and the output for the string `a`, NUL followed by `<` is
`a`, not the output for the first followed by the output `&lt;` for the
second. -/
theorem output_stops_at_nul_counterexample :
    output_xml_string "a\x00b" = "a" ∧
    per_character_escape "a\x00b" = "a\x00b" ∧
    output_xml_string ("a\x00" ++ "<") = "a" ∧
    output_xml_string "a\x00" ++ output_xml_string "<" = "a&lt;" := by
  decide

/-! ### The account element of an exported transaction -/

theorem format_transactions_has (cb : collab) (reg : commodities_t) (show_totals : Bool)
    (x : transaction_t) (d : transaction_xdata_t) (post : List transaction_t)
    (pre : List transaction_t) :
    ∀ first : Bool, ∃ A B : String,
      (format_transactions cb reg show_totals first (pre ++ x.shown d :: post)).1 =
        A ++ format_transaction cb reg show_totals (x.shown d) { d with to_display := true }
          ++ B := by
  induction pre with
  | nil =>
    intro first
    exact ⟨if first then "    <en:transactions>\n" else "",
      (format_transactions cb reg show_totals false post).1,
      by simp [format_transactions, transaction_t.shown]⟩
  | cons p pre ih =>
    intro first
    rw [List.cons_append]
    unfold format_transactions
    cases hp : p.xdata with
    | none =>
      obtain ⟨A, B, h⟩ := ih first
      exact ⟨A, B, h⟩
    | some dp =>
      by_cases hd : dp.to_display = true
      · obtain ⟨A, B, h⟩ := ih false
        refine ⟨(if first then "    <en:transactions>\n" else "") ++
          format_transaction cb reg show_totals p dp ++ A, B, ?_⟩
        simp only [hd, if_true, h, String.append_assoc]
      · obtain ⟨A, B, h⟩ := ih first
        refine ⟨A, B, ?_⟩
        simp only [hd, Bool.false_eq_true, if_false, h]

theorem display_name_escaped (name : String) :
    output_xml_string (account_display_name name) =
      (if name = "<Total>" then "[TOTAL]"
       else if name = "<Unknown>" then "[UNKNOWN]"
       else output_xml_string name) := by
  have ht : output_xml_string "[TOTAL]" = "[TOTAL]" := by decide
  have hu : output_xml_string "[UNKNOWN]" = "[UNKNOWN]" := by decide
  unfold account_display_name
  split_ifs
  · exact ht
  · exact hu
  · rfl

/-- C19: the text `format_last_entry` writes for an entry contains, for each
transaction selected for display, the block `format_transaction` writes for it;
in that block a transaction whose account is set has, between what precedes
and what follows the account element in the block of the same transaction
without an account, one element `tr:account` whose text is `[TOTAL]` when the
full name is `<Total>`, `[UNKNOWN]` when it is `<Unknown>`, and for every other
full name the output of the escaper for the name. -/
theorem account_element_text (cb : collab) (reg : commodities_t) (show_totals : Bool)
    (x : transaction_t) (d : transaction_xdata_t) :
    (∃ head tail : String,
      format_transaction cb reg show_totals { x with account := none } d = head ++ tail ∧
      ∀ name : String,
        format_transaction cb reg show_totals { x with account := some name } d =
          head ++ "        <tr:account>" ++
            (if name = "<Total>" then "[TOTAL]"
             else if name = "<Unknown>" then "[UNKNOWN]"
             else output_xml_string name) ++ "</tr:account>\n" ++ tail) ∧
    (∀ (e : entry_t) (pre post : List transaction_t), ∃ A B : String,
      (format_last_entry cb reg show_totals
        { e with transactions := pre ++ x.shown d :: post }).1 =
        A ++ format_transaction cb reg show_totals (x.shown d) { d with to_display := true }
          ++ B) := by
  constructor
  · refine ⟨"      <transaction>\n" ++
      (if x._date ≠ 0 then
         "        <tr:date>" ++ cb.date_to_string x._date ++ "</tr:date>\n" else "") ++
      (if x._date_eff ≠ 0 then
         "        <tr:date_eff>" ++ cb.date_to_string x._date_eff ++ "</tr:date_eff>\n"
       else "") ++
      (if x.state = state_t.CLEARED then "        <tr:cleared/>\n"
       else if x.state = state_t.PENDING then "        <tr:pending/>\n" else "") ++
      (if x.flag_virtual then "        <tr:virtual/>\n" else "") ++
      (if x.flag_auto then "        <tr:generated/>\n" else ""),
      "        <tr:amount>\n" ++
      (if d.compound then xml_write_value reg d.value 10
       else xml_write_value reg (value_t.AMOUNT x.amount) 10) ++
      "        </tr:amount>\n" ++
      (match x.cost with
       | none => ""
       | some cost =>
         "        <tr:cost>\n" ++ xml_write_value reg (value_t.AMOUNT cost) 10 ++
         "        </tr:cost>\n") ++
      (if x.note ≠ "" then
         "        <tr:note>" ++ output_xml_string x.note ++ "</tr:note>\n" else "") ++
      (if show_totals then
         "        <total>\n" ++ xml_write_value reg d.total 10 ++ "        </total>\n" else "") ++
      "      </transaction>\n", ?_, ?_⟩
    · simp only [format_transaction, String.append_assoc, String.append_empty,
        String.empty_append]
    · intro name
      simp only [format_transaction, display_name_escaped, String.append_assoc]
  · intro e pre post
    obtain ⟨A, B, h⟩ := format_transactions_has cb reg show_totals x d post pre true
    unfold format_last_entry
    dsimp only
    rw [h]
    exact ⟨"  <entry>\n" ++
      "    <en:date>" ++ cb.date_to_string e._date ++ "</en:date>\n" ++
      (if e._date_eff ≠ 0 then
         "    <en:date_eff>" ++ cb.date_to_string e._date_eff ++ "</en:date_eff>\n"
       else "") ++
      (if e.code ≠ "" then
         "    <en:code>" ++ output_xml_string e.code ++ "</en:code>\n" else "") ++
      (if e.payee ≠ "" then
         "    <en:payee>" ++ output_xml_string e.payee ++ "</en:payee>\n" else "") ++ A,
      B ++
      (if !(format_transactions cb reg show_totals true (pre ++ x.shown d :: post)).2.1 then
         "    </en:transactions>\n" else "") ++ "  </entry>\n",
      by simp only [String.append_assoc]⟩

/-! ### Flag letters written and read back -/

theorem getline_loop_stored (l : List Char) :
    ∀ room, (getline_loop l room).stored = (line_of l).take room := by
  induction l with
  | nil => intro room; simp [getline_loop, line_of]
  | cons c cs ih =>
    intro room
    unfold getline_loop
    by_cases hc : c = '\n'
    · subst hc
      simp [line_of]
    · cases room with
      | zero => simp [hc]
      | succ r =>
        simp only [hc, if_false]
        rw [ih r]
        simp [line_of, List.takeWhile_cons, hc]

theorem getline_loop_long (l : List Char) :
    ∀ room, room < (line_of l).length → (getline_loop l room).fail = true := by
  induction l with
  | nil => intro room h; simp [line_of] at h
  | cons c cs ih =>
    intro room h
    unfold getline_loop
    by_cases hc : c = '\n'
    · subst hc
      simp [line_of] at h
    · cases room with
      | zero => simp [hc]
      | succ r =>
        simp only [hc, if_false]
        apply ih r
        simp [line_of, List.takeWhile_cons, hc] at h
        exact h

theorem getline_loop_short (l : List Char) :
    ∀ room, (line_of l).length ≤ room →
      (getline_loop l room).fail = false ∧
      ((getline_loop l room).eof = true → after_line l = []) ∧
      ((getline_loop l room).eof = false →
        (getline_loop l room).gcount ≠ 0 ∧
        l.drop (getline_loop l room).gcount = after_line l) := by
  induction l with
  | nil => intro room _; simp [getline_loop, after_line]
  | cons c cs ih =>
    intro room h
    unfold getline_loop
    by_cases hc : c = '\n'
    · subst hc
      simp [after_line]
    · cases room with
      | zero => simp [line_of, List.takeWhile_cons, hc] at h
      | succ r =>
        have h2 : (line_of cs).length ≤ r := by
          simp [line_of, List.takeWhile_cons, hc] at h
          exact h
        obtain ⟨i1, i2, i3⟩ := ih r h2
        simp only [hc, if_false]
        refine ⟨i1, fun he => ?_, fun he => ⟨by simp, ?_⟩⟩
        · have := i2 he
          simpa [after_line, List.dropWhile_cons, hc] using this
        · have := (i3 he).2
          simpa [after_line, List.dropWhile_cons, hc] using this

theorem getline_good (inp : istream) (hg : inp.good = true) :
    (inp.getline 79).1 = (first_line inp).take 78 := by
  have h : (inp.eofbit || inp.failbit) = false := by
    simpa [istream.good] using hg
  simp [istream.getline, h, getline_loop_stored, first_line, istream.unread]

theorem getline_bad (inp : istream) (hg : inp.good = false) :
    (inp.getline 79).1 = [] := by
  unfold istream.good at hg
  cases he : inp.eofbit <;> cases hf : inp.failbit <;> simp [he, hf] at hg <;>
    simp [istream.getline, he, hf]

theorem getline_twice (inp : istream) (hg : inp.good = true) :
    ((inp.getline 79).2.getline 79).1 =
      if (first_line inp).length ≤ 78 then (second_line inp).take 78 else [] := by
  have h : (inp.eofbit || inp.failbit) = false := by
    simpa [istream.good] using hg
  by_cases hl : (first_line inp).length ≤ 78
  · obtain ⟨i1, i2, i3⟩ := getline_loop_short (inp.chars.drop inp.pos) 78 hl
    rw [if_pos hl]
    cases he : (getline_loop (inp.chars.drop inp.pos) 78).eof with
    | true =>
      have hs : second_line inp = [] := by
        simp [second_line, istream.unread, i2 he, line_of]
      rw [hs]
      apply getline_bad
      simp [istream.getline, h, istream.good, he]
    | false =>
      obtain ⟨g1, g2⟩ := i3 he
      have hgood : (inp.getline 79).2.good = true := by
        simp [istream.getline, h, istream.good, he, i1, g1]
      rw [getline_good _ hgood]
      congr 1
      simp only [first_line, second_line, istream.unread]
      simp only [istream.getline, h, Bool.false_eq_true, if_false]
      rw [← g2, List.drop_drop]
  · rw [if_neg hl]
    apply getline_bad
    have := getline_loop_long (inp.chars.drop inp.pos) 78 (by
      simp only [first_line, istream.unread] at hl
      omega)
    simp [istream.getline, h, istream.good, this]

theorem starts_with_iff (b : List Char) :
    ∀ a : List Char, starts_with a b = true ↔ a.take b.length = b := by
  induction b with
  | nil => intro a; simp [starts_with]
  | cons c cs ih =>
    intro a
    cases a with
    | nil => simp [starts_with]
    | cons h hs => simp [starts_with, ih hs]

theorem take_c_str_iff (tok : List Char) (h : Char.ofNat 0 ∉ tok) :
    ∀ buf : List Char, (c_str buf).take tok.length = tok ↔ buf.take tok.length = tok := by
  induction tok with
  | nil => intro buf; simp
  | cons c cs ih =>
    intro buf
    have hc : c ≠ Char.ofNat 0 := fun he => h (he ▸ List.mem_cons_self _ _)
    have hcs : Char.ofNat 0 ∉ cs := fun hm => h (List.mem_cons_of_mem _ hm)
    cases buf with
    | nil => simp [c_str]
    | cons b bs =>
      by_cases hb : b = Char.ofNat 0
      · subst hb
        simp [c_str, Ne.symm hc]
      · have := ih hcs bs
        unfold c_str at this ⊢
        simp [List.takeWhile_cons, hb, this]

theorem strncmp_starts (tok : List Char) (h : Char.ofNat 0 ∉ tok) (buf : List Char) :
    strncmp_eq buf tok tok.length = starts_with buf tok := by
  rw [Bool.eq_iff_iff, starts_with_iff]
  unfold strncmp_eq
  rw [c_str_of_no_nul tok h, List.take_length, beq_iff_eq]
  exact take_c_str_iff tok h buf

theorem starts_with_take (a tok : List Char) (n : Nat) (h : tok.length ≤ n) :
    starts_with (a.take n) tok = starts_with a tok := by
  rw [Bool.eq_iff_iff, starts_with_iff, starts_with_iff, List.take_take, Nat.min_eq_left h]

theorem ofx_test_verdict (inp : istream) :
    (ofx_parser_t.test inp).1 =
      (strncmp_eq (inp.getline 79).1 "OFXHEADER".data 9 ||
        (strncmp_eq (inp.getline 79).1 "<?xml".data 5 &&
          (strncmp_eq ((inp.getline 79).2.getline 79).1 "<?OFX".data 5 ||
            strncmp_eq ((inp.getline 79).2.getline 79).1 "<?ofx".data 5))) := by
  cases hA : strncmp_eq (inp.getline 79).1 "OFXHEADER".data 9 <;>
  cases hB : strncmp_eq (inp.getline 79).1 "<?xml".data 5 <;>
  cases hC : strncmp_eq ((inp.getline 79).2.getline 79).1 "<?OFX".data 5 <;>
  cases hD : strncmp_eq ((inp.getline 79).2.getline 79).1 "<?ofx".data 5 <;>
  (unfold ofx_parser_t.test; simp only []; simp only [hA, hB, hC, hD]; rfl)

theorem xml_test_verdict (inp : istream) :
    (xml_parser_t.test inp).1 =
      (strncmp_eq (inp.getline 79).1 "<?xml".data 5 &&
        strstr_found ((inp.getline 79).2.getline 79).1 "<ledger".data) := by
  unfold xml_parser_t.test
  simp only []
  split_ifs with h1 h2 <;> simp_all

theorem token_match (buf : List Char) :
    strncmp_eq buf "OFXHEADER".data 9 = starts_with buf "OFXHEADER".data ∧
    strncmp_eq buf "<?xml".data 5 = starts_with buf "<?xml".data ∧
    strncmp_eq buf "<?OFX".data 5 = starts_with buf "<?OFX".data ∧
    strncmp_eq buf "<?ofx".data 5 = starts_with buf "<?ofx".data :=
  ⟨strncmp_starts "OFXHEADER".data (by decide) buf, strncmp_starts "<?xml".data (by decide) buf,
   strncmp_starts "<?OFX".data (by decide) buf, strncmp_starts "<?ofx".data (by decide) buf⟩

/-- C16 (as the code has it): `ofx_parser_t::test` returns true exactly when the
stream is good on entry and, from the read position, either the first line
begins with `OFXHEADER`, or the first line begins with `<?xml`, has at most 78
characters, and the second line begins with `<?OFX` or `<?ofx`. On a good
stream whose first line has at most 78 characters this is the rule of the
claim. -/
theorem ofx_test_accepts (inp : istream) :
    (ofx_parser_t.test inp).1 =
      (inp.good &&
        (starts_with (first_line inp) "OFXHEADER".data ||
          (starts_with (first_line inp) "<?xml".data &&
            decide ((first_line inp).length ≤ 78) &&
            (starts_with (second_line inp) "<?OFX".data ||
              starts_with (second_line inp) "<?ofx".data)))) ∧
    (inp.good = true → (first_line inp).length ≤ 78 →
      (ofx_parser_t.test inp).1 = ofx_test_claimed inp) := by
  have main : (ofx_parser_t.test inp).1 =
      (inp.good &&
        (starts_with (first_line inp) "OFXHEADER".data ||
          (starts_with (first_line inp) "<?xml".data &&
            decide ((first_line inp).length ≤ 78) &&
            (starts_with (second_line inp) "<?OFX".data ||
              starts_with (second_line inp) "<?ofx".data)))) := by
    rw [ofx_test_verdict]
    cases hg : inp.good with
    | false =>
      rw [getline_bad inp hg]
      simp [strncmp_eq, c_str]
    | true =>
      rw [getline_twice inp hg, getline_good inp hg]
      obtain ⟨t1, t2, _, _⟩ := token_match ((first_line inp).take 78)
      rw [t1, t2, starts_with_take _ _ 78 (by decide), starts_with_take _ _ 78 (by decide)]
      by_cases hl : (first_line inp).length ≤ 78
      · obtain ⟨_, _, t3, t4⟩ := token_match ((second_line inp).take 78)
        rw [if_pos hl, t3, t4, starts_with_take _ _ 78 (by decide),
          starts_with_take _ _ 78 (by decide)]
        simp [hl]
      · rw [if_neg hl]
        simp [hl, strncmp_eq, c_str]
  refine ⟨main, fun hg hl => ?_⟩
  rw [main, hg, ofx_test_claimed]
  simp [hl]

set_option maxRecDepth 100000 in
/-- C16 fails as stated: on a file whose first line is an XML prolog of 94
characters and whose second line begins with `<?OFX`, the rule of the claim
holds and `ofx_parser_t::test` returns false. -/
theorem long_prolog_counterexample :
    (first_line (istream.of long_prolog_ofx 0)).length = 94 ∧
    ofx_test_claimed (istream.of long_prolog_ofx 0) = true ∧
    (ofx_parser_t.test (istream.of long_prolog_ofx 0)).1 = false := by
  decide

/-- C17 (as the code has it): `xml_parser_t::test` returns true exactly when the
stream is good on entry and, from the read position, the first line begins with
`<?xml` and has at most 78 characters, and `<ledger` occurs among the first 78
characters of the second line before any NUL. On a good stream whose first two
lines have at most 78 characters each and whose second line has no NUL this is
the rule of the claim. -/
theorem xml_test_accepts (inp : istream) :
    (xml_parser_t.test inp).1 =
      (inp.good && starts_with (first_line inp) "<?xml".data &&
        decide ((first_line inp).length ≤ 78) &&
        occurs_in (c_str ((second_line inp).take 78)) "<ledger".data) ∧
    (inp.good = true → (first_line inp).length ≤ 78 → (second_line inp).length ≤ 78 →
      Char.ofNat 0 ∉ second_line inp →
      (xml_parser_t.test inp).1 = xml_test_claimed inp) := by
  have hn : c_str "<ledger".data = "<ledger".data := by decide
  have main : (xml_parser_t.test inp).1 =
      (inp.good && starts_with (first_line inp) "<?xml".data &&
        decide ((first_line inp).length ≤ 78) &&
        occurs_in (c_str ((second_line inp).take 78)) "<ledger".data) := by
    rw [xml_test_verdict]
    cases hg : inp.good with
    | false =>
      rw [getline_bad inp hg]
      simp [strncmp_eq, c_str]
    | true =>
      rw [getline_twice inp hg, getline_good inp hg]
      obtain ⟨_, t2, _, _⟩ := token_match ((first_line inp).take 78)
      rw [t2, starts_with_take _ _ 78 (by decide)]
      by_cases hl : (first_line inp).length ≤ 78
      · rw [if_pos hl]
        simp [hl, strstr_found, occurs_in, hn]
      · rw [if_neg hl]
        simp [hl, strstr_found, c_str, starts_with]
  refine ⟨main, fun hg hl hs h0 => ?_⟩
  rw [main, hg, xml_test_claimed, List.take_of_length_le hs, c_str_of_no_nul _ h0]
  simp [hl]

set_option maxRecDepth 100000 in
/-- C17 fails as stated: on a file whose first line is an XML prolog and on
whose second line `<ledger>` stands after 80 blanks, the rule of the claim
holds and `xml_parser_t::test` returns false; so it does when `<ledger>` is on
the second line of a file whose first line is `<?xml?>` followed by 80
blanks. -/
theorem late_ledger_counterexample :
    xml_test_claimed (istream.of indented_ledger 0) = true ∧
    (xml_parser_t.test (istream.of indented_ledger 0)).1 = false ∧
    xml_test_claimed (istream.of ("<?xml?>" ++ spaces 80 ++ "\n<ledger>\n") 0) = true ∧
    (xml_parser_t.test (istream.of ("<?xml?>" ++ spaces 80 ++ "\n<ledger>\n") 0)).1 = false := by
  decide

/-! ### Decoding the escaped text -/

theorem escape_char_data (c : Char) :
    (xml_escape_char c).data =
      if c = '<' then ['&', 'l', 't', ';']
      else if c = '>' then ['&', 'r', 't', ';']
      else if c = '&' then ['&', 'a', 'm', 'p', ';']
      else [c] := by
  unfold xml_escape_char
  split_ifs <;> rfl

theorem escape_char_shape (c : Char) :
    (c = '<' ∧ (xml_escape_char c).data = ['&', 'l', 't', ';']) ∨
    (c = '>' ∧ (xml_escape_char c).data = ['&', 'r', 't', ';']) ∨
    (c = '&' ∧ (xml_escape_char c).data = ['&', 'a', 'm', 'p', ';']) ∨
    (c ≠ '&' ∧ (xml_escape_char c).data = [c]) := by
  rw [escape_char_data]
  by_cases c1 : c = '<'
  · exact Or.inl ⟨c1, by simp [c1]⟩
  · by_cases c2 : c = '>'
    · exact Or.inr (Or.inl ⟨c2, by simp [c2]⟩)
    · by_cases c3 : c = '&'
      · exact Or.inr (Or.inr (Or.inl ⟨c3, by simp [c3]⟩))
      · exact Or.inr (Or.inr (Or.inr ⟨c3, by simp [c1, c2, c3]⟩))

theorem escape_head_inj (c d : Char) (X Y : List Char)
    (h : (xml_escape_char c).data ++ X = (xml_escape_char d).data ++ Y) :
    c = d ∧ X = Y := by
  rcases escape_char_shape c with ⟨hc, ec⟩ | ⟨hc, ec⟩ | ⟨hc, ec⟩ | ⟨hc, ec⟩ <;>
    rcases escape_char_shape d with ⟨hd, ed⟩ | ⟨hd, ed⟩ | ⟨hd, ed⟩ | ⟨hd, ed⟩ <;>
    rw [ec, ed] at h <;>
    simp only [List.cons_append, List.nil_append, List.cons.injEq] at h <;>
    first
      | exact ⟨hc.trans hd.symm, h.2.2.2.2⟩
      | exact ⟨hc.trans hd.symm, h.2.2.2.2.2⟩
      | exact ⟨h.1, h.2⟩
      | exact absurd h.1.symm hd
      | exact absurd h.1 hc
      | exact absurd h.2.1 (by decide)

theorem escape_chars_data_cons (c : Char) (cs : List Char) :
    (escape_chars (c :: cs)).data = (xml_escape_char c).data ++ (escape_chars cs).data := by
  simp [escape_chars]

theorem escape_char_nonempty (c : Char) : (xml_escape_char c).data ≠ [] := by
  rw [escape_char_data]
  split_ifs <;> simp

theorem escape_chars_injective (a : List Char) :
    ∀ b : List Char, escape_chars a = escape_chars b → a = b := by
  induction a with
  | nil =>
    intro b h
    cases b with
    | nil => rfl
    | cons d ds =>
      have h2 := congrArg String.data h
      rw [escape_chars_data_cons] at h2
      have := escape_char_nonempty d
      simp [escape_chars] at h2
      exact absurd h2.1 this
  | cons c cs ih =>
    intro b h
    cases b with
    | nil =>
      have h2 := congrArg String.data h
      rw [escape_chars_data_cons] at h2
      have := escape_char_nonempty c
      simp [escape_chars] at h2
      exact absurd h2.1 this
    | cons d ds =>
      have h2 := congrArg String.data h
      rw [escape_chars_data_cons, escape_chars_data_cons] at h2
      obtain ⟨hcd, hxy⟩ := escape_head_inj c d _ _ h2
      rw [hcd, ih ds (String.ext hxy)]

theorem c_str_nul_append (p q : List Char) :
    c_str (p ++ Char.ofNat 0 :: q) = c_str p := by
  induction p with
  | nil => simp [c_str]
  | cons c cs ih =>
    unfold c_str at ih ⊢
    by_cases hc : c = Char.ofNat 0
    · subst hc
      simp
    · simp [List.takeWhile_cons, hc, ih]

/-- C21: the outputs of `output_xml_string` for two strings are equal exactly
when the two strings agree in the characters before their first NUL; so on
strings that hold no NUL the function is injective, equal outputs come from
equal strings, and a string with an embedded NUL is written only up to its
first NUL: what follows the NUL changes nothing in the output. The strings `a`,
NUL, `b` and `a`, NUL, `c` have the same output `a`. -/
theorem escaped_output_determines_text (a b : String) :
    (output_xml_string a = output_xml_string b ↔ c_str a.data = c_str b.data) ∧
    (Char.ofNat 0 ∉ a.data → Char.ofNat 0 ∉ b.data →
      output_xml_string a = output_xml_string b → a = b) ∧
    output_xml_string a = output_xml_string (String.mk (c_str a.data)) ∧
    output_xml_string (a ++ String.singleton (Char.ofNat 0) ++ b) = output_xml_string a ∧
    output_xml_string "a\x00b" = "a" ∧ output_xml_string "a\x00c" = "a" ∧
    output_xml_string "&lt;" = "&amp;lt;" ∧ output_xml_string "<" = "&lt;" := by
  have hiff : output_xml_string a = output_xml_string b ↔ c_str a.data = c_str b.data := by
    rw [output_xml_string_eq, output_xml_string_eq]
    exact ⟨escape_chars_injective _ _, fun h => by rw [h]⟩
  refine ⟨hiff, ?_, ?_, ?_, by decide, by decide, by decide, by decide⟩
  · intro ha hb h
    have h2 := hiff.1 h
    rw [c_str_of_no_nul _ ha, c_str_of_no_nul _ hb] at h2
    exact String.ext h2
  · rw [output_xml_string_eq, output_xml_string_eq]
    congr 1
    exact (c_str_of_no_nul _ (fun hm => by
      have := List.mem_takeWhile_imp hm
      simp at this)).symm
  · rw [output_xml_string_eq, output_xml_string_eq]
    congr 1
    simp only [String.data_append, String.singleton, List.append_assoc, List.singleton_append]
    exact c_str_nul_append _ _



/-! ### The read loop of `xml_parser_t::parse` -/

theorem lines_fit_step (room : Nat) (l : List Char) :
    ∀ cur, lines_fit room l cur = true →
      cur + (line_of l).length ≤ room ∧ lines_fit room (after_line l) 0 = true := by
  induction l with
  | nil =>
    intro cur h
    simp only [lines_fit, decide_eq_true_eq] at h
    simp [line_of, after_line, lines_fit, h]
  | cons c cs ih =>
    intro cur h
    unfold lines_fit at h
    by_cases hc : c = '\n'
    · subst hc
      simp only [if_true, Bool.and_eq_true, decide_eq_true_eq] at h
      simp [line_of, after_line, h]
    · simp only [hc, if_false] at h
      obtain ⟨h1, h2⟩ := ih (cur + 1) h
      refine ⟨?_, ?_⟩
      · simp [line_of, List.takeWhile_cons, hc] at h1 ⊢
        omega
      · simpa [after_line, List.dropWhile_cons, hc] using h2

theorem getline_loop_long_eof (l : List Char) :
    ∀ room, room < (line_of l).length → (getline_loop l room).eof = false := by
  induction l with
  | nil => intro room h; simp [line_of] at h
  | cons c cs ih =>
    intro room h
    unfold getline_loop
    by_cases hc : c = '\n'
    · subst hc
      simp [line_of] at h
    · cases room with
      | zero => simp [hc]
      | succ r =>
        simp only [hc, if_false]
        apply ih r
        simp [line_of, List.takeWhile_cons, hc] at h
        exact h

theorem getline_loop_nil_eof (l : List Char) (room : Nat)
    (h : (getline_loop l room).eof = false) : l ≠ [] := by
  intro hl
  subst hl
  simp [getline_loop] at h

theorem getline_short_line (inp : istream) (n : Nat) (he : inp.eofbit = false)
    (hf : inp.failbit = false) (hl : (first_line inp).length ≤ n - 1) :
    (inp.getline n).2.eofbit = true ∨
      ((inp.getline n).2.eofbit = false ∧ (inp.getline n).2.failbit = false ∧
        (inp.getline n).2.unread = after_line inp.unread ∧
        (inp.getline n).2.unread.length < inp.unread.length) := by
  obtain ⟨i1, _, i3⟩ := getline_loop_short (inp.chars.drop inp.pos) (n - 1) hl
  cases hE : (getline_loop (inp.chars.drop inp.pos) (n - 1)).eof with
  | true =>
    left
    simp [istream.getline, he, hf, hE]
  | false =>
    right
    obtain ⟨g1, g2⟩ := i3 hE
    have hne := getline_loop_nil_eof _ _ hE
    have hu : (inp.getline n).2.unread = after_line inp.unread := by
      simp only [istream.getline, he, hf, Bool.or_self, Bool.false_eq_true, if_false,
        istream.unread]
      rw [← g2, List.drop_drop, Nat.add_comm]
    refine ⟨by simp [istream.getline, he, hf, hE], by simp [istream.getline, he, hf, i1, g1],
      hu, ?_⟩
    rw [hu]
    simp only [istream.unread]
    rw [← g2, List.length_drop]
    have : 0 < (inp.chars.drop inp.pos).length := List.length_pos.mpr hne
    omega

theorem getline_long_line (inp : istream) (n : Nat) (he : inp.eofbit = false)
    (hf : inp.failbit = false) (hl : n - 1 < (first_line inp).length) :
    (inp.getline n).2.eofbit = false ∧ (inp.getline n).2.failbit = true := by
  have h1 := getline_loop_long (inp.chars.drop inp.pos) (n - 1) hl
  have h2 := getline_loop_long_eof (inp.chars.drop inp.pos) (n - 1) hl
  simp [istream.getline, he, hf, h1, h2]

theorem getline_failed (inp : istream) (n : Nat) (he : inp.eofbit = false)
    (hf : inp.failbit = true) :
    (inp.getline n).2.eofbit = false ∧ (inp.getline n).2.failbit = true := by
  simp [istream.getline, he, hf]

theorem xml_rounds_eof (D : decoder) (fuel : Nat) (inp : istream) (fed : List (List Char))
    (he : inp.eofbit = true) : xml_rounds D fuel inp fed = some ([], true) := by
  cases fuel <;> simp [xml_rounds, he]

theorem xml_rounds_ends (D : decoder) :
    ∀ (n : Nat) (inp : istream) (fed : List (List Char)), inp.failbit = false →
      inp.unread.length ≤ n → lines_fit (BUFSIZ - 2) inp.unread 0 = true →
      ∃ r, xml_rounds D (n + 1) inp fed = some r := by
  intro n
  induction n with
  | zero =>
    intro inp fed hf hn hfit
    cases he : inp.eofbit with
    | true => exact ⟨_, xml_rounds_eof D _ inp fed he⟩
    | false =>
      have hl := (lines_fit_step _ _ 0 hfit).1
      rw [xml_rounds]
      simp only [he, Bool.false_eq_true, if_false]
      by_cases hd : (D fed (c_str (inp.getline (BUFSIZ - 1)).1 ++ ['\n'])
          (inp.getline (BUFSIZ - 1)).2.eofbit).2 = true
      · simp only [hd, Bool.not_true, Bool.false_eq_true, if_false]
        rcases getline_short_line inp (BUFSIZ - 1) he hf (by simpa [first_line] using hl)
          with h1 | ⟨_, _, _, h4⟩
        · rw [xml_rounds_eof D _ _ _ h1]
          exact ⟨_, rfl⟩
        · omega
      · simp [hd]
  | succ m ih =>
    intro inp fed hf hn hfit
    cases he : inp.eofbit with
    | true => exact ⟨_, xml_rounds_eof D _ inp fed he⟩
    | false =>
      obtain ⟨hl, hfit2⟩ := lines_fit_step _ _ 0 hfit
      rw [xml_rounds]
      simp only [he, Bool.false_eq_true, if_false]
      by_cases hd : (D fed (c_str (inp.getline (BUFSIZ - 1)).1 ++ ['\n'])
          (inp.getline (BUFSIZ - 1)).2.eofbit).2 = true
      · simp only [hd, Bool.not_true, Bool.false_eq_true, if_false]
        rcases getline_short_line inp (BUFSIZ - 1) he hf (by simpa [first_line] using hl)
          with h1 | ⟨_, h2, h3, h4⟩
        · rw [xml_rounds_eof D _ _ _ h1]
          exact ⟨_, rfl⟩
        · obtain ⟨r, hr⟩ := ih (inp.getline (BUFSIZ - 1)).2
            (fed ++ [c_str (inp.getline (BUFSIZ - 1)).1 ++ ['\n']]) h2 (by omega)
            (by rw [h3]; exact hfit2)
          rw [hr]
          exact ⟨_, rfl⟩
      · simp [hd]

theorem xml_parse_loop_eof (cb : collab) (D : decoder) (fuel : Nat) (inp : istream)
    (fed : List (List Char)) (ps : xml_parse_state) (he : inp.eofbit = true) :
    xml_parse_loop cb D fuel inp fed ps = some (.ok ps) := by
  cases fuel <;> simp [xml_parse_loop, he]

theorem xml_parse_loop_succ (cb : collab) (D : decoder) (fuel : Nat) (inp : istream)
    (fed : List (List Char)) (ps : xml_parse_state) (he : inp.eofbit = false) :
    xml_parse_loop cb D (fuel + 1) inp fed ps =
      match xml_parse_line cb ps (D fed (c_str (inp.getline (BUFSIZ - 1)).1 ++ ['\n'])
          (inp.getline (BUFSIZ - 1)).2.eofbit).1 with
      | .error f => some (.error f)
      | .ok ps1 =>
        if !(D fed (c_str (inp.getline (BUFSIZ - 1)).1 ++ ['\n'])
            (inp.getline (BUFSIZ - 1)).2.eofbit).2 then some (.error fault.exception)
        else xml_parse_loop cb D fuel (inp.getline (BUFSIZ - 1)).2
          (fed ++ [c_str (inp.getline (BUFSIZ - 1)).1 ++ ['\n']]) ps1 := by
  rw [xml_parse_loop]
  simp only [he, Bool.false_eq_true, if_false]

theorem xml_rounds_succ (D : decoder) (fuel : Nat) (inp : istream)
    (fed : List (List Char)) (he : inp.eofbit = false) :
    xml_rounds D (fuel + 1) inp fed =
      if !(D fed (c_str (inp.getline (BUFSIZ - 1)).1 ++ ['\n'])
          (inp.getline (BUFSIZ - 1)).2.eofbit).2 then
        some ([(D fed (c_str (inp.getline (BUFSIZ - 1)).1 ++ ['\n'])
          (inp.getline (BUFSIZ - 1)).2.eofbit).1], false)
      else
        match xml_rounds D fuel (inp.getline (BUFSIZ - 1)).2
            (fed ++ [c_str (inp.getline (BUFSIZ - 1)).1 ++ ['\n']]) with
        | none => none
        | some x => some ((D fed (c_str (inp.getline (BUFSIZ - 1)).1 ++ ['\n'])
            (inp.getline (BUFSIZ - 1)).2.eofbit).1 :: x.1, x.2) := by
  rw [xml_rounds]
  simp only [he, Bool.false_eq_true, if_false]

theorem xml_parse_loop_mono (cb : collab) (D : decoder) :
    ∀ (fuel : Nat) (inp : istream) (fed : List (List Char)) (ps : xml_parse_state)
      (r : Except fault xml_parse_state),
      xml_parse_loop cb D fuel inp fed ps = some r →
      xml_parse_loop cb D (fuel + 1) inp fed ps = some r := by
  intro fuel
  induction fuel with
  | zero =>
    intro inp fed ps r h
    cases he : inp.eofbit with
    | true =>
      rw [xml_parse_loop_eof cb D _ inp fed ps he] at h ⊢
      exact h
    | false => simp [xml_parse_loop, he] at h
  | succ f ih =>
    intro inp fed ps r h
    cases he : inp.eofbit with
    | true =>
      rw [xml_parse_loop_eof cb D _ inp fed ps he] at h ⊢
      exact h
    | false =>
      rw [xml_parse_loop_succ cb D _ inp fed ps he] at h ⊢
      cases hl : xml_parse_line cb ps (D fed (c_str (inp.getline (BUFSIZ - 1)).1 ++ ['\n'])
          (inp.getline (BUFSIZ - 1)).2.eofbit).1 with
      | error e =>
        rw [hl] at h
        exact h
      | ok ps1 =>
        rw [hl] at h
        dsimp only at h ⊢
        split_ifs at h ⊢
        · exact h
        · exact ih _ _ _ _ h

theorem xml_parse_loop_le (cb : collab) (D : decoder) (fuel : Nat) (inp : istream)
    (fed : List (List Char)) (ps : xml_parse_state) (r : Except fault xml_parse_state)
    (h : xml_parse_loop cb D fuel inp fed ps = some r) :
    ∀ more, fuel ≤ more → xml_parse_loop cb D more inp fed ps = some r := by
  intro more hle
  induction more, hle using Nat.le_induction with
  | base => exact h
  | succ m _ ih => exact xml_parse_loop_mono cb D m inp fed ps r ih

theorem xml_parse_loop_ok (cb : collab) (D : decoder) (j0 : journal_t) :
    ∀ (fuel : Nat) (inp : istream) (fed : List (List Char)) (ps : xml_parse_state)
      (sh sh1 : xml_shape) (n : Nat) (lines : List (List xml_event)),
      xml_rounds D fuel inp fed = some (lines, true) → has_shape ps.st sh →
      shape_lines sh lines = some sh1 → committed_since j0 ps.st n →
      ∃ ps1, xml_parse_loop cb D fuel inp fed ps = some (.ok ps1) ∧
        committed_since j0 ps1.st (n + event_count lines) := by
  intro fuel
  induction fuel with
  | zero =>
    intro inp fed ps sh sh1 n lines hr hs hsl hc
    cases he : inp.eofbit with
    | true =>
      rw [xml_rounds_eof D _ inp fed he] at hr
      cases hr
      exact ⟨ps, xml_parse_loop_eof cb D _ inp fed ps he, by simpa [event_count] using hc⟩
    | false => simp [xml_rounds, he] at hr
  | succ f ih =>
    intro inp fed ps sh sh1 n lines hr hs hsl hc
    cases he : inp.eofbit with
    | true =>
      rw [xml_rounds_eof D _ inp fed he] at hr
      cases hr
      exact ⟨ps, xml_parse_loop_eof cb D _ inp fed ps he, by simpa [event_count] using hc⟩
    | false =>
      rw [xml_rounds_succ D _ inp fed he] at hr
      rw [xml_parse_loop_succ cb D _ inp fed ps he]
      split_ifs at hr with hd
      · cases hr
      · cases hx : xml_rounds D f (inp.getline (BUFSIZ - 1)).2
            (fed ++ [c_str (inp.getline (BUFSIZ - 1)).1 ++ ['\n']]) with
        | none => rw [hx] at hr; cases hr
        | some x =>
          rw [hx] at hr
          obtain ⟨ls, ok⟩ := x
          simp only [Option.some.injEq, Prod.mk.injEq] at hr
          obtain ⟨hl, hok⟩ := hr
          subst hl
          subst hok
          unfold shape_lines at hsl
          cases hl : shape_run sh (D fed (c_str (inp.getline (BUFSIZ - 1)).1 ++ ['\n'])
              (inp.getline (BUFSIZ - 1)).2.eofbit).1 with
          | none => rw [hl] at hsl; cases hsl
          | some sh2 =>
            rw [hl] at hsl
            obtain ⟨ps2, h2, hs2, hc2⟩ := xml_parse_line_ok cb ps _ sh sh2 j0 n hs hl hc
            obtain ⟨ps1, h1, hc1⟩ := ih _ _ ps2 sh2 sh1 _ ls hx hs2 hsl hc2
            refine ⟨ps1, ?_, ?_⟩
            · rw [h2]
              simp only [hd, if_false]
              exact h1
            · simpa [event_count, Nat.add_assoc] using hc1

theorem xml_parse_line_faults (cb : collab) (ps : xml_parse_state) (l : List xml_event)
    (sh : xml_shape) (hs : has_shape ps.st sh) (h : shape_run sh l = none) :
    ∃ f, xml_parse_line cb ps l = .error f := by
  obtain ⟨f, hf⟩ := xml_run_faults cb l ps.st sh hs h
  exact ⟨f, by simp [xml_parse_line, hf]⟩

theorem xml_parse_loop_faults (cb : collab) (D : decoder) :
    ∀ (fuel : Nat) (inp : istream) (fed : List (List Char)) (ps : xml_parse_state)
      (sh : xml_shape) (lines : List (List xml_event)) (ok : Bool),
      xml_rounds D fuel inp fed = some (lines, ok) → has_shape ps.st sh →
      (shape_lines sh lines = none ∨ ok = false) →
      ∃ e, xml_parse_loop cb D fuel inp fed ps = some (.error e) := by
  intro fuel
  induction fuel with
  | zero =>
    intro inp fed ps sh lines ok hr hs hbad
    cases he : inp.eofbit with
    | true =>
      rw [xml_rounds_eof D _ inp fed he] at hr
      cases hr
      rcases hbad with h | h
      · simp [shape_lines] at h
      · cases h
    | false => simp [xml_rounds, he] at hr
  | succ f ih =>
    intro inp fed ps sh lines ok hr hs hbad
    cases he : inp.eofbit with
    | true =>
      rw [xml_rounds_eof D _ inp fed he] at hr
      cases hr
      rcases hbad with h | h
      · simp [shape_lines] at h
      · cases h
    | false =>
      rw [xml_rounds_succ D _ inp fed he] at hr
      rw [xml_parse_loop_succ cb D _ inp fed ps he]
      cases hl : shape_run sh (D fed (c_str (inp.getline (BUFSIZ - 1)).1 ++ ['\n'])
          (inp.getline (BUFSIZ - 1)).2.eofbit).1 with
      | none =>
        obtain ⟨e, he2⟩ := xml_parse_line_faults cb ps _ sh hs hl
        rw [he2]
        exact ⟨e, rfl⟩
      | some sh2 =>
        obtain ⟨ps2, h2, hs2⟩ := xml_parse_line_sim cb ps _ sh sh2 hs hl
        rw [h2]
        split_ifs at hr with hd
        · simp only [hd, if_true]
          exact ⟨_, rfl⟩
        · simp only [hd, if_false]
          cases hx : xml_rounds D f (inp.getline (BUFSIZ - 1)).2
              (fed ++ [c_str (inp.getline (BUFSIZ - 1)).1 ++ ['\n']]) with
          | none => rw [hx] at hr; cases hr
          | some x =>
            rw [hx] at hr
            obtain ⟨ls, ok2⟩ := x
            simp only [Option.some.injEq, Prod.mk.injEq] at hr
            obtain ⟨hl2, hok⟩ := hr
            subst hl2
            subst hok
            apply ih _ _ ps2 sh2 ls ok2 hx hs2
            rcases hbad with h | h
            · left
              unfold shape_lines at h
              rw [hl] at h
              exact h
            · right
              exact h

theorem xml_parse_loop_stuck (cb : collab) (D : decoder) :
    ∀ (fuel : Nat) (inp : istream) (fed : List (List Char)) (ps ps1 : xml_parse_state),
      inp.eofbit = false → inp.failbit = true →
      xml_parse_loop cb D fuel inp fed ps ≠ some (.ok ps1) := by
  intro fuel
  induction fuel with
  | zero =>
    intro inp fed ps ps1 he _
    simp [xml_parse_loop, he]
  | succ f ih =>
    intro inp fed ps ps1 he hf
    rw [xml_parse_loop_succ cb D _ inp fed ps he]
    obtain ⟨g1, g2⟩ := getline_failed inp (BUFSIZ - 1) he hf
    cases hl : xml_parse_line cb ps (D fed (c_str (inp.getline (BUFSIZ - 1)).1 ++ ['\n'])
        (inp.getline (BUFSIZ - 1)).2.eofbit).1 with
    | error e => simp
    | ok ps2 =>
      dsimp only
      split_ifs
      · simp
      · exact ih _ _ ps2 ps1 g1 g2

theorem xml_parse_loop_long_line (cb : collab) (D : decoder) (inp : istream)
    (he : inp.eofbit = false) (hf : inp.failbit = false)
    (hl : BUFSIZ - 2 < (first_line inp).length) :
    ∀ (fuel : Nat) (fed : List (List Char)) (ps ps1 : xml_parse_state),
      xml_parse_loop cb D fuel inp fed ps ≠ some (.ok ps1) := by
  intro fuel fed ps ps1
  cases fuel with
  | zero => simp [xml_parse_loop, he]
  | succ f =>
    rw [xml_parse_loop_succ cb D _ inp fed ps he]
    obtain ⟨g1, g2⟩ := getline_long_line inp (BUFSIZ - 1) he hf hl
    cases hp : xml_parse_line cb ps (D fed (c_str (inp.getline (BUFSIZ - 1)).1 ++ ['\n'])
        (inp.getline (BUFSIZ - 1)).2.eofbit).1 with
    | error e => simp
    | ok ps2 =>
      dsimp only
      split_ifs
      · simp
      · exact xml_parse_loop_stuck cb D f _ _ ps2 ps1 g1 g2

theorem xml_parse_long_line (cb : collab) (D : decoder) (st : xml_state) (inp : istream)
    (journal : journal_t) (he : inp.eofbit = false) (hf : inp.failbit = false)
    (hl : BUFSIZ - 2 < (first_line inp).length) (fuel : Nat) :
    returned (xml_parser_t.parse cb D fuel st inp journal) = none := by
  unfold xml_parser_t.parse
  cases hr : xml_parse_loop cb D fuel inp [] ⟨xml_parse_init st journal, []⟩ with
  | none => rfl
  | some r =>
    cases r with
    | error e => rfl
    | ok ps1 => exact absurd hr (xml_parse_loop_long_line cb D inp he hf hl fuel [] _ ps1)

theorem line_of_blanks (n : Nat) (rest : List Char) :
    line_of (List.replicate n ' ' ++ '\n' :: rest) = List.replicate n ' ' := by
  induction n with
  | zero => simp [line_of]
  | succ k ih =>
    simp only [line_of] at ih ⊢
    simp [List.replicate_succ, List.takeWhile_cons, ih]

theorem first_line_blanks (n : Nat) :
    (first_line (istream.of (spaces n ++ "\n") 0)).length = n := by
  have : (spaces n ++ "\n").data = List.replicate n ' ' ++ '\n' :: [] := by
    simp [spaces]
  simp only [first_line, istream.unread, istream.of, List.drop_zero, this, line_of_blanks,
    List.length_replicate]

theorem xml_parse_line_nil (cb : collab) (ps : xml_parse_state) :
    ∃ ps1, xml_parse_line cb ps [] = .ok ps1 := by
  unfold xml_parse_line
  simp only [xml_run]
  split_ifs
  · exact ⟨_, rfl⟩
  · exact ⟨_, rfl⟩

theorem xml_parse_loop_silent (cb : collab) :
    ∀ (fuel : Nat) (inp : istream) (fed : List (List Char)) (ps : xml_parse_state)
      (e : fault), xml_parse_loop cb decoder.silent fuel inp fed ps ≠ some (.error e) := by
  intro fuel
  induction fuel with
  | zero =>
    intro inp fed ps e
    cases he : inp.eofbit <;> simp [xml_parse_loop, he]
  | succ f ih =>
    intro inp fed ps e
    cases he : inp.eofbit with
    | true => simp [xml_parse_loop, he]
    | false =>
      rw [xml_parse_loop_succ cb decoder.silent _ inp fed ps he]
      obtain ⟨ps1, h1⟩ := xml_parse_line_nil cb ps
      simp only [decoder.silent, h1, Bool.not_true, Bool.false_eq_true, if_false]
      exact ih _ _ ps1 e

theorem xml_parse_silent_no_fault (cb : collab) (st : xml_state) (inp : istream)
    (journal : journal_t) (fuel : Nat) :
    fault_ended (xml_parser_t.parse cb decoder.silent fuel st inp journal) = none := by
  unfold xml_parser_t.parse
  cases hr : xml_parse_loop cb decoder.silent fuel inp [] ⟨xml_parse_init st journal, []⟩ with
  | none => rfl
  | some r =>
    cases r with
    | error e => exact absurd hr (xml_parse_loop_silent cb fuel inp [] _ e)
    | ok ps1 => rfl

/-- On an input whose rounds the decoder gets through only with a failure, or
whose events trip a handler precondition, `xml_parser_t::parse` does not
return: it ends in the first failing `assert` or null pointer, or in the
`parse_error` thrown for the decoder. -/
theorem xml_parse_faults_when_unsafe (cb : collab) (D : decoder) (st : xml_state)
    (inp : istream) (journal : journal_t) (lines : List (List xml_event)) (ok : Bool)
    (hr : xml_transcript D inp = some (lines, ok))
    (h : handlers_safe lines = false ∨ ok = false) :
    ∃ f, xml_parser_t.parse cb D (inp.unread.length + 1) st inp journal = some (.error f) := by
  have hbad : shape_lines xml_shape.initial lines = none ∨ ok = false := by
    rcases h with h | h
    · exact Or.inl (isSome_false_elim _ h)
    · exact Or.inr h
  obtain ⟨f, hf⟩ := xml_parse_loop_faults cb D _ inp [] ⟨xml_parse_init st journal, []⟩
    xml_shape.initial lines ok hr (xml_parse_init_shape st journal) hbad
  exact ⟨f, by simp [xml_parser_t.parse, hf]⟩

/-- C3 (as the code has it): on a stream without failbit whose lines, from the
read position, have at most `BUFSIZ - 2` characters each, and on which the
decoder reports no failure and no event trips a handler precondition, the read
loop ends within one more round than the stream has unread characters and
`xml_parser_t::parse` returns, with any larger bound on the rounds alike; the
value returned is the number of entries the call appended to the journal, as
an `unsigned int` (modulo 2^32; there are at most as many as events), whatever
count, text and flags an earlier call left in the statics. -/
theorem xml_parse_returns_committed_count (cb : collab) (D : decoder) (st : xml_state)
    (inp : istream) (journal : journal_t)
    (hfail : inp.failbit = false)
    (hfit : lines_fit (BUFSIZ - 2) inp.unread 0 = true)
    (hgood : ∀ lines ok, xml_transcript D inp = some (lines, ok) →
      ok = true ∧ handlers_safe lines = true) :
    ∃ lines ps added, xml_transcript D inp = some (lines, true) ∧
      (∀ fuel, inp.unread.length + 1 ≤ fuel →
        xml_parser_t.parse cb D fuel st inp journal =
          some (.ok (added.length % 4294967296, ps))) ∧
      ps.st.curr_journal.entries = journal.entries ++ added ∧
      added.length ≤ event_count lines := by
  obtain ⟨r, hr⟩ := xml_rounds_ends D inp.unread.length inp [] hfail (Nat.le_refl _) hfit
  obtain ⟨lines, ok⟩ := r
  obtain ⟨hok, hsafe⟩ := hgood lines ok hr
  subst hok
  obtain ⟨sh1, hsh⟩ := isSome_true_elim _ hsafe
  have hs0 := xml_parse_init_shape st journal
  have hc0 : committed_since journal (xml_parse_init st journal) 0 :=
    ⟨[], by simp [xml_parse_init], rfl, Nat.le_refl _⟩
  obtain ⟨ps, h1, added, a1, a2, a3⟩ :=
    xml_parse_loop_ok cb D journal _ inp [] ⟨xml_parse_init st journal, []⟩ xml_shape.initial
      sh1 0 lines hr hs0 hsh hc0
  refine ⟨lines, ps, added, hr, ?_, a1, by simpa using a3⟩
  intro fuel hle
  have h2 := xml_parse_loop_le cb D _ inp [] _ _ h1 fuel hle
  unfold xml_parser_t.parse
  rw [h2]
  simp only [a2]

set_option maxRecDepth 100000 in
theorem xml_parse_returns_committed_count_witness :
    (∃ lines ps added,
      xml_transcript (decoder.scripted sample_lines) (istream.of sample_text 0) =
        some (lines, true) ∧
      (∀ fuel, (istream.of sample_text 0).unread.length + 1 ≤ fuel →
        xml_parser_t.parse collab.sample (decoder.scripted sample_lines) fuel
          xml_state.initial (istream.of sample_text 0) journal_t.empty =
          some (.ok (added.length % 4294967296, ps))) ∧
      ps.st.curr_journal.entries = journal_t.empty.entries ++ added ∧
      added.length ≤ event_count lines) ∧
    returned (xml_parser_t.parse collab.sample (decoder.scripted sample_lines) 200
      xml_state.initial (istream.of sample_text 0) journal_t.empty) = some 1 :=
  ⟨xml_parse_returns_committed_count collab.sample (decoder.scripted sample_lines)
    xml_state.initial (istream.of sample_text 0) journal_t.empty rfl (by decide)
    (fun lines ok h => by
      have e : xml_transcript (decoder.scripted sample_lines) (istream.of sample_text 0) =
          some (sample_lines ++ [[]], true) := by decide
      rw [e] at h
      cases h
      exact ⟨rfl, by decide⟩),
   by decide⟩

set_option maxRecDepth 100000 in
/-- C3 fails as stated: on the file `<transaction></transaction>`, whose two
events the decoder reports without failure, no entry is open at the start
event, the `assert` of the handler fails and `xml_parser_t::parse` returns no
value; and on a file whose first line has 8200 blanks, on which the decoder
reports no event and no failure, the first `getline` raises failbit, end of
input is never seen and the call has not returned after any number of
rounds. -/
theorem xml_parse_no_return_counterexample :
    xml_transcript (decoder.scripted stray_transaction_lines)
      (istream.of stray_transaction_text 0) = some (stray_transaction_lines ++ [[]], true) ∧
    returned (xml_parser_t.parse collab.sample (decoder.scripted stray_transaction_lines) 16
      xml_state.initial (istream.of stray_transaction_text 0) journal_t.empty) = none ∧
    fault_ended (xml_parser_t.parse collab.sample (decoder.scripted stray_transaction_lines)
      16 xml_state.initial (istream.of stray_transaction_text 0) journal_t.empty) =
      some fault.assertion ∧
    (first_line (istream.of long_line_text 0)).length = 8200 ∧
    (∀ fuel, returned (xml_parser_t.parse collab.sample decoder.silent fuel xml_state.initial
      (istream.of long_line_text 0) journal_t.empty) = none) ∧
    (∀ fuel, fault_ended (xml_parser_t.parse collab.sample decoder.silent fuel
      xml_state.initial (istream.of long_line_text 0) journal_t.empty) = none) := by
  have hlen : (first_line (istream.of long_line_text 0)).length = 8200 :=
    first_line_blanks 8200
  have hlong : BUFSIZ - 2 < (first_line (istream.of long_line_text 0)).length := by
    rw [hlen]
    decide
  refine ⟨by decide, by decide, by decide, hlen, ?_, ?_⟩
  · intro fuel
    exact xml_parse_long_line collab.sample decoder.silent xml_state.initial
      (istream.of long_line_text 0) journal_t.empty rfl rfl hlong fuel
  · intro fuel
    exact xml_parse_silent_no_fault collab.sample xml_state.initial
      (istream.of long_line_text 0) journal_t.empty fuel

set_option maxRecDepth 100000 in
theorem show_general_samples :
    show_general (85 / 2) = "42.5" ∧ show_general (-(85 / 2)) = "-42.5" ∧
    show_general 100 = "100" ∧ show_general (1 / 8) = "0.125" ∧
    show_general (-(2469135 / 2)) = "-1.23457e+06" ∧
    show_general (-1234568) = "-1.23457e+06" ∧
    show_general 1000000 = "1e+06" ∧ show_general 999999 = "999999" ∧
    show_general (1999999 / 2) = "1e+06" ∧
    show_general (1 / 10000) = "0.0001" ∧ show_general (1 / 100000) = "1e-05" ∧
    show_general (1 / 3) = "0.333333" ∧ show_general (2 / 3) = "0.666667" ∧
    show_general (2000001 / 2) = "1e+06" ∧ show_general (200001 / 2) = "100000" ∧
    show_general (200003 / 2) = "100002" := by
  refine ⟨?_, ?_, ?_, ?_, ?_, ?_, ?_, ?_, ?_, ?_, ?_, ?_, ?_, ?_, ?_, ?_⟩ <;>
    with_unfolding_all decide

end ledger
